import Mathlib

/-!
# Meter PoV consensus core: vote manager and pacemaker

A shallow embedding of `consensus/qc_vote_manager.go`, `consensus/pacemaker.go` and
`consensus/types.go`, of the queues `consensus/pending_list.go` and
`consensus/outgoing_queue.go`, and of two pieces outside the consensus package,
`txpool/tx_object_map.go` and the bound and unbound methods of
`builtin/metertracker/meter_tracker_staking.go`, followed by the properties established about
them.

Conventions of the embedding

* `uint32`/`uint64` values are natural numbers; a wrap-around is written `% 2 ^ w` at the
  operation that can overflow.
* A Go map is the list of its entries (`GoMap`); the order in which `range` visits a map is an
  explicit argument (`RangeOrder`), since the Go runtime picks it.
* A pointer to a draft block is an address into a heap of drafts (`Option Addr`, `none` is the
  nil pointer); pointers to immutable records (`*draftQC`, `*block.QuorumCert`, `*vote`) are
  the record itself under `Option`.
* Code that the sources call but do not contain (the BLS system, the bit array, the proposal
  map, the reactor, message builders) is a field of a record of collaborators.
* What a method does outside the pacemaker's own fields (messages sent, channel sends,
  proposal map and chain updates) is appended to a trace of events kept with the pacemaker.
* Log statements are kept only for the pointer dereferences their arguments make.
* A buffered channel is the list of the values it holds and its capacity (`Chan`), as seen by
  the one goroutine that uses it while no other goroutine sends or receives; an operation
  that would block forever does not return (`Stop.blocked`).
* Messages and transaction objects handed over by pointer are the record itself: the methods
  embedded here are called with non-nil ones.
-/

namespace Consensus

/-! ## Go maps -/

/-- A Go map as the list of its entries, in insertion order. -/
structure GoMap (K V : Type) where
  entries : List (K × V)
deriving DecidableEq, Repr

namespace GoMap

variable {K V : Type}

/-- The value of `make(map[K]V)`. -/
def empty : GoMap K V := ⟨[]⟩

/-- Entry lookup in a list of entries: the first entry under the key. -/
def lookupEntries [DecidableEq K] : List (K × V) → K → Option V
  | [], _ => none
  | (k', v) :: rest, k => if k' = k then some v else lookupEntries rest k

/-- Entry update in a list of entries: overwrite the entry under the key, or append one. -/
def storeEntries [DecidableEq K] : List (K × V) → K → V → List (K × V)
  | [], k, v => [(k, v)]
  | (k', v') :: rest, k, v =>
    if k' = k then (k, v) :: rest else (k', v') :: storeEntries rest k v

/-- The two-valued read `v, ok := m[k]`; `none` when the key is absent. -/
def lookup [DecidableEq K] (m : GoMap K V) (k : K) : Option V := lookupEntries m.entries k

/-- The assignment `m[k] = v`. -/
def store [DecidableEq K] (m : GoMap K V) (k : K) (v : V) : GoMap K V :=
  ⟨storeEntries m.entries k v⟩

/-- The builtin `len(m)`. -/
def len (m : GoMap K V) : Nat := m.entries.length

end GoMap

/-! ## consensus/qc_vote_manager.go -/

/-- A byte slice. -/
abbrev Bytes := List Nat

/-- A 32-byte array (`[32]byte`, `meter.Bytes32`), as the number it encodes; zero value 0. -/
abbrev Bytes32 := Nat

/-- A parsed BLS signature (`bls.Element`, `bls.Signature`). -/
abbrev Element := Nat

/-- Modelled from the spec: the BLS `bls.System` of crypto/multi_sig is absent from the
sources; these are the three calls the vote manager makes on it, an error being `none`. -/
structure System where
  SigFromBytes : Bytes → Option Element
  Aggregate : List Element → Option Element
  SigToBytes : Element → Bytes

/-- Modelled from the spec: `cmn.BitArray` of libs/common is absent from the sources; a bit
array of committee size n is n booleans, and its `String()` rendering is the bits. -/
abbrev BitArray := List Bool

/-- The call `cmn.NewBitArray(n)`: n bits, all unset. -/
def NewBitArray (n : Nat) : BitArray := List.replicate n false

/-- The call `bitArray.SetIndex(i, v)`: an index outside the array is ignored. -/
def BitArray.SetIndex (b : BitArray) (i : Nat) (v : Bool) : BitArray := b.set i v

/-- The call `bitArray.GetIndex(i)`: an index outside the array reads unset. -/
def BitArray.GetIndex (b : BitArray) (i : Nat) : Bool := b.getD i false

/-- The struct `vote`. -/
structure vote where
  Signature : Bytes
  Hash : Bytes32
  BlsSig : Element
deriving DecidableEq, Repr

/-- The struct `voteKey`. -/
structure voteKey where
  Height : Nat
  Round : Nat
  BlockID : Bytes32
deriving DecidableEq, Repr

/-- The struct `block.QuorumCert` (absent from the sources), with the fields `Aggregate`
fills in; `VoterViolation` is always the empty list there and is left out. -/
structure QuorumCert where
  QCHeight : Nat
  QCRound : Nat
  EpochID : Nat
  VoterBitArrayStr : BitArray
  VoterMsgHash : Bytes32
  VoterAggSig : Bytes
deriving DecidableEq, Repr

/-- The struct `QCVoteManager` (without its logger). -/
structure QCVoteManager where
  system : System
  votes : GoMap voteKey (GoMap Nat vote)
  sealed : GoMap voteKey Bool
  committeeSize : Nat

/-- The order in which a `range` loop visits the entries of a vote map: some rearrangement
of the entries, chosen by the Go runtime. -/
structure RangeOrder where
  visit : List (Nat × vote) → List (Nat × vote)
  perm : ∀ l, (visit l).Perm l

/-- The range loop that visits the entries in insertion order. -/
def RangeOrder.inOrder : RangeOrder := ⟨fun l => l, fun l => List.Perm.refl l⟩

/-- The range loop that visits the entries in reverse insertion order. -/
def RangeOrder.backwards : RangeOrder := ⟨fun l => l.reverse, fun l => List.reverse_perm l⟩

/-- Modelled from the spec: `MajorityTwoThird` is absent from the sources; the spec gives it
as `count * 3 > n * 2`, computed on integers. -/
def MajorityTwoThird (count n : Nat) : Bool := decide (count * 3 > n * 2)

/-- The function `NewQCVoteManager`. -/
def NewQCVoteManager (system : System) (committeeSize : Nat) : QCVoteManager :=
  { system := system, votes := GoMap.empty, sealed := GoMap.empty,
    committeeSize := committeeSize }

/-- The read `m.votes[key]`: the vote map under the key, the nil (empty) map when absent. -/
def QCVoteManager.votesAt (m : QCVoteManager) (key : voteKey) : GoMap Nat vote :=
  (m.votes.lookup key).getD GoMap.empty

/-- The method `QCVoteManager.Count`. -/
def QCVoteManager.Count (m : QCVoteManager) (height round : Nat) (blockID : Bytes32) : Nat :=
  let key : voteKey := { Height := height, Round := round, BlockID := blockID }
  (m.votesAt key).len % 2 ^ 32

/-- The method `QCVoteManager.seal`. -/
def QCVoteManager.seal (m : QCVoteManager) (height round : Nat) (blockID : Bytes32) :
    QCVoteManager :=
  let key : voteKey := { Height := height, Round := round, BlockID := blockID }
  { m with sealed := m.sealed.store key true }

/-- The state of the loop `for index, v := range m.votes[key]` of `Aggregate`:
`sigs`, `bitArray` and `msgHash`. -/
structure AggregateLoop where
  sigs : List Element
  bitArray : BitArray
  msgHash : Bytes32
deriving DecidableEq, Repr

/-- One iteration of the loop of `Aggregate`. -/
def AggregateLoop.step (s : AggregateLoop) (e : Nat × vote) : AggregateLoop :=
  { sigs := s.sigs ++ [e.2.BlsSig]
    bitArray := s.bitArray.SetIndex e.1 true
    msgHash := e.2.Hash }

/-- The loop of `Aggregate` over the entries in the order they are visited. -/
def AggregateLoop.run (n : Nat) (visited : List (Nat × vote)) : AggregateLoop :=
  visited.foldl AggregateLoop.step { sigs := [], bitArray := NewBitArray n, msgHash := 0 }

/-- The method `QCVoteManager.Aggregate`: the manager after the call and the QC returned
(`none` for nil). -/
def QCVoteManager.Aggregate (ro : RangeOrder) (m : QCVoteManager) (height round : Nat)
    (blockID : Bytes32) (epoch : Nat) : QCVoteManager × Option QuorumCert :=
  let m := m.seal height round blockID
  let key : voteKey := { Height := height, Round := round, BlockID := blockID }
  let s := AggregateLoop.run m.committeeSize (ro.visit (m.votesAt key).entries)
  match m.system.Aggregate s.sigs with
  | none => (m, none)
  | some sigAgg =>
    (m, some { QCHeight := height, QCRound := round, EpochID := epoch,
               VoterBitArrayStr := s.bitArray, VoterMsgHash := s.msgHash,
               VoterAggSig := m.system.SigToBytes sigAgg })

/-- Lines 45-47 of `AddVote`: `if _, existed := m.votes[key]; !existed` the key gets a fresh
empty vote map. -/
def QCVoteManager.ensureVotes (m : QCVoteManager) (key : voteKey) : QCVoteManager :=
  if (m.votes.lookup key).isSome then m
  else { m with votes := m.votes.store key GoMap.empty }

/-- Line 58 of `AddVote`: `m.votes[key][index] = &vote{...}`. -/
def QCVoteManager.record (m : QCVoteManager) (key : voteKey) (index : Nat) (v : vote) :
    QCVoteManager :=
  { m with votes := m.votes.store key ((m.votesAt key).store index v) }

/-- The method `QCVoteManager.AddVote`: the manager after the call and the QC returned
(`none` for nil). -/
def QCVoteManager.AddVote (ro : RangeOrder) (m : QCVoteManager) (index epoch height round : Nat)
    (blockID : Bytes32) (sig : Bytes) (hash : Bytes32) : QCVoteManager × Option QuorumCert :=
  let key : voteKey := { Height := height, Round := round, BlockID := blockID }
  let m1 := m.ensureVotes key
  if (m1.sealed.lookup key).isSome then (m1, none)
  else
    match m1.system.SigFromBytes sig with
    | none => (m1, none)
    | some blsSig =>
      let m2 := m1.record key index { Signature := sig, Hash := hash, BlsSig := blsSig }
      let voteCount := m2.votes.len % 2 ^ 32
      if MajorityTwoThird voteCount m2.committeeSize then
        (m2.seal height round blockID).Aggregate ro height round blockID epoch
      else (m2, none)

/-! ## consensus/types.go and the records the pacemaker works on -/

/-- The address of a draft block in the heap of drafts; a `*draftBlock` is an `Option Addr`. -/
abbrev Addr := Nat

/-- Why a call did not return: a runtime panic (a nil dereference or an explicit `panic`), the
iteration budget given to a loop ran out, or the goroutine blocks on a channel operation that
no other goroutine will complete. -/
inductive Stop where
  | fault
  | fuel
  | blocked
deriving DecidableEq, Repr

/-- The outcome of a call that can panic. -/
abbrev Run (α : Type) := Except Stop α

/-- A pointer dereference: the nil pointer faults. -/
def nonNil {α : Type} : Option α → Run α
  | none => Except.error Stop.fault
  | some a => Except.ok a

/-- A pointer dereference whose value is only logged. -/
def touch {α : Type} : Option α → Run Unit
  | none => Except.error Stop.fault
  | some _ => Except.ok ()

/-- The error values the pacemaker tells apart. -/
inductive Err where
  | ErrParentBlockEmpty
  | ErrInvalidRound
  | errKnownBlock
  | ErrBlockExist
  | other (code : Nat)
deriving DecidableEq, Repr

/-- The block types (`block.BLOCK_TYPE_K_BLOCK`, ... and the `BlockType` of the consensus
package, `KBlockType`, ...). -/
inductive BlockType where
  | KBlockType
  | MBlockType
  | StopCommitteeType
deriving DecidableEq, Repr

/-- Modelled from the spec: `block.Block` is absent from the sources; these are the values
its methods return to the pacemaker (`ID()`, `ParentID()`, `Number()`, `LastKBlockHeight()`,
`BlockType()`, the field `QC`, the nonce of `GetKBlockData()`, and its encoding by
`block.BlockEncodeBytes`). A method called on a nil `*block.Block` faults. -/
structure Block where
  ID : Bytes32
  ParentID : Bytes32
  Number : Nat
  LastKBlockHeight : Nat
  BlockType : BlockType
  QC : Option QuorumCert
  KBlockNonce : Nat
  Encoded : Bytes
deriving DecidableEq, Repr

/-- Modelled from the spec: the method `block.Block.IsKBlock` is absent from the sources; a
K-block is a block of type K-block. -/
def Block.IsKBlock (b : Block) : Bool := decide (b.BlockType = BlockType.KBlockType)

/-- The struct `draftQC`. -/
structure draftQC where
  QCNode : Option Addr
  QC : Option QuorumCert
deriving DecidableEq, Repr

/-- The struct `draftBlock`, without the execution results (`Stage`, `Receipts`,
`txsToRemoved`, `txsToReturned`) that the pacemaker does not read. -/
structure draftBlock where
  Height : Nat
  Round : Nat
  Parent : Option Addr
  Justify : Option draftQC
  Committed : Bool
  ProposedBlock : Option Block
  RawBlock : Bytes
  CheckPoint : Int
  BlockType : BlockType
  SuccessProcessed : Bool
  ProcessError : Option Err
deriving DecidableEq, Repr

/-- The memory holding the draft blocks: the draft at each address, and the next free
address. -/
structure Heap where
  cell : Addr → draftBlock
  next : Addr

/-- The expression `*ptr` for a `*draftBlock`. -/
def Heap.deref (h : Heap) (ptr : Option Addr) : Run draftBlock :=
  match ptr with
  | none => Except.error Stop.fault
  | some a => Except.ok (h.cell a)

/-- The expression `&draftBlock{...}`: the draft is placed at the next free address. -/
def Heap.alloc (h : Heap) (d : draftBlock) : Heap × Addr :=
  ({ cell := fun a => if a = h.next then d else h.cell a, next := h.next + 1 }, h.next)

/-- The function `newPMQuorumCert`. -/
def newPMQuorumCert (qc : Option QuorumCert) (qcNode : Option Addr) : Option draftQC :=
  some { QCNode := qcNode, QC := qc }

/-- The struct `commitReadyBlock`. -/
structure commitReadyBlock where
  block : Option Addr
  escortQC : Option QuorumCert
deriving DecidableEq, Repr

/-- The struct `EpochEndInfo`. -/
structure EpochEndInfo where
  Height : Nat
  LastKBlockHeight : Nat
  Nonce : Nat
  Epoch : Nat
deriving DecidableEq, Repr

/-- The struct `PMRoundTimeoutInfo`. -/
structure PMRoundTimeoutInfo where
  height : Nat
  round : Nat
  counter : Nat
deriving DecidableEq, Repr

/-- The enum `roundUpdateReason`. -/
inductive roundUpdateReason where
  | UpdateOnBeat
  | UpdateOnRegularProposal
  | UpdateOnTimeout
  | UpdateOnTimeoutCertProposal
  | UpdateOnKBlockProposal
deriving DecidableEq, Repr

/-- The enum `roundTimerUpdateReason`. -/
inductive roundTimerUpdateReason where
  | TimerInit
  | TimerInc
  | TimerInitLong
deriving DecidableEq, Repr

/-- The enum `beatReason`. -/
inductive beatReason where
  | BeatOnInit
  | BeatOnHigherQC
  | BeatOnTimeout
deriving DecidableEq, Repr

/-- The method `draftBlock.ToString`, kept for the dereferences it makes: the string itself
is not modelled. -/
def draftBlock.ToString (h : Heap) (ptr : Option Addr) : Run Unit :=
  match ptr with
  | none => pure ()
  | some a =>
    let pb := h.cell a
    if pb.Committed then do
      let blk ← nonNil pb.ProposedBlock
      let _ ← nonNil blk.QC
      pure ()
    else do
      let justify ← nonNil pb.Justify
      let _ ← nonNil justify.QC
      pure ()

/-- The method `draftQC.ToString`, kept for the dereferences it makes. -/
def draftQC.ToString (ptr : Option draftQC) : Run Unit := do
  let qc ← nonNil ptr
  let _ ← nonNil qc.QC
  pure ()

/-! ## The messages and collaborators of the pacemaker -/

/-- Modelled from the spec: the struct `TimeoutCert` is absent from the sources; the
pacemaker reads its round. -/
structure TimeoutCert where
  Epoch : Nat
  Round : Nat
deriving DecidableEq, Repr

/-- Modelled from the spec: the message types are absent from the sources; this is the
proposal message with the fields and the decoded block that `OnReceiveProposal` reads. -/
structure PMProposalMessage where
  Height : Nat
  Round : Nat
  ParentHeight : Nat
  ParentRound : Nat
  DecodeBlock : Option Block
  TimeoutCert : Option TimeoutCert
deriving DecidableEq, Repr

/-- Modelled from the spec: the vote message with the fields `OnReceiveVote` reads. -/
structure PMVoteMessage where
  Epoch : Nat
  VoteHeight : Nat
  VoteRound : Nat
  VoteBlockID : Bytes32
  SignerIndex : Nat
  VoteSignature : Bytes
  VoteHash : Bytes32
deriving DecidableEq, Repr

/-- Modelled from the spec: the timeout message with the fields `OnReceiveTimeout` reads. -/
structure PMTimeoutMessage where
  Epoch : Nat
  WishRound : Nat
  SignerIndex : Nat
  WishVoteSig : Bytes
  WishVoteHash : Bytes32
  LastVoteHeight : Nat
  LastVoteRound : Nat
  LastVoteBlockID : Bytes32
  LastVoteSignature : Bytes
  LastVoteHash : Bytes32
  DecodeQCHigh : Option QuorumCert
deriving DecidableEq, Repr

/-- A consensus message of one of the three types the main loop dispatches on. -/
inductive ConsensusMessage where
  | proposal (msg : PMProposalMessage)
  | vote (msg : PMVoteMessage)
  | timeout (msg : PMTimeoutMessage)
deriving DecidableEq, Repr

/-- The struct `IncomingMsg` of the incoming queue: a message and its expiry time. -/
structure IncomingMsg where
  Msg : ConsensusMessage
  ExpireAt : Nat
deriving DecidableEq, Repr

/-- The round timer armed by `startRoundTimer`: the round it was armed for and its interval in
nanoseconds. -/
structure RoundTimer where
  round : Nat
  interval : Int
deriving DecidableEq, Repr

/-- What a pacemaker call does to the world outside its own fields, in the order it does it. -/
inductive Event where
  | sendMsg (msg : ConsensusMessage) (copyMyself : Bool)
  | inQueueAdd (mi : IncomingMsg)
  | proposalMapAdd (draft : Option Addr)
  | proposalMapPrune (draft : Addr)
  | commitBlock (draft : Addr) (escortQC : Option QuorumCert)
  | revertTo (checkPoint : Int)
  | epochEnd (info : EpochEndInfo)
  | scheduleOnBeat (epoch round : Nat) (reason : beatReason) (delay : Nat)
  | goMainLoop
deriving DecidableEq, Repr

/-- The fields of the reactor and of its configuration that the pacemaker reads or writes. -/
structure Reactor where
  curEpoch : Nat
  InitCfgdDelegates : Bool
  EpochMBlockCount : Nat
deriving DecidableEq, Repr

/-- The struct `Pacemaker`: its own fields, the reactor fields it touches, the heap its draft
pointers point into, and the trace of what it did to the outside (channels, proposal map,
chain, network). -/
structure Pacemaker where
  reactor : Reactor
  heap : Heap
  currentRound : Nat
  mainLoopStarted : Bool
  minMBlocks : Nat
  qcVoteManager : QCVoteManager
  lastVotingHeight : Nat
  lastVoteMsg : Option PMVoteMessage
  QCHigh : Option draftQC
  blockLocked : Option Addr
  lastOnBeatRound : Int
  roundTimer : Option RoundTimer
  TCHigh : Option TimeoutCert
  timeoutCounter : Nat
  trace : List Event

/-- The pacemaker records an effect on the outside. -/
def Pacemaker.emit (p : Pacemaker) (e : Event) : Pacemaker :=
  { p with trace := p.trace ++ [e] }

/-- The result of the proof-of-work decision feed. -/
structure PowResult where
  Nonce : Nat
  Raw : Bytes
deriving DecidableEq, Repr

/-- Modelled from the spec: the code the pacemaker calls that is absent from the sources.
The reactor and chain (`amIRoundProproser`, `PrepareEnvForPacemaker`, `BestQC`,
`GetTrunkBlock`, `NewState` failing, `IsStaging`), the proposal map lookups, the timeout vote
manager, the proof-of-work feed, and the pacemaker methods `verifyTimeoutCert`,
`IsExtendedFromBLocked`, `ValidateProposal`, `commitBlock` and the message and block builders.
The absent pacemaker methods may read the pacemaker; they do not write its fields. An `error`
result is `some`, nil is `none`. -/
structure World where
  rangeOrder : RangeOrder
  amIRoundProproser : Nat → Bool
  PrepareEnvForPacemaker : Reactor → Reactor
  BestQC : Option QuorumCert
  GetTrunkBlock : Nat → Except Err (Option Block)
  NewStateFails : Bool
  IsStaging : Bool
  GetOne : Nat → Nat → Bytes32 → Option Addr
  GetByID : Bytes32 → Option Addr
  GetOneByEscortQC : Option QuorumCert → Option Addr
  draftBlockMatchQC : draftBlock → Option QuorumCert → Bool × Option Err
  tcAddVote : Nat → Nat → Nat → Bytes → Bytes32 → Bool
  tcAggregate : Nat → Nat → Option TimeoutCert
  GetPowDecision : Bool × Option PowResult
  verifyTimeoutCert : Pacemaker → Option TimeoutCert → Nat → Bool
  IsExtendedFromBLocked : Pacemaker → Addr → Bool
  ValidateProposal : Pacemaker → Addr → Option Err
  commitBlock : Pacemaker → Addr → Option QuorumCert → Option Err
  BuildVoteMessage : Pacemaker → PMProposalMessage → Except Err PMVoteMessage
  BuildProposalMessage : Pacemaker → Nat → Nat → Addr → Option TimeoutCert →
    Except Err PMProposalMessage
  BuildTimeoutMessage : Pacemaker → Option draftQC → PMRoundTimeoutInfo →
    Option PMVoteMessage → Except Err PMTimeoutMessage
  buildStopCommitteeBlock : Pacemaker → Addr → draftQC → Nat → Option Err × Option draftBlock
  buildKBlock : Pacemaker → Addr → draftQC → Nat → PowResult → Option Err × Option draftBlock
  buildMBlock : Pacemaker → Addr → draftQC → Nat → Option Err × Option draftBlock

/-! ## consensus/pacemaker.go -/

/-- The constant `RoundTimeoutInterval`, 12 s in nanoseconds. -/
def RoundTimeoutInterval : Int := 12 * 1000000000

/-- The constant `RoundTimeoutLongInterval`, 21 s in nanoseconds. -/
def RoundTimeoutLongInterval : Int := 21 * 1000000000

/-- The constant `MIN_MBLOCKS_AN_EPOCH`. -/
def MIN_MBLOCKS_AN_EPOCH : Nat := 4

/-- The value of a signed 64-bit computation: the integer result wrapped into
the range of `int64`. -/
def wrapInt64 (x : Int) : Int := (x + 2 ^ 63) % 2 ^ 64 - 2 ^ 63

/-- The value of a signed 32-bit computation, also the conversion `int32(x)`. -/
def wrapInt32 (x : Int) : Int := (x + 2 ^ 31) % 2 ^ 32 - 2 ^ 31

/-- The condition of the `if` of `UpdateQCHigh`,
`qc.QC.QCHeight > p.QCHigh.QC.QCHeight || (qc.QC.QCHeight == p.QCHigh.QCNode.Height &&
qc.QC.QCRound > p.QCHigh.QCNode.Round)`, evaluated left to right with short circuit, as Go
does: the QC node of `QCHigh` is read only when the first comparison fails. -/
def UpdateQCHighCond (p : Pacemaker) (qc : Option draftQC) : Run Bool := do
  let cand ← nonNil qc
  let candQC ← nonNil cand.QC
  let high ← nonNil p.QCHigh
  let highQC ← nonNil high.QC
  if candQC.QCHeight > highQC.QCHeight then pure true
  else do
    let node ← p.heap.deref high.QCNode
    pure (decide (candQC.QCHeight = node.Height) && decide (candQC.QCRound > node.Round))

/-- The method `Pacemaker.UpdateQCHigh`: the pacemaker after the call and the boolean
returned. -/
def UpdateQCHigh (p : Pacemaker) (qc : Option draftQC) : Run (Pacemaker × Bool) := do
  let oqc := p.QCHigh
  let updated ← UpdateQCHighCond p qc
  let p := if updated then { p with QCHigh := qc } else p
  draftQC.ToString oqc
  draftQC.ToString p.QCHigh
  pure (p, updated)

/-- The method `Pacemaker.stopRoundTimer`. -/
def stopRoundTimer (p : Pacemaker) : Pacemaker := { p with roundTimer := none }

/-- The interval `baseInterval * (1 << power)` of `startRoundTimer`, in 64-bit signed
arithmetic: a shift by 64 or more gives 0. -/
def timeoutInterval (baseInterval : Int) (power : Nat) : Int :=
  wrapInt64 (baseInterval * wrapInt64 (2 ^ power))

/-- The `switch reason` of `startRoundTimer`: the base interval and the timeout counter
after it. -/
def startRoundTimerSwitch (timeoutCounter : Nat) : roundTimerUpdateReason → Int × Nat
  | roundTimerUpdateReason.TimerInitLong => (RoundTimeoutLongInterval, 0)
  | roundTimerUpdateReason.TimerInit => (RoundTimeoutInterval, 0)
  | roundTimerUpdateReason.TimerInc => (RoundTimeoutInterval, (timeoutCounter + 1) % 2 ^ 64)

/-- The method `Pacemaker.startRoundTimer`. -/
def startRoundTimer (p : Pacemaker) (round : Nat) (reason : roundTimerUpdateReason) :
    Pacemaker :=
  if p.roundTimer.isNone then
    let sw := startRoundTimerSwitch p.timeoutCounter reason
    let baseInterval := sw.1
    let counter := sw.2
    let power := if counter > 1 then counter - 1 else 0
    { p with timeoutCounter := counter,
             roundTimer := some { round := round,
                                  interval := timeoutInterval baseInterval power } }
  else p

/-- The method `Pacemaker.resetRoundTimer`. -/
def resetRoundTimer (p : Pacemaker) (round : Nat) (reason : roundTimerUpdateReason) :
    Pacemaker :=
  startRoundTimer (stopRoundTimer p) round reason

/-- The `switch reason` of `enterRound`: the pacemaker with its timer reset where the case
resets it, and the value of `updated` after the switch. -/
def enterRoundSwitch (w : World) (p : Pacemaker) (round : Nat) (reason : roundUpdateReason)
    (updated : Bool) : Pacemaker × Bool :=
  match reason with
  | roundUpdateReason.UpdateOnBeat | roundUpdateReason.UpdateOnRegularProposal =>
    if round > p.currentRound then
      (resetRoundTimer p round roundTimerUpdateReason.TimerInit, true)
    else if round = p.currentRound ∧ w.amIRoundProproser round = true then
      (resetRoundTimer p round roundTimerUpdateReason.TimerInit, false)
    else (p, updated)
  | roundUpdateReason.UpdateOnKBlockProposal =>
    if round > p.currentRound then
      (resetRoundTimer p round roundTimerUpdateReason.TimerInitLong, true)
    else if round = p.currentRound ∧ w.amIRoundProproser round = true then
      (resetRoundTimer p round roundTimerUpdateReason.TimerInitLong, false)
    else (p, updated)
  | roundUpdateReason.UpdateOnTimeoutCertProposal =>
    if round ≥ p.currentRound then
      (resetRoundTimer p round roundTimerUpdateReason.TimerInit, updated)
    else (p, updated)
  | roundUpdateReason.UpdateOnTimeout =>
    (resetRoundTimer p round roundTimerUpdateReason.TimerInc, updated)

/-- The method `Pacemaker.enterRound`: the pacemaker after the call and the boolean
returned. -/
def enterRound (w : World) (p : Pacemaker) (round : Nat) (reason : roundUpdateReason) :
    Pacemaker × Bool :=
  let updated := decide (p.currentRound ≠ round)
  let r := enterRoundSwitch w p round reason updated
  if r.2 then ({ r.1 with currentRound := round }, true)
  else (r.1, false)

/-- The sum of two `uint32` values. -/
def add32 (a b : Nat) : Nat := (a + b) % 2 ^ 32

/-- The difference of two `uint32` values. -/
def sub32 (a b : Nat) : Nat := (a % 2 ^ 32 + 2 ^ 32 - b % 2 ^ 32) % 2 ^ 32

/-- The method `Pacemaker.ScheduleOnBeat`: the beat is handed to a timer that will put it on
the beat channel after the delay (in nanoseconds). -/
def ScheduleOnBeat (p : Pacemaker) (epoch round : Nat) (reason : beatReason) (d : Nat) :
    Pacemaker :=
  p.emit (Event.scheduleOnBeat epoch round reason d)

/-- The method `Pacemaker.SendEpochEndInfo`. -/
def SendEpochEndInfo (p : Pacemaker) (b : draftBlock) : Run Pacemaker := do
  let blk ← nonNil b.ProposedBlock
  if blk.IsKBlock then
    let qc ← nonNil blk.QC
    pure (p.emit (Event.epochEnd
      { Height := blk.Number, LastKBlockHeight := blk.LastKBlockHeight,
        Nonce := blk.KBlockNonce, Epoch := qc.EpochID }))
  else pure p

/-- The branch `if err != nil` of `OnCommit`, after `p.commitBlock(blk, escortQC)` returned
`err`: an error other than `chain.ErrBlockExist` and `errKnownBlock` reverts the state to the
draft's checkpoint, and panics when the state cannot be created. -/
def OnCommitErr (w : World) (p : Pacemaker) (blk : draftBlock) (err : Option Err) :
    Run Pacemaker :=
  match err with
  | none => pure p
  | some e =>
    if e ≠ Err.ErrBlockExist ∧ e ≠ Err.errKnownBlock then do
      let _ ← nonNil blk.ProposedBlock
      if w.NewStateFails then Except.error Stop.fault
      else pure (p.emit (Event.revertTo blk.CheckPoint))
    else pure p

/-- The body of the loop of `OnCommit` for one commit-ready block. -/
def OnCommitOne (w : World) (p : Pacemaker) (b : commitReadyBlock) : Run Pacemaker :=
  match b.block with
  | none => pure p
  | some a =>
    let blk := p.heap.cell a
    let escortQC := b.escortQC
    if blk.SuccessProcessed = false then pure p
    else if blk.ProcessError = some Err.errKnownBlock then pure p
    else do
      let err := w.commitBlock p a escortQC
      let p1 ← OnCommitErr w (p.emit (Event.commitBlock a escortQC)) blk err
      let p2 ← (if blk.BlockType = BlockType.KBlockType then SendEpochEndInfo p1 blk
                else pure p1)
      pure (p2.emit (Event.proposalMapPrune a))

/-- The method `Pacemaker.OnCommit`. -/
def OnCommit (w : World) (p : Pacemaker) : List commitReadyBlock → Run Pacemaker
  | [] => pure p
  | b :: rest => do
    let p ← OnCommitOne w p b
    OnCommit w p rest

/-- The loop `for b := blockPrime; b.Parent.Height > p.blockLocked.Height; b = b.Parent` of
`Update`, which prepends `{b.Parent, b.ProposedBlock.QC}` to `commitReady`; it is given a
budget of iterations. -/
def commitReadyLoop (p : Pacemaker) :
    Nat → Addr → List commitReadyBlock → Run (List commitReadyBlock)
  | 0, _, _ => Except.error Stop.fuel
  | fuel + 1, b, commitReady => do
    let bD := p.heap.cell b
    let parent ← nonNil bD.Parent
    let locked ← p.heap.deref p.blockLocked
    if (p.heap.cell parent).Height > locked.Height then
      let blk ← nonNil bD.ProposedBlock
      commitReadyLoop p fuel parent ({ block := bD.Parent, escortQC := blk.QC } :: commitReady)
    else pure commitReady

/-- The part of `Update` after `UpdateQCHigh(bnew.Justify)`: the direct-parent test, the
commit loop, `OnCommit`, and the assignment of `blockLocked`. -/
def UpdateCommit (w : World) (fuel : Nat) (p : Pacemaker) (blockPrime : Addr)
    (block : Option Addr) : Run Pacemaker :=
  if (p.heap.cell blockPrime).Parent ≠ block then pure p
  else do
    let commitReady ← commitReadyLoop p fuel blockPrime []
    let p ← OnCommit w p commitReady
    pure { p with blockLocked := block }

/-- The method `Pacemaker.Update`; `fuel` bounds the iterations of its commit loop. The
error it returns is always nil and is left out. -/
def Update (w : World) (fuel : Nat) (p : Pacemaker) (bnew : Option Addr) : Run Pacemaker := do
  let bnewD ← p.heap.deref bnew
  let justify ← nonNil bnewD.Justify
  let blockPrime := justify.QCNode
  match blockPrime with
  | none => pure p
  | some bp =>
    let blockPrimeD := p.heap.cell bp
    if blockPrimeD.Committed then do
      let _ ← nonNil blockPrimeD.ProposedBlock
      pure p
    else do
      let bpJustify ← nonNil blockPrimeD.Justify
      let block := bpJustify.QCNode
      let blockD ← p.heap.deref block
      let _ ← (if blockD.Committed then touch blockD.ProposedBlock else pure ())
      match block with
      | none => do
        let r ← UpdateQCHigh p bnewD.Justify
        pure r.1
      | some _ => do
        draftBlock.ToString p.heap bnew
        draftBlock.ToString p.heap blockPrime
        draftBlock.ToString p.heap block
        let r ← UpdateQCHigh p bnewD.Justify
        UpdateCommit w fuel r.1 bp block

/-- The result of a block builder placed in the heap: the pacemaker, the error and the
pointer to the built draft. -/
def placeBuilt (p : Pacemaker) (built : Option Err × Option draftBlock) :
    Pacemaker × Option Err × Option Addr :=
  match built.2 with
  | none => (p, built.1, none)
  | some d => ({ p with heap := (p.heap.alloc d).1 }, built.1, some (p.heap.alloc d).2)

/-- Lines 92-96 of `CreateLeaf`: `proposeKBlock` and `powResults`, asked of the proof-of-work
pool when enough M-blocks followed the last K-block and no timeout certificate is held. -/
def proposeKBlock (w : World) (p : Pacemaker) (parentBlock : Block) (timeout : Bool) :
    Bool × Option PowResult :=
  if sub32 (add32 parentBlock.Number 1) parentBlock.LastKBlockHeight ≥ p.minMBlocks
      ∧ timeout = false then w.GetPowDecision
  else (false, none)

/-- The method `Pacemaker.CreateLeaf`: the pacemaker (its heap holds the built draft), the
error and the draft returned. -/
def CreateLeaf (w : World) (p : Pacemaker) (parent : Option Addr) (justify : Option draftQC)
    (round : Nat) : Run (Pacemaker × Option Err × Option Addr) := do
  let j ← nonNil justify
  let jQC ← nonNil j.QC
  let parentA ← nonNil parent
  let parentD := p.heap.cell parentA
  let timeout := p.TCHigh.isSome
  match parentD.ProposedBlock with
  | none => pure (p, some Err.ErrParentBlockEmpty, none)
  | some parentBlock =>
    let pow := proposeKBlock w p parentBlock timeout
    let proposeStopCommitteeBlock := decide (parentBlock.BlockType = BlockType.KBlockType)
    if proposeStopCommitteeBlock then
      pure (placeBuilt p (w.buildStopCommitteeBlock p parentA j round))
    else if pow.1 then do
      let powResults ← nonNil pow.2
      pure (placeBuilt p (w.buildKBlock p parentA j round powResults))
    else if p.reactor.curEpoch ≠ 0 ∧ round ≠ 0 ∧ round ≤ jQC.QCRound then
      pure (p, some Err.ErrInvalidRound, none)
    else if p.reactor.curEpoch ≠ 0 ∧ round ≠ 0 ∧ round ≤ parentD.Round then
      pure (p, some Err.ErrInvalidRound, none)
    else pure (placeBuilt p (w.buildMBlock p parentA j round))

/-- The method `Pacemaker.OnPropose`. -/
def OnPropose (w : World) (p : Pacemaker) (qc : Option draftQC) (round : Nat) :
    Run Pacemaker := do
  let q ← nonNil qc
  let parent := w.GetOneByEscortQC q.QC
  let r ← CreateLeaf w p parent qc round
  let p := r.1
  match r.2.1 with
  | some _ => pure p
  | none =>
    let bnewA ← nonNil r.2.2
    let bnew := p.heap.cell bnewA
    let blk ← nonNil bnew.ProposedBlock
    let proposedQC ← nonNil blk.QC
    if bnew.Height ≤ proposedQC.QCHeight then pure p
    else
      match w.BuildProposalMessage p bnew.Height bnew.Round bnewA p.TCHigh with
      | Except.error _ => pure p
      | Except.ok msg =>
        let p := { p with TCHigh := none }
        let p := p.emit (Event.proposalMapAdd (some bnewA))
        pure (p.emit (Event.sendMsg (ConsensusMessage.proposal msg) true))

/-- The round check of `OnReceiveProposal` (its lines 299-315): true when the handler returns
there, without voting. -/
def proposalRoundRejected (justify : Option draftQC) (bnew : draftBlock) : Bool :=
  match justify, bnew.Justify with
  | some j, some bj =>
    match j.QC, bj.QC with
    | some jQC, some bjQC =>
      let justifyRound := jQC.QCRound
      let parentRound := bjQC.QCRound
      if parentRound > 0 ∧ justifyRound > 0 then
        if parentRound ≥ bnew.Round then true
        else if justifyRound ≥ bnew.Round then true
        else false
      else false
    | _, _ => false
  | _, _ => false

/-- The voting branch of `OnReceiveProposal` (its lines 287-333), entered when
`bnew.Height > p.lastVotingHeight && p.IsExtendedFromBLocked(bnew)`: the pacemaker after it,
and whether the handler goes on to `Update` (false when the branch returned). -/
def proposalVote (w : World) (p : Pacemaker) (msg : PMProposalMessage) (blk : Block)
    (justify : Option draftQC) (validTimeout : Bool) (bnewA : Addr) : Pacemaker × Bool :=
  let bnew := p.heap.cell bnewA
  let p :=
    if validTimeout then
      (enterRound w p bnew.Round roundUpdateReason.UpdateOnTimeoutCertProposal).1
    else if blk.IsKBlock then
      (enterRound w p bnew.Round roundUpdateReason.UpdateOnKBlockProposal).1
    else (enterRound w p bnew.Round roundUpdateReason.UpdateOnRegularProposal).1
  if proposalRoundRejected justify bnew then (p, false)
  else
    match w.ValidateProposal p bnewA with
    | some _ => (p, false)
    | none =>
      match w.BuildVoteMessage p msg with
      | Except.error _ => (p, false)
      | Except.ok vmsg =>
        let p := p.emit (Event.sendMsg (ConsensusMessage.vote vmsg) false)
        ({ p with lastVotingHeight := bnew.Height, lastVoteMsg := some vmsg }, true)

/-- Lines 273-286 of `OnReceiveProposal`: the draft `bnew` of the proposed block in the
proposal map, and the pacemaker once it is there. When `proposalMap.GetByID(blk.ID())` finds
no draft, one is created and added; `GetByID` of the same ID then returns the added draft. -/
def proposalDraft (w : World) (p : Pacemaker) (msg : PMProposalMessage) (blk : Block)
    (parent : Addr) (justify : Option draftQC) : Pacemaker × Addr :=
  match w.GetByID blk.ID with
  | some a => (p, a)
  | none =>
    let d : draftBlock :=
      { Height := msg.Height, Round := msg.Round, Parent := some parent, Justify := justify,
        Committed := false, ProposedBlock := some blk, RawBlock := blk.Encoded,
        CheckPoint := 0, BlockType := blk.BlockType, SuccessProcessed := false,
        ProcessError := none }
    (({ p with heap := (p.heap.alloc d).1 }).emit
      (Event.proposalMapAdd (some (p.heap.alloc d).2)), (p.heap.alloc d).2)

/-- Lines 286-335 of `OnReceiveProposal`, from `bnew := p.proposalMap.GetByID(blk.ID())` on:
the voting rule, the vote, and `Update(bnew)`. -/
def proposalVoteAndUpdate (w : World) (fuel : Nat) (p : Pacemaker) (msg : PMProposalMessage)
    (blk : Block) (justify : Option draftQC) (validTimeout : Bool) (bnewA : Addr) :
    Run Pacemaker :=
  let bnew := p.heap.cell bnewA
  if bnew.Height > p.lastVotingHeight ∧ w.IsExtendedFromBLocked p bnewA = true then
    let r := proposalVote w p msg blk justify validTimeout bnewA
    if r.2 then Update w fuel r.1 (some bnewA) else pure r.1
  else Update w fuel p (some bnewA)

/-- The method `Pacemaker.OnReceiveProposal`; `fuel` bounds the commit loop of `Update`. -/
def OnReceiveProposal (w : World) (fuel : Nat) (p : Pacemaker) (mi : IncomingMsg) :
    Run Pacemaker :=
  match mi.Msg with
  | ConsensusMessage.vote _ => Except.error Stop.fault
  | ConsensusMessage.timeout _ => Except.error Stop.fault
  | ConsensusMessage.proposal msg => do
    let height := msg.Height
    let locked ← p.heap.deref p.blockLocked
    if height < locked.Height then pure p
    else do
      let blk ← nonNil msg.DecodeBlock
      let qc := blk.QC
      match w.GetOne msg.ParentHeight msg.ParentRound blk.ParentID with
      | none => pure (p.emit (Event.inQueueAdd mi))
      | some parent =>
        let qcNode := parent
        let _ ← nonNil qc
        let m := w.draftBlockMatchQC (p.heap.cell qcNode) qc
        if ¬ (m.1 = true ∧ m.2 = none) then do
          let _ ← nonNil (p.heap.cell parent).ProposedBlock
          pure p
        else
          let justify := newPMQuorumCert qc (some qcNode)
          let validTimeout := w.verifyTimeoutCert p msg.TimeoutCert msg.Round
          let placed := proposalDraft w p msg blk parent justify
          proposalVoteAndUpdate w fuel placed.1 msg blk justify validTimeout placed.2

/-- The method `Pacemaker.OnReceiveVote`. The call site passes `AddVote` no epoch and uses
its result as a boolean; it is given the reactor's current epoch here, the epoch the
following `Aggregate` call passes, and the boolean is whether a QC came back. -/
def OnReceiveVote (w : World) (p : Pacemaker) (mi : IncomingMsg) : Run Pacemaker :=
  match mi.Msg with
  | ConsensusMessage.proposal _ => Except.error Stop.fault
  | ConsensusMessage.timeout _ => Except.error Stop.fault
  | ConsensusMessage.vote msg => do
    let height := msg.VoteHeight
    let round := msg.VoteRound
    if round < p.currentRound then pure p
    else if w.amIRoundProproser (add32 round 1) = false then pure p
    else
      match w.GetOne height round msg.VoteBlockID with
      | none => pure p
      | some b =>
        let added := p.qcVoteManager.AddVote w.rangeOrder msg.SignerIndex p.reactor.curEpoch
          height round msg.VoteBlockID msg.VoteSignature msg.VoteHash
        let p := { p with qcVoteManager := added.1 }
        let qcFormed := added.2.isSome
        if qcFormed = false then pure p
        else
          let agg := p.qcVoteManager.Aggregate w.rangeOrder height round msg.VoteBlockID
            p.reactor.curEpoch
          let p := { p with qcVoteManager := agg.1 }
          match agg.2 with
          | none => pure p
          | some qc => do
            let pmQC : draftQC := { QCNode := some b, QC := some qc }
            let r ← UpdateQCHigh p (some pmQC)
            if r.2 then
              pure (ScheduleOnBeat r.1 r.1.reactor.curEpoch (add32 qc.QCRound 1)
                beatReason.BeatOnHigherQC 1000000000)
            else pure r.1

/-- The method `Pacemaker.OnBeat`. -/
def OnBeat (w : World) (p : Pacemaker) (epoch round : Nat) (reason : beatReason) :
    Run Pacemaker :=
  if epoch < p.reactor.curEpoch then pure p
  else if epoch = p.reactor.curEpoch ∧ wrapInt32 (round : Int) ≤ p.lastOnBeatRound then pure p
  else do
    let p := { p with lastOnBeatRound := wrapInt32 (round : Int) }
    let high ← nonNil p.QCHigh
    match w.GetOneByEscortQC high.QC with
    | none => pure p
    | some _ =>
      let p := if reason = beatReason.BeatOnInit then
                 resetRoundTimer p round roundTimerUpdateReason.TimerInit
               else p
      if w.amIRoundProproser round = false then pure p
      else
        let p := (enterRound w p round roundUpdateReason.UpdateOnBeat).1
        OnPropose w p p.QCHigh round

/-- Lines 479-485 of `OnReceiveTimeout`: the wish vote is given to the timeout vote manager;
when a TC is formed it becomes `TCHigh`. The pacemaker after it and `tcUpdated`. -/
def timeoutWishVote (w : World) (p : Pacemaker) (msg : PMTimeoutMessage) : Pacemaker × Bool :=
  let tcFormed := w.tcAddVote msg.SignerIndex msg.Epoch msg.WishRound msg.WishVoteSig
    msg.WishVoteHash
  if tcFormed then ({ p with TCHigh := w.tcAggregate msg.Epoch msg.WishRound }, true)
  else (p, false)

/-- Lines 487-497 of `OnReceiveTimeout`: the last vote carried by the message is given to
the QC vote manager; when a QC is formed `QCHigh` is updated with it. The pacemaker after
it and whether `QCHigh` was updated. The call site of the QC vote manager is as in
`OnReceiveVote`. -/
def timeoutLastVote (w : World) (p : Pacemaker) (msg : PMTimeoutMessage) :
    Run (Pacemaker × Bool) :=
  let added := p.qcVoteManager.AddVote w.rangeOrder msg.SignerIndex p.reactor.curEpoch
    msg.LastVoteHeight msg.LastVoteRound msg.LastVoteBlockID msg.LastVoteSignature
    msg.LastVoteHash
  let p := { p with qcVoteManager := added.1 }
  let qcFormed := added.2.isSome
  if qcFormed then
    let agg := p.qcVoteManager.Aggregate w.rangeOrder msg.LastVoteHeight
      msg.LastVoteRound msg.LastVoteBlockID p.reactor.curEpoch
    let p := { p with qcVoteManager := agg.1 }
    let qc := agg.2
    let escortQCNode := w.GetOneByEscortQC qc
    UpdateQCHigh p (some { QCNode := escortQCNode, QC := qc })
  else pure (p, false)

/-- Lines 506-511 of `OnReceiveTimeout`: the beats scheduled when the QC or the TC was
updated. -/
def timeoutSchedule (p : Pacemaker) (qcUpdated tcUpdated : Bool) : Run Pacemaker := do
  let p ←
    (if qcUpdated then do
      let high ← nonNil p.QCHigh
      let highQC ← nonNil high.QC
      pure (ScheduleOnBeat p p.reactor.curEpoch (add32 highQC.QCRound 1)
        beatReason.BeatOnHigherQC 500000000)
    else pure p)
  if tcUpdated then do
    let tc ← nonNil p.TCHigh
    pure (ScheduleOnBeat p p.reactor.curEpoch tc.Round beatReason.BeatOnHigherQC 500000000)
  else pure p

/-- The method `Pacemaker.OnReceiveTimeout`. -/
def OnReceiveTimeout (w : World) (p : Pacemaker) (mi : IncomingMsg) : Run Pacemaker :=
  match mi.Msg with
  | ConsensusMessage.proposal _ => Except.error Stop.fault
  | ConsensusMessage.vote _ => Except.error Stop.fault
  | ConsensusMessage.timeout msg =>
    if w.amIRoundProproser msg.WishRound = false then pure p
    else do
      let r0 := timeoutWishVote w p msg
      let r1 ← timeoutLastVote w r0.1 msg
      let qc := msg.DecodeQCHigh
      let qcNode := w.GetOneByEscortQC qc
      let r2 ← UpdateQCHigh r1.1 (some { QCNode := qcNode, QC := qc })
      timeoutSchedule r2.1 (r1.2 || r2.2) r0.2

/-- Lines 537-548 of `Regulate`: `minMBlocks` is the default, or in bootstrap mode the
configured count, and bootstrap mode is switched off unless in staging. -/
def regulateMinMBlocks (w : World) (p : Pacemaker) : Pacemaker :=
  if p.reactor.InitCfgdDelegates = false then
    { p with minMBlocks := MIN_MBLOCKS_AN_EPOCH }
  else if w.IsStaging then
    { p with minMBlocks := p.reactor.EpochMBlockCount }
  else
    { p with minMBlocks := p.reactor.EpochMBlockCount,
             reactor := { p.reactor with InitCfgdDelegates := false } }

/-- Lines 550-569 of `Regulate`: the fresh `blockLocked`, `lastVotingHeight`, `lastVoteMsg` and
`QCHigh`, the start of the main loop when it is not running, and the first beat. -/
def regulateStart (w : World) (p : Pacemaker) (bestQC : QuorumCert) (actualRound : Nat) :
    Pacemaker :=
  let bestNode := w.GetOneByEscortQC (some bestQC)
  let qcInit := newPMQuorumCert (some bestQC) bestNode
  let p := { p with blockLocked := bestNode, lastVotingHeight := 0, lastVoteMsg := none,
                    QCHigh := qcInit }
  let p := p.emit (Event.proposalMapAdd bestNode)
  let p := if p.mainLoopStarted = false then p.emit Event.goMainLoop else p
  ScheduleOnBeat p p.reactor.curEpoch actualRound beatReason.BeatOnInit 500000

/-- Lines 525-531 of `Regulate`: the round of the first beat, 0 after a K-block or the
genesis block and the round after the best QC's otherwise. -/
def regulateRound (bestQC : QuorumCert) (bestBlk : Block) : Nat :=
  if bestBlk.IsKBlock = true ∨ bestBlk.Number = 0 then 0 else add32 bestQC.QCRound 1

/-- The method `Pacemaker.Regulate`. -/
def Regulate (w : World) (p : Pacemaker) : Run Pacemaker := do
  let p := { p with reactor := w.PrepareEnvForPacemaker p.reactor }
  let bestQC ← nonNil w.BestQC
  match w.GetTrunkBlock bestQC.QCHeight with
  | Except.error _ => Except.error Stop.fault
  | Except.ok bestBlkPtr =>
    let bestBlk ← nonNil bestBlkPtr
    let actualRound := regulateRound bestQC bestBlk
    let p := { p with lastOnBeatRound := wrapInt32 (wrapInt32 (actualRound : Int) - 1) }
    let p := regulateMinMBlocks w p
    pure (regulateStart w p bestQC actualRound)

/-- The method `Pacemaker.OnRoundTimeout`. -/
def OnRoundTimeout (w : World) (p : Pacemaker) (ti : PMRoundTimeoutInfo) : Run Pacemaker := do
  let r := enterRound w p (add32 ti.round 1) roundUpdateReason.UpdateOnTimeout
  let p := r.1
  let updated := r.2
  let high ← nonNil p.QCHigh
  let highQC ← nonNil high.QC
  let newTi : PMRoundTimeoutInfo :=
    { height := add32 highQC.QCHeight 1, round := p.currentRound,
      counter := (p.timeoutCounter + 1) % 2 ^ 64 }
  if updated then
    match w.BuildTimeoutMessage p p.QCHigh newTi p.lastVoteMsg with
    | Except.error _ => pure p
    | Except.ok msg => pure (p.emit (Event.sendMsg (ConsensusMessage.timeout msg) false))
  else pure p

/-- The function `NewPacemaker`, for a reactor with the given BLS system and committee size;
the draft pointers of the pacemaker point into `heap`. -/
def NewPacemaker (r : Reactor) (system : System) (committeeSize : Nat) (heap : Heap) :
    Pacemaker :=
  { reactor := r, heap := heap, currentRound := 0, mainLoopStarted := false, minMBlocks := 0,
    qcVoteManager := NewQCVoteManager system committeeSize, lastVotingHeight := 0,
    lastVoteMsg := none, QCHigh := none, blockLocked := none, lastOnBeatRound := -1,
    roundTimer := none, TCHigh := none, timeoutCounter := 0, trace := [] }

/-! ## Worked examples: a chain of drafts and a quiet world -/

/-- A BLS system for worked examples: every byte string parses (to its length), aggregation
adds the signatures up, and a signature is rendered as one byte. -/
def demoSystem : System :=
  { SigFromBytes := fun b => some b.length
    Aggregate := fun sigs => some sigs.sum
    SigToBytes := fun e => [e] }

/-- The votes of indices 0, 1 and 2 for one key (height 1, round 0, block 7) cast in a fresh
manager of committee size 4: the manager and result after the third vote. -/
def threeVotesOneKey : QCVoteManager × Option QuorumCert :=
  let m0 := NewQCVoteManager demoSystem 4
  let m1 := (m0.AddVote RangeOrder.inOrder 0 0 1 0 7 [1] 9).1
  let m2 := (m1.AddVote RangeOrder.inOrder 1 0 1 0 7 [1] 9).1
  m2.AddVote RangeOrder.inOrder 2 0 1 0 7 [1] 9

/-- One vote of index 0 for each of three different keys (blocks 7, 8 and 9 at height 1,
round 0) cast in a fresh manager of committee size 4: the manager and result after the
third vote. -/
def threeVotesThreeKeys : QCVoteManager × Option QuorumCert :=
  let m0 := NewQCVoteManager demoSystem 4
  let m1 := (m0.AddVote RangeOrder.inOrder 0 0 1 0 7 [1] 9).1
  let m2 := (m1.AddVote RangeOrder.inOrder 0 0 1 0 8 [1] 9).1
  m2.AddVote RangeOrder.inOrder 0 0 1 0 9 [1] 9

/-- The votes a trace shows as sent. -/
def votesSent : List Event → List PMVoteMessage
  | [] => []
  | Event.sendMsg (ConsensusMessage.vote v) _ :: rest => v :: votesSent rest
  | _ :: rest => votesSent rest

/-- A QC for height h and round r. -/
def demoQC (h r : Nat) : QuorumCert :=
  { QCHeight := h, QCRound := r, EpochID := 0, VoterBitArrayStr := [], VoterMsgHash := 0,
    VoterAggSig := [] }

/-- The M-block number n, whose parent is block n - 1 and whose QC certifies it. -/
def demoBlock (n : Nat) : Block :=
  { ID := n, ParentID := n - 1, Number := n, LastKBlockHeight := 0,
    BlockType := BlockType.MBlockType, QC := some (demoQC (n - 1) (n - 1)), KBlockNonce := 0,
    Encoded := [] }

/-- A heap holding a chain of drafts: the draft at address a has height and round a, and both
its parent and the QC node of its justify are the draft at a - 1; the draft at address 0
has neither. Four addresses (0 to 3) are in use. -/
def demoChain : Heap :=
  { cell := fun a =>
      { Height := a, Round := a, Parent := if a = 0 then none else some (a - 1),
        Justify := some { QCNode := if a = 0 then none else some (a - 1),
                          QC := some (demoQC (a - 1) (a - 1)) },
        Committed := false, ProposedBlock := some (demoBlock a), RawBlock := [],
        CheckPoint := 0, BlockType := BlockType.MBlockType, SuccessProcessed := true,
        ProcessError := none }
    next := 4 }

/-- A world in which this replica proposes no round, every lookup in the proposal map finds
the draft at the address named by the height (or block ID, or QC height), every check and
builder succeeds, and votes are built from the proposal's height and round. -/
def demoWorld : World :=
  { rangeOrder := RangeOrder.inOrder
    amIRoundProproser := fun _ => false
    PrepareEnvForPacemaker := fun r => r
    BestQC := some (demoQC 0 0)
    GetTrunkBlock := fun n => Except.ok (some (demoBlock n))
    NewStateFails := false
    IsStaging := false
    GetOne := fun height _ _ => some height
    GetByID := fun id => some id
    GetOneByEscortQC := fun qc => qc.map (fun q => q.QCHeight)
    draftBlockMatchQC := fun _ _ => (true, none)
    tcAddVote := fun _ _ _ _ _ => false
    tcAggregate := fun _ _ => none
    GetPowDecision := (false, none)
    verifyTimeoutCert := fun _ _ _ => false
    IsExtendedFromBLocked := fun _ _ => true
    ValidateProposal := fun _ _ => none
    commitBlock := fun _ _ _ => none
    BuildVoteMessage := fun _ msg =>
      Except.ok { Epoch := 0, VoteHeight := msg.Height, VoteRound := msg.Round,
                  VoteBlockID := msg.Height, SignerIndex := 0, VoteSignature := [],
                  VoteHash := 0 }
    BuildProposalMessage := fun _ height round _ tc =>
      Except.ok { Height := height, Round := round, ParentHeight := height - 1,
                  ParentRound := round - 1, DecodeBlock := some (demoBlock height),
                  TimeoutCert := tc }
    BuildTimeoutMessage := fun _ _ ti _ =>
      Except.ok { Epoch := 0, WishRound := ti.round, SignerIndex := 0, WishVoteSig := [],
                  WishVoteHash := 0, LastVoteHeight := 0, LastVoteRound := 0,
                  LastVoteBlockID := 0, LastVoteSignature := [], LastVoteHash := 0,
                  DecodeQCHigh := none }
    buildStopCommitteeBlock := fun _ _ _ _ => (some (Err.other 0), none)
    buildKBlock := fun _ _ _ _ _ => (some (Err.other 0), none)
    buildMBlock := fun _ _ _ _ => (some (Err.other 0), none) }

/-- A pacemaker over `demoChain` that has locked the draft at address `locked` and whose
`QCHigh` is the QC of height and round `locked` with that draft as its node. -/
def demoPacemaker (locked : Addr) : Pacemaker :=
  { NewPacemaker { curEpoch := 0, InitCfgdDelegates := false, EpochMBlockCount := 0 }
      demoSystem 4 demoChain with
    blockLocked := some locked
    QCHigh := some { QCNode := some locked, QC := some (demoQC locked locked) } }

/-- The proposal message for the block of height (and round) n, child of block n - 1. -/
def demoProposal (n : Nat) : IncomingMsg :=
  { Msg := ConsensusMessage.proposal
      { Height := n, Round := n, ParentHeight := n - 1, ParentRound := n - 1,
        DecodeBlock := some (demoBlock n), TimeoutCert := none }
    ExpireAt := 0 }

/-! ## Observations used in the statements -/

/-- The pointer `d.Justify.QCNode` of a draft pointer `d`; nil when `d` or `d.Justify` is. -/
def Heap.qcNode (h : Heap) (d : Option Addr) : Option Addr :=
  match d with
  | none => none
  | some a =>
    match (h.cell a).Justify with
    | none => none
    | some j => j.QCNode

/-- The pointer `d.Parent` of a draft pointer `d`; nil when `d` is. -/
def Heap.parent (h : Heap) (d : Option Addr) : Option Addr :=
  match d with
  | none => none
  | some a => (h.cell a).Parent

/-- The draft `b` is two justify links behind `bnew` and the direct parent of the draft in
between: with `b' = bnew.Justify.QCNode`, `b = b'.Justify.QCNode` and `b'.Parent = b`. -/
def TwoLinksBehind (h : Heap) (bnew : Option Addr) (b : Addr) : Prop :=
  h.qcNode (h.qcNode bnew) = some b ∧ h.parent (h.qcNode bnew) = some b

/-- The draft `b` is three justify links behind `bnew` and the direct parent of the draft
before it: with `b'' = bnew.Justify.QCNode` and `b' = b''.Justify.QCNode`,
`b = b'.Justify.QCNode` and `b'.Parent = b`. -/
def ThreeLinksBehind (h : Heap) (bnew : Option Addr) (b : Addr) : Prop :=
  h.qcNode (h.qcNode (h.qcNode bnew)) = some b ∧ h.parent (h.qcNode (h.qcNode bnew)) = some b

/-- The value of `p.blockLocked.Height`; `none` when `blockLocked` is nil. -/
def lockedHeight (p : Pacemaker) : Option Nat :=
  p.blockLocked.map (fun a => (p.heap.cell a).Height)

/-- A pacemaker differs from another in its trace only, by events that are not sent votes. -/
def QuietExtends (p p' : Pacemaker) : Prop :=
  ∃ evs, p' = { p with trace := p.trace ++ evs } ∧ votesSent evs = []

/-- What a returning call of `OnReceiveProposal` did about voting: either it sent no vote and
left `lastVotingHeight` alone, or it sent one vote, for the draft `bnew` of the proposed
block, whose height was above `lastVotingHeight` and which `IsExtendedFromBLocked` accepted
(against the `blockLocked` the call started with), and `lastVotingHeight` is now that
height. -/
def VotingRule (w : World) (p p' : Pacemaker) (mi : IncomingMsg) : Prop :=
  (p'.lastVotingHeight = p.lastVotingHeight ∧ votesSent p'.trace = votesSent p.trace)
  ∨ ∃ msg blk parent v,
      mi.Msg = ConsensusMessage.proposal msg ∧ msg.DecodeBlock = some blk
      ∧ w.GetOne msg.ParentHeight msg.ParentRound blk.ParentID = some parent
      ∧ p.lastVotingHeight
          < ((proposalDraft w p msg blk parent (newPMQuorumCert blk.QC (some parent))).1.heap.cell
              (proposalDraft w p msg blk parent (newPMQuorumCert blk.QC (some parent))).2).Height
      ∧ w.IsExtendedFromBLocked
          (proposalDraft w p msg blk parent (newPMQuorumCert blk.QC (some parent))).1
          (proposalDraft w p msg blk parent (newPMQuorumCert blk.QC (some parent))).2 = true
      ∧ (proposalDraft w p msg blk parent (newPMQuorumCert blk.QC (some parent))).1.blockLocked
          = p.blockLocked
      ∧ p'.lastVotingHeight
          = ((proposalDraft w p msg blk parent (newPMQuorumCert blk.QC (some parent))).1.heap.cell
              (proposalDraft w p msg blk parent (newPMQuorumCert blk.QC (some parent))).2).Height
      ∧ votesSent p'.trace = votesSent p.trace ++ [v]

/-- One call of `OnReceiveProposal` in a sequence: the world it runs in, the budget of its
commit loop, and the message. -/
structure ProposalCall where
  world : World
  fuel : Nat
  mi : IncomingMsg

/-- A sequence of `OnReceiveProposal` calls, each starting from the pacemaker the previous one
left: the heights voted for, in order, that is `lastVotingHeight` as left by each call that
sent a vote. -/
def votedHeights (p : Pacemaker) : List ProposalCall → Run (List Nat)
  | [] => pure []
  | c :: rest => do
    let p' ← OnReceiveProposal c.world c.fuel p c.mi
    let hs ← votedHeights p' rest
    pure (if (votesSent p'.trace).length > (votesSent p.trace).length
          then p'.lastVotingHeight :: hs else hs)

/-- The operations the main loop runs on the pacemaker. -/
inductive Operation where
  | OnReceiveProposal (mi : IncomingMsg)
  | OnReceiveVote (mi : IncomingMsg)
  | OnReceiveTimeout (mi : IncomingMsg)
  | OnBeat (epoch round : Nat) (reason : beatReason)
  | OnRoundTimeout (ti : PMRoundTimeoutInfo)
  | Regulate
deriving DecidableEq, Repr

/-- The run of one operation of the main loop. -/
def Operation.run (w : World) (fuel : Nat) (p : Pacemaker) : Operation → Run Pacemaker
  | Operation.OnReceiveProposal mi => Consensus.OnReceiveProposal w fuel p mi
  | Operation.OnReceiveVote mi => Consensus.OnReceiveVote w p mi
  | Operation.OnReceiveTimeout mi => Consensus.OnReceiveTimeout w p mi
  | Operation.OnBeat epoch round reason => Consensus.OnBeat w p epoch round reason
  | Operation.OnRoundTimeout ti => Consensus.OnRoundTimeout w p ti
  | Operation.Regulate => Consensus.Regulate w p

/-- The signatures of the votes under a key in the order a range loop visits them. -/
def QCVoteManager.sigsVisited (ro : RangeOrder) (m : QCVoteManager) (key : voteKey) :
    List Element :=
  (ro.visit (m.votesAt key).entries).map (fun e => e.2.BlsSig)

/-- A manager of committee size 4 holding, under the key (height 1, round 0, block 7), the
vote of index 0 with message hash 9 and the vote of index 1 with message hash 8. -/
def twoHashes : QCVoteManager :=
  let m0 := NewQCVoteManager demoSystem 4
  let m1 := (m0.AddVote RangeOrder.inOrder 0 0 1 0 7 [1] 9).1
  (m1.AddVote RangeOrder.inOrder 1 0 1 0 7 [1] 8).1

/-- The pacemaker after `OnReceiveProposal` of the proposal of height 2 in `demoPacemaker 0`
(the pacemaker itself if the call did not return). -/
def demoVoted : Pacemaker :=
  match OnReceiveProposal demoWorld 10 (demoPacemaker 0) (demoProposal 2) with
  | Except.ok p => p
  | Except.error _ => demoPacemaker 0

/-- The pacemaker after `Update` of the draft at address 3 in `demoPacemaker 0` (the
pacemaker itself if the call did not return). -/
def demoUpdated : Pacemaker :=
  match Update demoWorld 10 (demoPacemaker 0) (some 3) with
  | Except.ok p => p
  | Except.error _ => demoPacemaker 0

/-- The proposals of heights 2, 3 and again 3, handled in `demoWorld`. -/
def demoCalls : List ProposalCall :=
  [{ world := demoWorld, fuel := 10, mi := demoProposal 2 },
   { world := demoWorld, fuel := 10, mi := demoProposal 3 },
   { world := demoWorld, fuel := 10, mi := demoProposal 3 }]

/-- The operations of the vote manager, with their arguments. -/
inductive VoteOp where
  | AddVote (index epoch height round : Nat) (blockID : Bytes32) (sig : Bytes) (hash : Bytes32)
  | Count (height round : Nat) (blockID : Bytes32)
  | Aggregate (height round : Nat) (blockID : Bytes32) (epoch : Nat)
deriving DecidableEq, Repr

/-- The manager after one of its operations; `Count` only reads. -/
def VoteOp.run (ro : RangeOrder) (m : QCVoteManager) : VoteOp → QCVoteManager
  | VoteOp.AddVote index epoch height round blockID sig hash =>
    (m.AddVote ro index epoch height round blockID sig hash).1
  | VoteOp.Count _ _ _ => m
  | VoteOp.Aggregate height round blockID epoch => (m.Aggregate ro height round blockID epoch).1

/-- A manager of committee size 4 holding, under the key (height 1, round 0, block 7), the
vote of index 0 with signature bytes [1] and message hash 9. -/
def oneVote : QCVoteManager :=
  ((NewQCVoteManager demoSystem 4).AddVote RangeOrder.inOrder 0 0 1 0 7 [1] 9).1

/-- The pacemaker `demoPacemaker 0` with its round timer armed for round 0 by `TimerInit`. -/
def demoArmed : Pacemaker :=
  resetRoundTimer (demoPacemaker 0) 0 roundTimerUpdateReason.TimerInit

/-- The pacemaker after the round-0 timer of `demoArmed` fired (the pacemaker itself if the
call did not return). -/
def demoTimedOutOnce : Pacemaker :=
  match OnRoundTimeout demoWorld demoArmed { height := 0, round := 0, counter := 0 } with
  | Except.ok p => p
  | Except.error _ => demoArmed

/-- The pacemaker after the round-1 timer of `demoTimedOutOnce` fired too (the pacemaker
itself if the call did not return). -/
def demoTimedOutTwice : Pacemaker :=
  match OnRoundTimeout demoWorld demoTimedOutOnce { height := 0, round := 1, counter := 1 } with
  | Except.ok p => p
  | Except.error _ => demoTimedOutOnce

/-- The pacemaker after the round-2 timer of `demoTimedOutTwice` fired too (the pacemaker
itself if the call did not return). -/
def demoTimedOutThrice : Pacemaker :=
  match OnRoundTimeout demoWorld demoTimedOutTwice { height := 0, round := 2, counter := 2 } with
  | Except.ok p => p
  | Except.error _ => demoTimedOutTwice

/-- The chain `demoChain` with every proposed block a K-block. -/
def demoChainKBlocks : Heap :=
  { cell := fun a =>
      { demoChain.cell a with
        ProposedBlock := some { demoBlock a with BlockType := BlockType.KBlockType } }
    next := 4 }

/-- The draft that the block builders of the worked examples return. -/
def demoBuilt : draftBlock :=
  { Height := 3, Round := 1, Parent := some 2,
    Justify := some { QCNode := some 2, QC := some (demoQC 2 2) },
    Committed := false, ProposedBlock := some (demoBlock 3), RawBlock := [], CheckPoint := 0,
    BlockType := BlockType.StopCommitteeType, SuccessProcessed := false, ProcessError := none }

/-- The world `demoWorld` in which the proof-of-work pool decides for a K-block and the
builders of stop-committee blocks and K-blocks succeed. -/
def demoWorldBuilders : World :=
  { demoWorld with
    GetPowDecision := (true, some { Nonce := 1, Raw := [] })
    buildStopCommitteeBlock := fun _ _ _ _ => (none, some demoBuilt)
    buildKBlock := fun _ _ _ _ _ => (none, some demoBuilt) }

/-- The pacemaker `demoPacemaker 0` in epoch 1, over the given heap. -/
def demoPacemakerEpoch1 (heap : Heap) : Pacemaker :=
  { demoPacemaker 0 with
    reactor := { curEpoch := 1, InitCfgdDelegates := false, EpochMBlockCount := 0 }
    heap := heap }

/-- The chain `demoChain` whose drafts hold no proposed block. -/
def demoChainNoBlocks : Heap :=
  { cell := fun a => { demoChain.cell a with ProposedBlock := none }
    next := 4 }

/-- The chain `demoChain` with every draft and every QC at round 0. -/
def demoChainRound0 : Heap :=
  { cell := fun a =>
      { demoChain.cell a with
        Round := 0
        Justify := some { QCNode := if a = 0 then none else some (a - 1),
                          QC := some (demoQC (a - 1) 0) } }
    next := 4 }

/-- The world `demoWorld` whose proposal map holds no draft of a proposed block yet. -/
def demoWorldFresh : World :=
  { demoWorld with GetByID := fun _ => none }

/-- The proposal message of round 0 for the block of height 3, child of the block of height
2, with the QC (height 2, round 0). -/
def demoProposalRound0 : IncomingMsg :=
  { Msg := ConsensusMessage.proposal
      { Height := 3, Round := 0, ParentHeight := 2, ParentRound := 0,
        DecodeBlock := some { demoBlock 3 with QC := some (demoQC 2 0) }, TimeoutCert := none }
    ExpireAt := 0 }

/-! ## Channels -/

/-- A buffered Go channel as seen by the one goroutine using it while no other goroutine sends
or receives on it: the buffered values, oldest first, and the capacity. -/
structure Chan (α : Type) where
  buf : List α
  cap : Nat
deriving DecidableEq, Repr

/-- The value of `make(chan T, cap)`. -/
def Chan.make {α : Type} (cap : Nat) : Chan α := ⟨[], cap⟩

/-- The builtin `len(c)`. -/
def Chan.len {α : Type} (c : Chan α) : Nat := c.buf.length

/-- The receive `v := <-c`: the oldest buffered value and the channel without it; with an
empty buffer the receive blocks. -/
def Chan.recv {α : Type} (c : Chan α) : Run (α × Chan α) :=
  match c.buf with
  | [] => Except.error Stop.blocked
  | v :: rest => Except.ok (v, { c with buf := rest })

/-- The send `c <- v`: the value joins the buffer at its end; with a full buffer the send
blocks. -/
def Chan.send {α : Type} (c : Chan α) (v : α) : Run (Chan α) :=
  if c.buf.length < c.cap then Except.ok { c with buf := c.buf ++ [v] }
  else Except.error Stop.blocked

/-! ## consensus/pacemaker.go: the command channel and the main loop -/

/-- The type `PMCmd`, a `uint32`. -/
abbrev PMCmd := Nat

/-- The constant `PMCmdRegulate`. -/
def PMCmdRegulate : PMCmd := 0

/-- The pacemaker together with its command channel `cmdCh`, the field of the struct
`Pacemaker` that only `scheduleRegulate` and the main loop use. -/
structure MainLoop where
  pm : Pacemaker
  cmdCh : Chan PMCmd

/-- The channel `cmdCh` as `NewPacemaker` makes it, `make(chan PMCmd, 2)`. -/
def newCmdCh : Chan PMCmd := Chan.make 2

/-- The loop `for { select { case <-p.cmdCh: default: break Regulate } }` of
`scheduleRegulate` on the buffer of `cmdCh`: one buffered command is received per iteration,
and the loop is left when none is buffered. -/
def drainCmdCh : List PMCmd → List PMCmd
  | [] => []
  | _ :: rest => drainCmdCh rest

/-- The method `Pacemaker.scheduleRegulate`: the command channel is drained, then
`PMCmdRegulate` is sent on it. -/
def scheduleRegulate (s : MainLoop) : Run MainLoop := do
  let cmdCh ← ({ s.cmdCh with buf := drainCmdCh s.cmdCh.buf } : Chan PMCmd).send PMCmdRegulate
  pure { s with cmdCh := cmdCh }

/-- The head of an iteration of `mainLoop`, before its `select`: when the chain's best block
(`p.chain.BestBlock()`, given as an argument) is above the QC of `QCHigh`, a Regulate command
is scheduled. -/
def mainLoopCheck (bestBlock : Option Block) (s : MainLoop) : Run MainLoop := do
  let best ← nonNil bestBlock
  let high ← nonNil s.pm.QCHigh
  let highQC ← nonNil high.QC
  if best.Number > highQC.QCHeight then scheduleRegulate s else pure s

/-- The case `cmd := <-p.cmdCh` of the `select` of `mainLoop`: the command is received and,
when it is `PMCmdRegulate`, `p.scheduleRegulate()` is called. -/
def mainLoopCmd (s : MainLoop) : Run MainLoop := do
  let r ← s.cmdCh.recv
  let s := { s with cmdCh := r.2 }
  if r.1 = PMCmdRegulate then scheduleRegulate s else pure s

/-! ## Worked examples and observations: re-queued proposals, the first beat, early exits -/

/-- The messages a trace shows as handed to `p.reactor.inQueue.Add`, in order. -/
def inQueueAdds : List Event → List IncomingMsg
  | [] => []
  | Event.inQueueAdd mi :: rest => mi :: inQueueAdds rest
  | _ :: rest => inQueueAdds rest

/-- The main loop handling the same proposal message n times, each call of
`OnReceiveProposal` starting from the pacemaker the previous one left. -/
def handleTimes (w : World) (fuel : Nat) (mi : IncomingMsg) : Nat → Pacemaker → Run Pacemaker
  | 0, p => pure p
  | n + 1, p => do
    let p ← OnReceiveProposal w fuel p mi
    handleTimes w fuel mi n p

/-- The world `demoWorld` whose proposal map finds no draft by height, round and ID. -/
def demoWorldNoParent : World :=
  { demoWorld with GetOne := fun _ _ _ => none }

/-- The world `demoWorld` whose chain has the given best QC; its best block is the M-block
numbered by the height of that QC. -/
def demoWorldBest (qc : QuorumCert) : World :=
  { demoWorld with BestQC := some qc }

/-- The pacemaker after `Regulate` in `demoPacemaker 0` when the best QC is (height 2, round
2147483647) (the pacemaker itself if the call did not return). -/
def demoRegulatedHigh : Pacemaker :=
  match Regulate (demoWorldBest (demoQC 2 2147483647)) (demoPacemaker 0) with
  | Except.ok p => p
  | Except.error _ => demoPacemaker 0

/-- The pacemaker after `Regulate` in `demoPacemaker 0` when the best QC is (height 2, round
2) (the pacemaker itself if the call did not return). -/
def demoRegulated : Pacemaker :=
  match Regulate (demoWorldBest (demoQC 2 2)) (demoPacemaker 0) with
  | Except.ok p => p
  | Except.error _ => demoPacemaker 0

/-- The chain `demoChain` in which the draft at address 2 is committed. -/
def demoChainCommitted : Heap :=
  { cell := fun a => { demoChain.cell a with Committed := decide (a = 2) }
    next := 4 }

/-- The chain `demoChain` in which the justify of every draft has no QC node. -/
def demoChainNoNode : Heap :=
  { cell := fun a =>
      { demoChain.cell a with
        Justify := some { QCNode := none, QC := some (demoQC (a - 1) (a - 1)) } }
    next := 4 }

/-- The world `demoWorld` whose best QC is (height 5, round 2) and whose proposal map holds
no draft for any QC, so that `Regulate` starts with an empty QC node. -/
def demoWorldEmptyNode : World :=
  { demoWorld with BestQC := some (demoQC 5 2), GetOneByEscortQC := fun _ => none }

/-- The pacemaker after `Regulate` in `demoPacemaker 0` in the world `demoWorldEmptyNode` (the
pacemaker itself if the call did not return). -/
def demoRegulatedEmpty : Pacemaker :=
  match Regulate demoWorldEmptyNode (demoPacemaker 0) with
  | Except.ok p => p
  | Except.error _ => demoPacemaker 0

/-! ## consensus/pending_list.go -/

/-- Modelled from the spec: the message type `PMNewViewMessage` is absent from the sources;
these are the fields `BuildNewViewMessage` takes from the QC, of which `PendingList.Add`
reads `QCHeight`. -/
structure PMNewViewMessage where
  QCHeight : Nat
  QCRound : Nat
deriving DecidableEq, Repr

/-- The dynamic type of `mi.Msg` as the type switch of `PendingList.Add` tells it apart: a
proposal, a new-view message, or anything else. -/
inductive PendingMsg where
  | proposal (msg : PMProposalMessage)
  | newView (msg : PMNewViewMessage)
  | other
deriving DecidableEq, Repr

/-- Modelled from the spec: the struct `consensusMsgInfo` is absent from the sources;
`PendingList` reads its field `Msg` and stores the whole record. -/
structure consensusMsgInfo where
  Msg : PendingMsg
  RawData : Bytes
deriving DecidableEq, Repr

/-- The struct `PendingList`. -/
structure PendingList where
  messages : GoMap Nat consensusMsgInfo
  lowest : Nat
deriving DecidableEq, Repr

/-- The function `NewPendingList`. -/
def NewPendingList : PendingList := { messages := GoMap.empty, lowest := 0 }

/-- The type switch of `PendingList.Add`: the query height of a proposal or a new-view
message, `none` for the `default` case. -/
def PendingList.queryHeight (mi : consensusMsgInfo) : Option Nat :=
  match mi.Msg with
  | PendingMsg.proposal msg => some msg.ParentHeight
  | PendingMsg.newView msg => some msg.QCHeight
  | PendingMsg.other => none

/-- The method `PendingList.Add`, called with a non-nil `mi`. -/
def PendingList.Add (p : PendingList) (mi : consensusMsgInfo) : PendingList :=
  match PendingList.queryHeight mi with
  | none => p
  | some height =>
    let p := if height < p.lowest then { p with lowest := height } else p
    { p with messages := p.messages.store height mi }

/-- The method `PendingList.GetLowestHeight`. -/
def PendingList.GetLowestHeight (p : PendingList) : Nat := p.lowest

/-- The height keys under which a pending list holds messages. -/
def PendingList.heights (p : PendingList) : List Nat := p.messages.entries.map Prod.fst

/-- A proposal message whose parent height is the given one, as a pending message. -/
def demoPending (parentHeight : Nat) : consensusMsgInfo :=
  { Msg := PendingMsg.proposal
      { Height := parentHeight + 1, Round := 0, ParentHeight := parentHeight, ParentRound := 0,
        DecodeBlock := none, TimeoutCert := none }
    RawData := [] }

/-! ## consensus/outgoing_queue.go -/

/-- Modelled from the spec: the struct `ConsensusPeer` is absent from the sources; the
outgoing queue carries a pointer to it in each parcel and its workers read the field `IP`. -/
structure ConsensusPeer where
  IP : Bytes
deriving DecidableEq, Repr

/-- The struct `OutgoingParcel`; its field `to` is `toPeer` here, and times are in
nanoseconds. -/
structure OutgoingParcel where
  toPeer : Option ConsensusPeer
  msg : ConsensusMessage
  rawMsg : Bytes
  relay : Bool
  enqueueAt : Int
  expireAt : Int
deriving DecidableEq, Repr

/-- The constant `OUT_QUEUE_TTL`, 5 s in nanoseconds. -/
def OUT_QUEUE_TTL : Int := 5 * 1000000000

/-- The struct `OutgoingQueue`: its channel of parcels. The parcels in the channel are the
non-nil pointers `Add` put there. -/
structure OutgoingQueue where
  queue : Chan OutgoingParcel
deriving DecidableEq, Repr

/-- The function `NewOutgoingQueue`. -/
def NewOutgoingQueue : OutgoingQueue := { queue := Chan.make 2048 }

/-- The loop `for len(q.queue) >= cap(q.queue) { p := <-q.queue ... }` of `Add` on the buffer
of the channel, with no worker receiving: while the buffer is at capacity its oldest parcel is
received; a receive from an empty buffer blocks. -/
def OutgoingQueue.dropLoop (cap : Nat) : List OutgoingParcel → Run (List OutgoingParcel)
  | [] => if 0 ≥ cap then Except.error Stop.blocked else pure []
  | p :: rest =>
    if (p :: rest).length ≥ cap then OutgoingQueue.dropLoop cap rest else pure (p :: rest)

/-- The method `OutgoingQueue.Add`, with no worker receiving from the channel; `now` and
`now'` are the two readings of the clock. -/
def OutgoingQueue.Add (q : OutgoingQueue) (toPeer : Option ConsensusPeer) (msg : ConsensusMessage)
    (rawMsg : Bytes) (relay : Bool) (now now' : Int) : Run OutgoingQueue := do
  let buf ← OutgoingQueue.dropLoop q.queue.cap q.queue.buf
  let queue ← ({ q.queue with buf := buf } : Chan OutgoingParcel).send
    { toPeer := toPeer, msg := msg, rawMsg := rawMsg, relay := relay, enqueueAt := now,
      expireAt := now' + OUT_QUEUE_TTL }
  pure { q with queue := queue }

/-- A parcel for the peer with the given address byte, enqueued at the given time. -/
def demoParcel (i : Nat) : OutgoingParcel :=
  { toPeer := some { IP := [i] }, msg := (demoProposal 2).Msg, rawMsg := [i], relay := false,
    enqueueAt := i, expireAt := i + OUT_QUEUE_TTL }

/-- An outgoing queue of capacity 2048 holding the 2048 parcels `demoParcel 0`, ...,
`demoParcel 2047`, oldest first. -/
def demoFullQueue : OutgoingQueue :=
  { queue := { buf := (List.range 2048).map demoParcel, cap := 2048 } }

/-! ## builtin/metertracker/meter_tracker_staking.go -/

/-- The type `meter.Address`. -/
abbrev Address := Nat

/-- Modelled from the spec: `state.State` is absent from the sources; it holds the balance
and the bounded balance of each account, which `GetBalance` and `GetBoundedBalance` return
and `SetBalance` and `SetBoundedBalance` overwrite. The amounts are `*big.Int`, unbounded
integers. -/
structure State where
  balance : Address → Int
  boundedBalance : Address → Int

/-- The method `State.GetBalance`. -/
def State.GetBalance (s : State) (addr : Address) : Int := s.balance addr

/-- The method `State.GetBoundedBalance`. -/
def State.GetBoundedBalance (s : State) (addr : Address) : Int := s.boundedBalance addr

/-- The method `State.SetBalance`. -/
def State.SetBalance (s : State) (addr : Address) (v : Int) : State :=
  { s with balance := fun a => if a = addr then v else s.balance a }

/-- The method `State.SetBoundedBalance`. -/
def State.SetBoundedBalance (s : State) (addr : Address) (v : Int) : State :=
  { s with boundedBalance := fun a => if a = addr then v else s.boundedBalance a }

/-- The struct `MeterTracker`: the state it works on. -/
structure MeterTracker where
  state : State

/-- The errors of the staking methods that the two methods below return. -/
inductive StakingErr where
  | errNotEnoughBalance
deriving DecidableEq, Repr

/-- The method `MeterTracker.BoundMeterGov`: the tracker after the call and the error
returned (`none` is nil). -/
def MeterTracker.BoundMeterGov (e : MeterTracker) (addr : Address) (amount : Int) :
    MeterTracker × Option StakingErr :=
  if amount = 0 then (e, none)
  else
    let state := e.state
    let meterGov := state.GetBalance addr
    let meterGovBounded := state.GetBoundedBalance addr
    if meterGov < amount then (e, some StakingErr.errNotEnoughBalance)
    else
      let state := state.SetBalance addr (meterGov - amount)
      let state := state.SetBoundedBalance addr (meterGovBounded + amount)
      ({ e with state := state }, none)

/-- The method `MeterTracker.UnboundMeterGov`: the tracker after the call and the error
returned (`none` is nil). -/
def MeterTracker.UnboundMeterGov (e : MeterTracker) (addr : Address) (amount : Int) :
    MeterTracker × Option StakingErr :=
  if amount = 0 then (e, none)
  else
    let state := e.state
    let meterGov := state.GetBalance addr
    let meterGovBounded := state.GetBoundedBalance addr
    if meterGov < amount then (e, some StakingErr.errNotEnoughBalance)
    else
      let state := state.SetBalance addr (meterGov - amount)
      let state := state.SetBoundedBalance addr (meterGovBounded + amount)
      ({ e with state := state }, none)

/-- A tracker in which every account has the balance 100 and the bounded balance 0. -/
def demoTracker : MeterTracker :=
  { state := { balance := fun _ => 100, boundedBalance := fun _ => 0 } }

/-! ## txpool/tx_object_map.go -/

/-- Modelled from the spec: the struct `txObject` is absent from the sources; the map reads
the ID of the transaction (`ID()`) and its origin (`Origin()`), and stores the object. -/
structure txObject where
  ID : Bytes32
  Origin : Address
  timeAdded : Int
deriving DecidableEq, Repr

/-- The builtin `delete(m, k)`. -/
def GoMap.delete {K V : Type} [DecidableEq K] (m : GoMap K V) (k : K) : GoMap K V :=
  ⟨m.entries.filter (fun e => !decide (e.1 = k))⟩

/-- The struct `txObjectMap`, without its lock. The quota counters are of type `int`; each
counts objects held in the map, far fewer than 2^63, and is kept as an integer. -/
structure txObjectMap where
  txObjMap : GoMap Bytes32 txObject
  quota : GoMap Address Int
deriving DecidableEq, Repr

/-- The function `newTxObjectMap`. -/
def newTxObjectMap : txObjectMap := { txObjMap := GoMap.empty, quota := GoMap.empty }

/-- The read `m.quota[addr]`, 0 when the address has no entry. -/
def txObjectMap.quotaOf (m : txObjectMap) (addr : Address) : Int :=
  (m.quota.lookup addr).getD 0

/-- The error of `Add`, `errors.New("account quota exceeded")`. -/
inductive TxErr where
  | quotaExceeded
deriving DecidableEq, Repr

/-- The method `txObjectMap.Contains`. -/
def txObjectMap.Contains (m : txObjectMap) (txID : Bytes32) : Bool :=
  (m.txObjMap.lookup txID).isSome

/-- The method `txObjectMap.Add`, called with a non-nil `txObj`: the map after the call and
the error returned (`none` is nil). -/
def txObjectMap.Add (m : txObjectMap) (txObj : txObject) (limitPerAccount : Int) :
    txObjectMap × Option TxErr :=
  if (m.txObjMap.lookup txObj.ID).isSome then (m, none)
  else if m.quotaOf txObj.Origin ≥ limitPerAccount then (m, some TxErr.quotaExceeded)
  else
    let m := { m with quota := m.quota.store txObj.Origin (m.quotaOf txObj.Origin + 1) }
    ({ m with txObjMap := m.txObjMap.store txObj.ID txObj }, none)

/-- The method `txObjectMap.GetByID`; `none` is the nil pointer. -/
def txObjectMap.GetByID (m : txObjectMap) (id : Bytes32) : Option txObject :=
  m.txObjMap.lookup id

/-- The method `txObjectMap.Remove`: the map after the call and the boolean returned. -/
def txObjectMap.Remove (m : txObjectMap) (txID : Bytes32) : txObjectMap × Bool :=
  match m.txObjMap.lookup txID with
  | some txObj =>
    let m :=
      if m.quotaOf txObj.Origin > 1 then
        { m with quota := m.quota.store txObj.Origin (m.quotaOf txObj.Origin - 1) }
      else { m with quota := m.quota.delete txObj.Origin }
    ({ m with txObjMap := m.txObjMap.delete txID }, true)
  | none => (m, false)

/-- The body of the loop of `Fill` for one non-nil transaction object. -/
def txObjectMap.fillOne (m : txObjectMap) (txObj : txObject) : txObjectMap :=
  if (m.txObjMap.lookup txObj.ID).isSome then m
  else
    let m := { m with quota := m.quota.store txObj.Origin (m.quotaOf txObj.Origin + 1) }
    { m with txObjMap := m.txObjMap.store txObj.ID txObj }

/-- The method `txObjectMap.Fill`. -/
def txObjectMap.Fill (m : txObjectMap) (txObjs : List txObject) : txObjectMap :=
  txObjs.foldl txObjectMap.fillOne m

/-- The method `txObjectMap.Len`. -/
def txObjectMap.Len (m : txObjectMap) : Nat := m.txObjMap.len

/-- The number of transaction objects stored in the map whose origin is the address. -/
def txObjectMap.stored (m : txObjectMap) (addr : Address) : Nat :=
  m.txObjMap.entries.countP (fun e => decide (e.2.Origin = addr))

/-- The map holds one entry per ID, and the quota of every address is the number of stored
objects of that origin, with no entry when that number is zero. -/
def txObjectMap.Consistent (m : txObjectMap) : Prop :=
  (m.txObjMap.entries.map Prod.fst).Nodup
  ∧ ∀ addr, m.quota.lookup addr
      = if m.stored addr = 0 then none else some (m.stored addr : Int)

/-- The calls that change a `txObjectMap`, with their arguments. -/
inductive TxOp where
  | Add (txObj : txObject) (limitPerAccount : Int)
  | Remove (txID : Bytes32)
  | Fill (txObjs : List txObject)
deriving DecidableEq, Repr

/-- The map after one call. -/
def TxOp.run (m : txObjectMap) : TxOp → txObjectMap
  | TxOp.Add txObj limitPerAccount => (m.Add txObj limitPerAccount).1
  | TxOp.Remove txID => (m.Remove txID).1
  | TxOp.Fill txObjs => m.Fill txObjs

/-! ## Properties of the vote manager -/

theorem GoMap.lookupEntries_storeEntries_self {K V : Type} [DecidableEq K]
    (l : List (K × V)) (k : K) (v : V) :
    GoMap.lookupEntries (GoMap.storeEntries l k v) k = some v := by
  induction l with
  | nil => simp [GoMap.storeEntries, GoMap.lookupEntries]
  | cons e rest ih =>
    obtain ⟨k', v'⟩ := e
    by_cases h : k' = k
    · simp [GoMap.storeEntries, GoMap.lookupEntries, h]
    · simp [GoMap.storeEntries, GoMap.lookupEntries, h, ih]

theorem GoMap.lookup_store_self {K V : Type} [DecidableEq K]
    (m : GoMap K V) (k : K) (v : V) : (m.store k v).lookup k = some v :=
  GoMap.lookupEntries_storeEntries_self m.entries k v

theorem QCVoteManager.ensureVotes_sealed (m : QCVoteManager) (key : voteKey) :
    (m.ensureVotes key).sealed = m.sealed := by
  unfold QCVoteManager.ensureVotes
  split <;> rfl

theorem QCVoteManager.ensureVotes_votesAt_len (m : QCVoteManager) (key : voteKey) :
    ((m.ensureVotes key).votesAt key).len = (m.votesAt key).len := by
  unfold QCVoteManager.ensureVotes
  cases hv : m.votes.lookup key with
  | some inner => simp
  | none =>
    simp [QCVoteManager.votesAt, hv, GoMap.lookup_store_self]

/-- C1 (the code at the claim's own example, and at votes for three different keys): with
committee size 4, after the votes of indices 0, 1 and 2 for the key (height 1, round 0,
block 7), three distinct signers are recorded under the key and 3 * 3 > 4 * 2, yet the third
`AddVote` returns no QC and does not seal the key: the majority test is made on
`len(m.votes)`, the number of keys, which is 1. And after one vote of index 0 for each of the
blocks 7, 8 and 9, the third `AddVote` returns a QC for block 9 with the single signer 0,
although one signer is recorded under that key and 1 * 3 > 4 * 2 is false. -/
theorem AddVote_majority_counts_keys :
    (threeVotesOneKey.2 = none
      ∧ threeVotesOneKey.1.Count 1 0 7 = 3
      ∧ MajorityTwoThird 3 4 = true
      ∧ threeVotesOneKey.1.sealed.lookup { Height := 1, Round := 0, BlockID := 7 } = none
      ∧ threeVotesOneKey.1.votes.len = 1)
    ∧ (threeVotesThreeKeys.2 =
          some { QCHeight := 1, QCRound := 0, EpochID := 0,
                 VoterBitArrayStr := [true, false, false, false],
                 VoterMsgHash := 9, VoterAggSig := [1] }
      ∧ threeVotesThreeKeys.1.Count 1 0 9 = 1
      ∧ MajorityTwoThird 1 4 = false
      ∧ threeVotesThreeKeys.1.votes.len = 3) := by
  decide

/-- C2: `AddVote` on a key that is sealed returns no QC and leaves `Count` for that key
unchanged, whatever the index, epoch, signature and hash. -/
theorem AddVote_sealed_returns_nil (ro : RangeOrder) (m : QCVoteManager)
    (index epoch height round : Nat) (blockID : Bytes32) (sig : Bytes) (hash : Bytes32)
    (hsealed : (m.sealed.lookup { Height := height, Round := round, BlockID := blockID }).isSome
      = true) :
    (m.AddVote ro index epoch height round blockID sig hash).2 = none
    ∧ (m.AddVote ro index epoch height round blockID sig hash).1.Count height round blockID
        = m.Count height round blockID := by
  have hs : ((m.ensureVotes { Height := height, Round := round, BlockID := blockID }).sealed.lookup
      { Height := height, Round := round, BlockID := blockID }).isSome = true := by
    rw [QCVoteManager.ensureVotes_sealed]; exact hsealed
  simp only [QCVoteManager.AddVote, hs, if_true, QCVoteManager.Count,
    QCVoteManager.ensureVotes_votesAt_len, and_self]

/-- C2 at a concrete state: the key (height 1, round 0, block 9) was sealed by the third vote
of `threeVotesThreeKeys`; a further vote of index 3 for it returns no QC and the count stays. -/
theorem AddVote_sealed_returns_nil_witness :
    (threeVotesThreeKeys.1.sealed.lookup { Height := 1, Round := 0, BlockID := 9 }).isSome = true
    ∧ (threeVotesThreeKeys.1.AddVote RangeOrder.inOrder 3 0 1 0 9 [1] 9).2 = none
    ∧ (threeVotesThreeKeys.1.AddVote RangeOrder.inOrder 3 0 1 0 9 [1] 9).1.Count 1 0 9
        = threeVotesThreeKeys.1.Count 1 0 9 :=
  ⟨by decide,
   AddVote_sealed_returns_nil RangeOrder.inOrder threeVotesThreeKeys.1 3 0 1 0 9 [1] 9
     (by decide)⟩

/-! ## Properties of the pacemaker: how each method changes the state -/

theorem nonNil_eq_ok {α : Type} {o : Option α} {a : α} (h : nonNil o = Except.ok a) :
    o = some a := by
  cases o with
  | none => simp [nonNil] at h
  | some b => simp [nonNil] at h; simp [h]

theorem Run.bind_eq_ok {α β : Type} {x : Run α} {f : α → Run β} {b : β}
    (h : (x >>= f) = Except.ok b) : ∃ a, x = Except.ok a ∧ f a = Except.ok b := by
  cases x with
  | error e => simp [bind, Except.bind] at h
  | ok a => exact ⟨a, rfl, h⟩

theorem UpdateQCHigh_frame {p : Pacemaker} {qc : Option draftQC} {r : Pacemaker × Bool}
    (h : UpdateQCHigh p qc = Except.ok r) :
    r.1 = if r.2 then { p with QCHigh := qc } else p := by
  unfold UpdateQCHigh at h
  obtain ⟨cond, h5, h⟩ := Run.bind_eq_ok h
  obtain ⟨u1, h6, h⟩ := Run.bind_eq_ok h
  obtain ⟨u2, h7, h⟩ := Run.bind_eq_ok h
  simp only [pure, Except.pure, Except.ok.injEq] at h
  subst h
  cases cond <;> simp

theorem votesSent_append (a b : List Event) : votesSent (a ++ b) = votesSent a ++ votesSent b := by
  induction a with
  | nil => simp [votesSent]
  | cons e rest ih =>
    cases e with
    | sendMsg msg c =>
      cases msg <;> simp [votesSent, ih]
    | _ => simp [votesSent, ih]

theorem QuietExtends.refl (p : Pacemaker) : QuietExtends p p :=
  ⟨[], by simp, rfl⟩

theorem QuietExtends.trans {p q r : Pacemaker} (h1 : QuietExtends p q) (h2 : QuietExtends q r) :
    QuietExtends p r := by
  obtain ⟨e1, rfl, v1⟩ := h1
  obtain ⟨e2, rfl, v2⟩ := h2
  exact ⟨e1 ++ e2, by simp, by simp [votesSent_append, v1, v2]⟩

theorem QuietExtends.emit (p : Pacemaker) (e : Event) (h : votesSent [e] = []) :
    QuietExtends p (p.emit e) :=
  ⟨[e], rfl, h⟩

theorem SendEpochEndInfo_quiet {p p' : Pacemaker} {b : draftBlock}
    (h : SendEpochEndInfo p b = Except.ok p') : QuietExtends p p' := by
  unfold SendEpochEndInfo at h
  obtain ⟨blk, h1, h⟩ := Run.bind_eq_ok h
  split at h
  · obtain ⟨qc, h2, h⟩ := Run.bind_eq_ok h
    simp only [pure, Except.pure, Except.ok.injEq] at h
    subst h
    exact QuietExtends.emit _ _ rfl
  · simp only [pure, Except.pure, Except.ok.injEq] at h
    subst h
    exact QuietExtends.refl _

theorem OnCommitErr_quiet {w : World} {p p' : Pacemaker} {blk : draftBlock} {err : Option Err}
    (h : OnCommitErr w p blk err = Except.ok p') : QuietExtends p p' := by
  unfold OnCommitErr at h
  split at h
  · simp only [pure, Except.pure, Except.ok.injEq] at h
    subst h; exact QuietExtends.refl _
  · split at h
    · obtain ⟨u, hu, h⟩ := Run.bind_eq_ok h
      split at h
      · simp at h
      · simp only [pure, Except.pure, Except.ok.injEq] at h
        subst h
        exact QuietExtends.emit _ _ rfl
    · simp only [pure, Except.pure, Except.ok.injEq] at h
      subst h; exact QuietExtends.refl _

theorem OnCommitOne_quiet {w : World} {p p' : Pacemaker} {b : commitReadyBlock}
    (h : OnCommitOne w p b = Except.ok p') : QuietExtends p p' := by
  unfold OnCommitOne at h
  split at h
  · simp only [pure, Except.pure, Except.ok.injEq] at h
    subst h; exact QuietExtends.refl _
  · rename_i a ha
    dsimp only at h
    split at h
    · simp only [pure, Except.pure, Except.ok.injEq] at h
      subst h; exact QuietExtends.refl _
    · split at h
      · simp only [pure, Except.pure, Except.ok.injEq] at h
        subst h; exact QuietExtends.refl _
      · obtain ⟨p1, h1, h⟩ := Run.bind_eq_ok h
        obtain ⟨p2, h2, h⟩ := Run.bind_eq_ok h
        simp only [pure, Except.pure, Except.ok.injEq] at h
        subst h
        have q1 : QuietExtends p p1 :=
          (QuietExtends.emit p (Event.commitBlock a b.escortQC) rfl).trans
            (OnCommitErr_quiet h1)
        have q2 : QuietExtends p1 p2 := by
          split at h2
          · exact SendEpochEndInfo_quiet h2
          · simp only [pure, Except.pure, Except.ok.injEq] at h2
            subst h2; exact QuietExtends.refl _
        exact (q1.trans q2).trans (QuietExtends.emit p2 (Event.proposalMapPrune a) rfl)

theorem OnCommit_quiet {w : World} {l : List commitReadyBlock} {p p' : Pacemaker}
    (h : OnCommit w p l = Except.ok p') : QuietExtends p p' := by
  induction l generalizing p with
  | nil =>
    simp only [OnCommit, pure, Except.pure, Except.ok.injEq] at h
    subst h; exact QuietExtends.refl _
  | cons b rest ih =>
    simp only [OnCommit] at h
    obtain ⟨p1, h1, h⟩ := Run.bind_eq_ok h
    exact (OnCommitOne_quiet h1).trans (ih h)

theorem UpdateCommit_spec {w : World} {fuel : Nat} {p p' : Pacemaker} {bp : Addr}
    {block : Option Addr} (h : UpdateCommit w fuel p bp block = Except.ok p') :
    QuietExtends p p'
    ∨ ((p.heap.cell bp).Parent = block ∧ QuietExtends { p with blockLocked := block } p') := by
  unfold UpdateCommit at h
  split at h
  · simp only [pure, Except.pure, Except.ok.injEq] at h
    subst h; exact Or.inl (QuietExtends.refl _)
  · rename_i hpar
    obtain ⟨cr, h1, h⟩ := Run.bind_eq_ok h
    obtain ⟨p1, h2, h⟩ := Run.bind_eq_ok h
    simp only [pure, Except.pure, Except.ok.injEq] at h
    subst h
    obtain ⟨evs, rfl, hv⟩ := OnCommit_quiet h2
    exact Or.inr ⟨by simpa using hpar, evs, rfl, hv⟩

theorem Update_spec {w : World} {fuel : Nat} {p p' : Pacemaker} {bnew : Option Addr}
    (h : Update w fuel p bnew = Except.ok p') :
    ∃ q, QuietExtends { p with QCHigh := q } p'
      ∨ ∃ b, TwoLinksBehind p.heap bnew b
          ∧ QuietExtends { p with QCHigh := q, blockLocked := some b } p' := by
  unfold Update at h
  obtain ⟨bnewD, h1, h⟩ := Run.bind_eq_ok h
  obtain ⟨justify, h2, h⟩ := Run.bind_eq_ok h
  dsimp only at h
  split at h
  · simp only [pure, Except.pure, Except.ok.injEq] at h
    subst h; exact ⟨p.QCHigh, Or.inl (QuietExtends.refl _)⟩
  · rename_i bp hbp
    split at h
    · obtain ⟨u, hu, h⟩ := Run.bind_eq_ok h
      simp only [pure, Except.pure, Except.ok.injEq] at h
      subst h; exact ⟨p.QCHigh, Or.inl (QuietExtends.refl _)⟩
    · obtain ⟨bpJustify, h3, h⟩ := Run.bind_eq_ok h
      obtain ⟨blockD, h4, h⟩ := Run.bind_eq_ok h
      obtain ⟨u, h5, h⟩ := Run.bind_eq_ok h
      split at h
      · rename_i hnone
        rw [hnone] at h4
        simp [Heap.deref] at h4
      · rename_i b hb
        obtain ⟨u1, h6, h⟩ := Run.bind_eq_ok h
        obtain ⟨u2, h7, h⟩ := Run.bind_eq_ok h
        obtain ⟨u3, h8, h⟩ := Run.bind_eq_ok h
        obtain ⟨r, h9, h⟩ := Run.bind_eq_ok h
        have hr := UpdateQCHigh_frame h9
        have hr' : r.1 = { p with QCHigh := r.1.QCHigh } := by
          rw [hr]; split <;> rfl
        refine ⟨r.1.QCHigh, ?_⟩
        rcases UpdateCommit_spec h with hq | ⟨hpar, hq⟩
        · left; rw [← hr']; exact hq
        · right
          refine ⟨b, ?_, ?_⟩
          · cases bnew with
            | none => simp [Heap.deref] at h1
            | some bn =>
              simp only [Heap.deref, Except.ok.injEq] at h1
              subst h1
              rw [hb] at hpar
              have hheap : r.1.heap = p.heap := by rw [hr']
              rw [hheap] at hpar
              have hq1 : p.heap.qcNode (some bn) = some bp := by
                simp [Heap.qcNode, nonNil_eq_ok h2, hbp]
              have hq2 : p.heap.qcNode (some bp) = some b := by
                simp [Heap.qcNode, nonNil_eq_ok h3, hb]
              exact ⟨by rw [hq1, hq2], by rw [hq1]; exact hpar⟩
          · rw [hb] at hq
            have : ({ r.1 with blockLocked := some b } : Pacemaker)
                = { p with QCHigh := r.1.QCHigh, blockLocked := some b } := by
              rw [hr']
            rw [← this]; exact hq

theorem resetRoundTimer_frame (p : Pacemaker) (round : Nat) (reason : roundTimerUpdateReason) :
    ∃ rt tc, resetRoundTimer p round reason = { p with roundTimer := rt, timeoutCounter := tc } := by
  simp only [resetRoundTimer, startRoundTimer, stopRoundTimer, Option.isNone_none, if_true]
  exact ⟨_, _, rfl⟩

theorem enterRoundSwitch_frame (w : World) (p : Pacemaker) (round : Nat)
    (reason : roundUpdateReason) (updated : Bool) :
    ∃ rt tc, (enterRoundSwitch w p round reason updated).1
      = { p with roundTimer := rt, timeoutCounter := tc } := by
  have hp : ∃ rt tc, p = { p with roundTimer := rt, timeoutCounter := tc } := ⟨_, _, rfl⟩
  unfold enterRoundSwitch
  cases reason <;> dsimp only <;> repeat' split
  all_goals first
    | exact resetRoundTimer_frame p round _
    | exact hp

theorem enterRound_frame (w : World) (p : Pacemaker) (round : Nat) (reason : roundUpdateReason) :
    ∃ cr rt tc, (enterRound w p round reason).1
      = { p with currentRound := cr, roundTimer := rt, timeoutCounter := tc } := by
  obtain ⟨rt, tc, h⟩ := enterRoundSwitch_frame w p round reason (decide (p.currentRound ≠ round))
  unfold enterRound
  dsimp only
  split
  · exact ⟨round, rt, tc, by rw [h]⟩
  · exact ⟨p.currentRound, rt, tc, by rw [h]⟩

theorem QuietExtends.fields {p p' : Pacemaker} (h : QuietExtends p p') :
    p'.lastVotingHeight = p.lastVotingHeight ∧ votesSent p'.trace = votesSent p.trace
    ∧ p'.heap = p.heap ∧ p'.blockLocked = p.blockLocked ∧ p'.QCHigh = p.QCHigh
    ∧ p'.currentRound = p.currentRound := by
  obtain ⟨evs, rfl, hv⟩ := h
  simp [votesSent_append, hv]

theorem Update_voting {w : World} {fuel : Nat} {p p' : Pacemaker} {bnew : Option Addr}
    (h : Update w fuel p bnew = Except.ok p') :
    p'.lastVotingHeight = p.lastVotingHeight ∧ votesSent p'.trace = votesSent p.trace
    ∧ p'.heap = p.heap ∧ p'.currentRound = p.currentRound := by
  obtain ⟨q, hq | ⟨b, _, hq⟩⟩ := Update_spec h
  · obtain ⟨h1, h2, h3, _, _, h6⟩ := hq.fields
    exact ⟨h1, h2, h3, h6⟩
  · obtain ⟨h1, h2, h3, _, _, h6⟩ := hq.fields
    exact ⟨h1, h2, h3, h6⟩

theorem proposalVote_spec (w : World) (p : Pacemaker) (msg : PMProposalMessage) (blk : Block)
    (justify : Option draftQC) (validTimeout : Bool) (bnewA : Addr) :
    (proposalVote w p msg blk justify validTimeout bnewA).1.heap = p.heap
    ∧ (proposalVote w p msg blk justify validTimeout bnewA).1.blockLocked = p.blockLocked
    ∧ (((proposalVote w p msg blk justify validTimeout bnewA).2 = false
        ∧ (proposalVote w p msg blk justify validTimeout bnewA).1.lastVotingHeight
            = p.lastVotingHeight
        ∧ votesSent (proposalVote w p msg blk justify validTimeout bnewA).1.trace
            = votesSent p.trace)
      ∨ ((proposalVote w p msg blk justify validTimeout bnewA).2 = true
        ∧ (proposalVote w p msg blk justify validTimeout bnewA).1.lastVotingHeight
            = (p.heap.cell bnewA).Height
        ∧ ∃ v, votesSent (proposalVote w p msg blk justify validTimeout bnewA).1.trace
            = votesSent p.trace ++ [v])) := by
  have hq : ∃ cr rt tc,
      (if validTimeout = true then
        (enterRound w p (p.heap.cell bnewA).Round roundUpdateReason.UpdateOnTimeoutCertProposal).1
      else if blk.IsKBlock = true then
        (enterRound w p (p.heap.cell bnewA).Round roundUpdateReason.UpdateOnKBlockProposal).1
      else (enterRound w p (p.heap.cell bnewA).Round roundUpdateReason.UpdateOnRegularProposal).1)
      = { p with currentRound := cr, roundTimer := rt, timeoutCounter := tc } := by
    split
    · exact enterRound_frame _ _ _ _
    · split
      · exact enterRound_frame _ _ _ _
      · exact enterRound_frame _ _ _ _
  obtain ⟨cr, rt, tc, hq⟩ := hq
  unfold proposalVote
  simp only [hq]
  split
  · simp
  · split
    · simp
    · split
      · simp
      · simp [Pacemaker.emit, votesSent_append, votesSent]

theorem proposalDraft_spec (w : World) (p : Pacemaker) (msg : PMProposalMessage) (blk : Block)
    (parent : Addr) (justify : Option draftQC) :
    (proposalDraft w p msg blk parent justify).1.lastVotingHeight = p.lastVotingHeight
    ∧ votesSent (proposalDraft w p msg blk parent justify).1.trace = votesSent p.trace
    ∧ (proposalDraft w p msg blk parent justify).1.blockLocked = p.blockLocked := by
  unfold proposalDraft
  split
  · simp
  · simp [Pacemaker.emit, votesSent_append, votesSent]

theorem proposalVoteAndUpdate_spec {w : World} {fuel : Nat} {p p' : Pacemaker}
    {msg : PMProposalMessage} {blk : Block} {justify : Option draftQC} {validTimeout : Bool}
    {bnewA : Addr}
    (h : proposalVoteAndUpdate w fuel p msg blk justify validTimeout bnewA = Except.ok p') :
    (p'.lastVotingHeight = p.lastVotingHeight ∧ votesSent p'.trace = votesSent p.trace)
    ∨ (p.lastVotingHeight < (p.heap.cell bnewA).Height
        ∧ w.IsExtendedFromBLocked p bnewA = true
        ∧ p'.lastVotingHeight = (p.heap.cell bnewA).Height
        ∧ ∃ v, votesSent p'.trace = votesSent p.trace ++ [v]) := by
  unfold proposalVoteAndUpdate at h
  try dsimp only at h
  split at h
  · rename_i hguard
    obtain ⟨_, _, hv⟩ := proposalVote_spec w p msg blk justify validTimeout bnewA
    split at h
    · rename_i hcont
      obtain ⟨u1, u2, _, _⟩ := Update_voting h
      rcases hv with ⟨hf, _, _⟩ | ⟨_, hl, v, hvs⟩
      · rw [hf] at hcont; cases hcont
      · right
        exact ⟨hguard.1, hguard.2, by rw [u1, hl], v, by rw [u2, hvs]⟩
    · rename_i hcont
      simp only [pure, Except.pure, Except.ok.injEq] at h
      subst h
      rcases hv with ⟨_, hl, hvs⟩ | ⟨ht, _, _⟩
      · left; exact ⟨hl, hvs⟩
      · exact absurd ht hcont
  · obtain ⟨u1, u2, _, _⟩ := Update_voting h
    left; exact ⟨u1, u2⟩

theorem OnReceiveProposal_votingRule {w : World} {fuel : Nat} {p p' : Pacemaker}
    {mi : IncomingMsg} (h : OnReceiveProposal w fuel p mi = Except.ok p') :
    VotingRule w p p' mi := by
  unfold OnReceiveProposal at h
  split at h
  · simp at h
  · simp at h
  · rename_i msg hmsg
    obtain ⟨locked, h1, h⟩ := Run.bind_eq_ok h
    try dsimp only at h
    split at h
    · simp only [pure, Except.pure, Except.ok.injEq] at h
      subst h; exact Or.inl ⟨rfl, rfl⟩
    · obtain ⟨blk, h2, h⟩ := Run.bind_eq_ok h
      split at h
      · simp only [pure, Except.pure, Except.ok.injEq] at h
        subst h
        exact Or.inl ⟨rfl, by simp [Pacemaker.emit, votesSent_append, votesSent]⟩
      · rename_i parent hparent
        obtain ⟨qcv, h3, h⟩ := Run.bind_eq_ok h
        try dsimp only at h
        split at h
        · obtain ⟨u, h4, h⟩ := Run.bind_eq_ok h
          simp only [pure, Except.pure, Except.ok.injEq] at h
          subst h; exact Or.inl ⟨rfl, rfl⟩
        · obtain ⟨d1, d2, d3⟩ := proposalDraft_spec w p msg blk parent
            (newPMQuorumCert blk.QC (some parent))
          rcases proposalVoteAndUpdate_spec h with ⟨hl, hv⟩ | ⟨hlt, hext, hl, v, hv⟩
          · left; exact ⟨by rw [hl, d1], by rw [hv, d2]⟩
          · right
            refine ⟨msg, blk, parent, v, hmsg, nonNil_eq_ok h2, hparent, ?_, hext, d3, hl, ?_⟩
            · rw [← d1]; exact hlt
            · rw [hv, d2]

theorem placeBuilt_frame (p : Pacemaker) (built : Option Err × Option draftBlock) :
    ∃ hp, (placeBuilt p built).1 = { p with heap := hp } := by
  unfold placeBuilt
  split
  · exact ⟨p.heap, rfl⟩
  · exact ⟨_, rfl⟩

theorem CreateLeaf_frame {w : World} {p : Pacemaker} {parent : Option Addr}
    {justify : Option draftQC} {round : Nat} {r : Pacemaker × Option Err × Option Addr}
    (h : CreateLeaf w p parent justify round = Except.ok r) :
    ∃ hp, r.1 = { p with heap := hp } := by
  unfold CreateLeaf at h
  obtain ⟨j, h1, h⟩ := Run.bind_eq_ok h
  obtain ⟨jQC, h2, h⟩ := Run.bind_eq_ok h
  obtain ⟨parentA, h3, h⟩ := Run.bind_eq_ok h
  try dsimp only at h
  split at h
  · simp only [pure, Except.pure, Except.ok.injEq] at h
    subst h; exact ⟨p.heap, rfl⟩
  · try dsimp only at h
    split at h
    · simp only [pure, Except.pure, Except.ok.injEq] at h
      subst h; exact placeBuilt_frame _ _
    · split at h
      · obtain ⟨pr, h4, h⟩ := Run.bind_eq_ok h
        simp only [pure, Except.pure, Except.ok.injEq] at h
        subst h; exact placeBuilt_frame _ _
      · split at h
        · simp only [pure, Except.pure, Except.ok.injEq] at h
          subst h; exact ⟨p.heap, rfl⟩
        · split at h
          · simp only [pure, Except.pure, Except.ok.injEq] at h
            subst h; exact ⟨p.heap, rfl⟩
          · simp only [pure, Except.pure, Except.ok.injEq] at h
            subst h; exact placeBuilt_frame _ _

theorem OnPropose_frame {w : World} {p p' : Pacemaker} {qc : Option draftQC} {round : Nat}
    (h : OnPropose w p qc round = Except.ok p') :
    ∃ hp tc tr, p' = { p with heap := hp, TCHigh := tc, trace := tr } := by
  unfold OnPropose at h
  obtain ⟨q, h1, h⟩ := Run.bind_eq_ok h
  try dsimp only at h
  obtain ⟨r, h2, h⟩ := Run.bind_eq_ok h
  obtain ⟨hp, hr⟩ := CreateLeaf_frame h2
  try dsimp only at h
  split at h
  · simp only [pure, Except.pure, Except.ok.injEq] at h
    subst h; exact ⟨hp, p.TCHigh, p.trace, hr⟩
  · obtain ⟨bnewA, h3, h⟩ := Run.bind_eq_ok h
    obtain ⟨blk, h4, h⟩ := Run.bind_eq_ok h
    obtain ⟨proposedQC, h5, h⟩ := Run.bind_eq_ok h
    try dsimp only at h
    split at h
    · simp only [pure, Except.pure, Except.ok.injEq] at h
      subst h; exact ⟨hp, p.TCHigh, p.trace, hr⟩
    · split at h
      · simp only [pure, Except.pure, Except.ok.injEq] at h
        subst h; exact ⟨hp, p.TCHigh, p.trace, hr⟩
      · simp only [pure, Except.pure, Except.ok.injEq] at h
        subst h
        rw [hr]
        exact ⟨_, _, _, rfl⟩

theorem OnBeat_lastVotingHeight {w : World} {p p' : Pacemaker} {epoch round : Nat}
    {reason : beatReason} (h : OnBeat w p epoch round reason = Except.ok p') :
    p'.lastVotingHeight = p.lastVotingHeight := by
  unfold OnBeat at h
  split at h
  · simp only [pure, Except.pure, Except.ok.injEq] at h
    subst h; rfl
  · split at h
    · simp only [pure, Except.pure, Except.ok.injEq] at h
      subst h; rfl
    · obtain ⟨high, h1, h⟩ := Run.bind_eq_ok h
      try dsimp only at h
      split at h
      · simp only [pure, Except.pure, Except.ok.injEq] at h
        subst h; rfl
      · have hreset : ∀ q : Pacemaker,
            (if reason = beatReason.BeatOnInit then
              resetRoundTimer q round roundTimerUpdateReason.TimerInit else q).lastVotingHeight
              = q.lastVotingHeight := by
          intro q
          split
          · obtain ⟨rt, tc, e⟩ := resetRoundTimer_frame q round roundTimerUpdateReason.TimerInit
            rw [e]
          · rfl
        split at h
        · simp only [pure, Except.pure, Except.ok.injEq] at h
          subst h
          rw [hreset]
        · obtain ⟨hp, tc, tr, e⟩ := OnPropose_frame h
          obtain ⟨cr, rt, tc', e'⟩ := enterRound_frame w
            (if reason = beatReason.BeatOnInit then
              resetRoundTimer { p with lastOnBeatRound := wrapInt32 (round : Int) } round
                roundTimerUpdateReason.TimerInit
             else { p with lastOnBeatRound := wrapInt32 (round : Int) })
            round roundUpdateReason.UpdateOnBeat
          rw [e, e']
          exact hreset _

theorem OnRoundTimeout_lastVotingHeight {w : World} {p p' : Pacemaker} {ti : PMRoundTimeoutInfo}
    (h : OnRoundTimeout w p ti = Except.ok p') :
    p'.lastVotingHeight = p.lastVotingHeight := by
  unfold OnRoundTimeout at h
  obtain ⟨cr, rt, tc, e⟩ := enterRound_frame w p (add32 ti.round 1)
    roundUpdateReason.UpdateOnTimeout
  try dsimp only at h
  obtain ⟨high, h1, h⟩ := Run.bind_eq_ok h
  obtain ⟨highQC, h2, h⟩ := Run.bind_eq_ok h
  try dsimp only at h
  split at h
  · split at h
    · simp only [pure, Except.pure, Except.ok.injEq] at h
      subst h; rw [e]
    · simp only [pure, Except.pure, Except.ok.injEq] at h
      subst h; simp only [Pacemaker.emit]; rw [e]
  · simp only [pure, Except.pure, Except.ok.injEq] at h
    subst h; rw [e]

theorem UpdateQCHigh_lastVotingHeight {p : Pacemaker} {qc : Option draftQC}
    {r : Pacemaker × Bool} (h : UpdateQCHigh p qc = Except.ok r) :
    r.1.lastVotingHeight = p.lastVotingHeight := by
  rw [UpdateQCHigh_frame h]; split <;> rfl

theorem OnReceiveVote_lastVotingHeight {w : World} {p p' : Pacemaker} {mi : IncomingMsg}
    (h : OnReceiveVote w p mi = Except.ok p') :
    p'.lastVotingHeight = p.lastVotingHeight := by
  unfold OnReceiveVote at h
  split at h
  · simp at h
  · simp at h
  · try dsimp only at h
    split at h
    · simp only [pure, Except.pure, Except.ok.injEq] at h
      subst h; rfl
    · split at h
      · simp only [pure, Except.pure, Except.ok.injEq] at h
        subst h; rfl
      · split at h
        · simp only [pure, Except.pure, Except.ok.injEq] at h
          subst h; rfl
        · try dsimp only at h
          split at h
          · simp only [pure, Except.pure, Except.ok.injEq] at h
            subst h; rfl
          · split at h
            · simp only [pure, Except.pure, Except.ok.injEq] at h
              subst h; rfl
            · obtain ⟨r, h1, h⟩ := Run.bind_eq_ok h
              have hr := UpdateQCHigh_lastVotingHeight h1
              split at h
              · simp only [pure, Except.pure, Except.ok.injEq] at h
                subst h
                simp only [ScheduleOnBeat, Pacemaker.emit]
                exact hr
              · simp only [pure, Except.pure, Except.ok.injEq] at h
                subst h
                exact hr

theorem timeoutWishVote_lastVotingHeight (w : World) (p : Pacemaker) (msg : PMTimeoutMessage) :
    (timeoutWishVote w p msg).1.lastVotingHeight = p.lastVotingHeight := by
  unfold timeoutWishVote
  dsimp only
  split <;> rfl

theorem timeoutLastVote_lastVotingHeight {w : World} {p : Pacemaker} {msg : PMTimeoutMessage}
    {r : Pacemaker × Bool} (h : timeoutLastVote w p msg = Except.ok r) :
    r.1.lastVotingHeight = p.lastVotingHeight := by
  unfold timeoutLastVote at h
  dsimp only at h
  split at h
  · rw [UpdateQCHigh_lastVotingHeight h]
  · simp only [pure, Except.pure, Except.ok.injEq] at h
    subst h; rfl

theorem timeoutSchedule_lastVotingHeight {p p' : Pacemaker} {qcUpdated tcUpdated : Bool}
    (h : timeoutSchedule p qcUpdated tcUpdated = Except.ok p') :
    p'.lastVotingHeight = p.lastVotingHeight := by
  unfold timeoutSchedule at h
  obtain ⟨p3, h3, h⟩ := Run.bind_eq_ok h
  have e3 : p3.lastVotingHeight = p.lastVotingHeight := by
    split at h3
    · obtain ⟨high, h4, h3⟩ := Run.bind_eq_ok h3
      obtain ⟨highQC, h5, h3⟩ := Run.bind_eq_ok h3
      simp only [pure, Except.pure, Except.ok.injEq] at h3
      subst h3; rfl
    · simp only [pure, Except.pure, Except.ok.injEq] at h3
      subst h3; rfl
  split at h
  · obtain ⟨tc, h6, h⟩ := Run.bind_eq_ok h
    simp only [pure, Except.pure, Except.ok.injEq] at h
    subst h
    simp only [ScheduleOnBeat, Pacemaker.emit]
    exact e3
  · simp only [pure, Except.pure, Except.ok.injEq] at h
    subst h
    exact e3

theorem OnReceiveTimeout_lastVotingHeight {w : World} {p p' : Pacemaker} {mi : IncomingMsg}
    (h : OnReceiveTimeout w p mi = Except.ok p') :
    p'.lastVotingHeight = p.lastVotingHeight := by
  unfold OnReceiveTimeout at h
  split at h
  · simp at h
  · simp at h
  · rename_i msg hmsg
    split at h
    · simp only [pure, Except.pure, Except.ok.injEq] at h
      subst h; rfl
    · try dsimp only at h
      obtain ⟨r1, h1, h⟩ := Run.bind_eq_ok h
      obtain ⟨r2, h2, h⟩ := Run.bind_eq_ok h
      rw [timeoutSchedule_lastVotingHeight h, UpdateQCHigh_lastVotingHeight h2,
        timeoutLastVote_lastVotingHeight h1, timeoutWishVote_lastVotingHeight]

theorem regulateStart_lastVotingHeight (w : World) (p : Pacemaker) (bestQC : QuorumCert)
    (actualRound : Nat) : (regulateStart w p bestQC actualRound).lastVotingHeight = 0 := by
  unfold regulateStart
  simp only [ScheduleOnBeat, Pacemaker.emit]
  split <;> rfl

theorem Regulate_lastVotingHeight {w : World} {p p' : Pacemaker}
    (h : Regulate w p = Except.ok p') : p'.lastVotingHeight = 0 := by
  unfold Regulate at h
  try dsimp only at h
  obtain ⟨bestQC, h1, h⟩ := Run.bind_eq_ok h
  split at h
  · simp at h
  · obtain ⟨bestBlk, h2, h⟩ := Run.bind_eq_ok h
    simp only [pure, Except.pure, Except.ok.injEq] at h
    subst h
    exact regulateStart_lastVotingHeight _ _ _ _

/-! ## Properties of the pacemaker: the voting rule, the lock, QCHigh and the round -/

theorem votedHeights_increasing (calls : List ProposalCall) :
    ∀ (p : Pacemaker) (hs : List Nat), votedHeights p calls = Except.ok hs →
      hs.Pairwise (fun a b => a < b) ∧ ∀ h ∈ hs, p.lastVotingHeight < h := by
  induction calls with
  | nil =>
    intro p hs h
    simp only [votedHeights, pure, Except.pure, Except.ok.injEq] at h
    subst h
    simp
  | cons c rest ih =>
    intro p hs h
    simp only [votedHeights] at h
    obtain ⟨p', h1, h⟩ := Run.bind_eq_ok h
    obtain ⟨hs', h2, h⟩ := Run.bind_eq_ok h
    simp only [pure, Except.pure, Except.ok.injEq] at h
    obtain ⟨hpair, hbound⟩ := ih p' hs' h2
    rcases OnReceiveProposal_votingRule h1 with ⟨hl, hv⟩ | ⟨_, _, _, v, _, _, _, hlt, _, _, hl, hv⟩
    · rw [hv] at h
      simp only [gt_iff_lt, lt_self_iff_false, if_false] at h
      subst h
      exact ⟨hpair, fun x hx => hl ▸ hbound x hx⟩
    · rw [hv] at h
      simp only [List.length_append, List.length_singleton, gt_iff_lt, Nat.lt_succ_self,
        if_true] at h
      subst h
      have hlt' : p.lastVotingHeight < p'.lastVotingHeight := by rw [hl]; exact hlt
      refine ⟨List.pairwise_cons.mpr ⟨hbound, hpair⟩, ?_⟩
      intro x hx
      rcases List.mem_cons.mp hx with rfl | hx
      · exact hlt'
      · exact lt_trans hlt' (hbound x hx)

/-- C3: a returning call of `OnReceiveProposal` sends a vote only for a proposal draft whose
height is strictly greater than `lastVotingHeight` and that `IsExtendedFromBLocked` accepts,
and then sets `lastVotingHeight` to that height (`VotingRule`); so over every sequence of
returning `OnReceiveProposal` calls the heights voted for are strictly increasing, and all
above the `lastVotingHeight` the sequence started with. -/
theorem OnReceiveProposal_votes_once_per_height :
    (∀ (w : World) (fuel : Nat) (p p' : Pacemaker) (mi : IncomingMsg),
      OnReceiveProposal w fuel p mi = Except.ok p' → VotingRule w p p' mi)
    ∧ (∀ (p : Pacemaker) (calls : List ProposalCall) (hs : List Nat),
      votedHeights p calls = Except.ok hs →
        hs.Pairwise (fun a b => a < b) ∧ ∀ h ∈ hs, p.lastVotingHeight < h) :=
  ⟨fun _ _ _ _ _ h => OnReceiveProposal_votingRule h,
   fun p calls hs h => votedHeights_increasing calls p hs h⟩

/-- C3 at a concrete run: in `demoPacemaker 0` the proposal of height 2 is voted for, and the
proposals of heights 2, 3 and again 3 give the voted heights 2 and 3. -/
theorem OnReceiveProposal_votes_once_per_height_witness :
    OnReceiveProposal demoWorld 10 (demoPacemaker 0) (demoProposal 2) = Except.ok demoVoted
    ∧ VotingRule demoWorld (demoPacemaker 0) demoVoted (demoProposal 2)
    ∧ demoVoted.lastVotingHeight = 2
    ∧ votedHeights (demoPacemaker 0) demoCalls = Except.ok [2, 3]
    ∧ ([2, 3] : List Nat).Pairwise (fun a b => a < b)
    ∧ ∀ h ∈ ([2, 3] : List Nat), (demoPacemaker 0).lastVotingHeight < h :=
  ⟨rfl,
   OnReceiveProposal_votes_once_per_height.1 demoWorld 10 (demoPacemaker 0) demoVoted
     (demoProposal 2) rfl,
   rfl, rfl,
   (OnReceiveProposal_votes_once_per_height.2 (demoPacemaker 0) demoCalls [2, 3] rfl).1,
   (OnReceiveProposal_votes_once_per_height.2 (demoPacemaker 0) demoCalls [2, 3] rfl).2⟩

/-- C4 (the claim fails): `Update` of the draft at address 3 of `demoChain` moves
`blockLocked` from the draft at address 0 to the draft at address 1, which is two justify
links behind the draft 3; three justify links behind it is the draft 0. -/
theorem Update_locks_third_link_counterexample :
    (demoPacemaker 0).blockLocked = some 0
    ∧ Except.map Pacemaker.blockLocked (Update demoWorld 10 (demoPacemaker 0) (some 3))
        = Except.ok (some 1)
    ∧ demoChain.qcNode (demoChain.qcNode (demoChain.qcNode (some 3))) = some 0
    ∧ ¬ ThreeLinksBehind (demoPacemaker 0).heap (some 3) 1 := by
  refine ⟨rfl, rfl, rfl, ?_⟩
  intro h
  have h1 := h.1
  revert h1
  decide

/-- C4 (amended): whenever a returning `Update(bnew)` changes `blockLocked` to a draft `b`, `b`
is two justify links behind `bnew`: with `b' = bnew.Justify.QCNode`, `b = b'.Justify.QCNode`,
and `b'.Parent = b`. -/
theorem Update_locks_two_links_behind (w : World) (fuel : Nat) (p p' : Pacemaker)
    (bnew : Option Addr) (b : Addr)
    (h : Update w fuel p bnew = Except.ok p')
    (hb : p'.blockLocked = some b) (hchanged : p'.blockLocked ≠ p.blockLocked) :
    TwoLinksBehind p.heap bnew b := by
  obtain ⟨q, hq | ⟨b', htwo, hq⟩⟩ := Update_spec h
  · obtain ⟨_, _, _, hl, _, _⟩ := hq.fields
    exact absurd hl hchanged
  · obtain ⟨_, _, _, hl, _, _⟩ := hq.fields
    rw [hl] at hb
    simp only [Option.some.injEq] at hb
    subst hb
    exact htwo

/-- C4 (amended) at a concrete state: `Update` of the draft 3 of `demoChain` changes
`blockLocked` from draft 0 to draft 1, two justify links behind draft 3. -/
theorem Update_locks_two_links_behind_witness :
    Update demoWorld 10 (demoPacemaker 0) (some 3) = Except.ok demoUpdated
    ∧ demoUpdated.blockLocked = some 1
    ∧ demoUpdated.blockLocked ≠ (demoPacemaker 0).blockLocked
    ∧ TwoLinksBehind (demoPacemaker 0).heap (some 3) 1 :=
  ⟨rfl, rfl, by decide,
   Update_locks_two_links_behind demoWorld 10 (demoPacemaker 0) demoUpdated (some 3) 1 rfl rfl
     (by decide)⟩

/-- C5 (the code at an input of the claim): with the draft at address 2 (height 2) locked,
`Update` of the draft at address 3 of `demoChain` returns with `blockLocked` set to the draft
at address 1: the height of `blockLocked` goes from 2 down to 1. The proposal of height 3,
which `OnReceiveProposal` does not drop (3 is not below the locked height 2), reaches that
`Update` and lowers the locked height in the same way. -/
theorem Update_lowers_blockLocked_height_counterexample :
    lockedHeight (demoPacemaker 2) = some 2
    ∧ Except.map lockedHeight (Update demoWorld 10 (demoPacemaker 2) (some 3))
        = Except.ok (some 1)
    ∧ Except.map lockedHeight
        (OnReceiveProposal demoWorld 10 (demoPacemaker 2) (demoProposal 3))
        = Except.ok (some 1) :=
  ⟨rfl, rfl, rfl⟩

/-- C6 (the claim fails): `Regulate` run on a pacemaker whose `lastVotingHeight` is 5 leaves
it at 0. -/
theorem Regulate_resets_lastVotingHeight_counterexample :
    ({ demoPacemaker 0 with lastVotingHeight := 5 } : Pacemaker).lastVotingHeight = 5
    ∧ Except.map Pacemaker.lastVotingHeight
        (Operation.Regulate.run demoWorld 10 { demoPacemaker 0 with lastVotingHeight := 5 })
        = Except.ok 0 :=
  ⟨rfl, rfl⟩

/-- C6 (amended): every operation of the main loop other than `Regulate` (`OnReceiveProposal`,
`OnReceiveVote`, `OnReceiveTimeout`, `OnBeat`, `OnRoundTimeout`) that returns leaves
`lastVotingHeight` greater than or equal to its value before; a returning `Regulate` sets it
to 0. -/
theorem mainLoop_lastVotingHeight (w : World) (fuel : Nat) (p p' : Pacemaker) (op : Operation)
    (h : op.run w fuel p = Except.ok p') :
    (op ≠ Operation.Regulate → p.lastVotingHeight ≤ p'.lastVotingHeight)
    ∧ (op = Operation.Regulate → p'.lastVotingHeight = 0) := by
  cases op with
  | OnReceiveProposal mi =>
    refine ⟨fun _ => ?_, fun hreg => by cases hreg⟩
    rcases OnReceiveProposal_votingRule h with ⟨hl, _⟩ | ⟨_, _, _, _, _, _, _, hlt, _, _, hl, _⟩
    · exact le_of_eq hl.symm
    · rw [hl]; exact le_of_lt hlt
  | OnReceiveVote mi =>
    exact ⟨fun _ => le_of_eq (OnReceiveVote_lastVotingHeight h).symm, fun hreg => by cases hreg⟩
  | OnReceiveTimeout mi =>
    exact ⟨fun _ => le_of_eq (OnReceiveTimeout_lastVotingHeight h).symm,
      fun hreg => by cases hreg⟩
  | OnBeat epoch round reason =>
    exact ⟨fun _ => le_of_eq (OnBeat_lastVotingHeight h).symm, fun hreg => by cases hreg⟩
  | OnRoundTimeout ti =>
    exact ⟨fun _ => le_of_eq (OnRoundTimeout_lastVotingHeight h).symm,
      fun hreg => by cases hreg⟩
  | Regulate =>
    exact ⟨fun hne => absurd rfl hne, fun _ => Regulate_lastVotingHeight h⟩

/-- C6 (amended) at a concrete run: `OnReceiveProposal` of the proposal of height 2 in
`demoPacemaker 0` raises `lastVotingHeight` from 0 to 2. -/
theorem mainLoop_lastVotingHeight_witness :
    (Operation.OnReceiveProposal (demoProposal 2)).run demoWorld 10 (demoPacemaker 0)
        = Except.ok demoVoted
    ∧ (demoPacemaker 0).lastVotingHeight = 0 ∧ demoVoted.lastVotingHeight = 2
    ∧ (demoPacemaker 0).lastVotingHeight ≤ demoVoted.lastVotingHeight :=
  ⟨rfl, rfl, rfl,
   (mainLoop_lastVotingHeight demoWorld 10 (demoPacemaker 0) demoVoted
      (Operation.OnReceiveProposal (demoProposal 2)) rfl).1 (by decide)⟩

/-- C7 (the code at three inputs where `QCHigh.QCNode` differs from `QCHigh.QC`). The QC of
`QCHigh` is (height 5, round 2) throughout.
With a QC node of height 4 and round 4, the candidate QC (4, 5), which is lower than (5, 2),
replaces `QCHigh` and true is returned.
With a QC node of height 5 and round 5, the candidate QC (5, 3), which is higher than (5, 2),
does not replace `QCHigh` and false is returned.
With no QC node (as `Regulate` leaves `QCHigh` when it starts with an empty node), the
candidate QC (5, 3) makes `UpdateQCHigh` fault. -/
theorem UpdateQCHigh_compares_with_QCNode :
    Except.map (fun r => (r.1.QCHigh, r.2))
        (UpdateQCHigh
          { demoPacemaker 0 with QCHigh := some { QCNode := some 4, QC := some (demoQC 5 2) } }
          (some { QCNode := some 4, QC := some (demoQC 4 5) }))
      = Except.ok (some { QCNode := some 4, QC := some (demoQC 4 5) }, true)
    ∧ Except.map (fun r => (r.1.QCHigh, r.2))
        (UpdateQCHigh
          { demoPacemaker 0 with QCHigh := some { QCNode := some 5, QC := some (demoQC 5 2) } }
          (some { QCNode := some 5, QC := some (demoQC 5 3) }))
      = Except.ok (some { QCNode := some 5, QC := some (demoQC 5 2) }, false)
    ∧ Except.map (fun r => (r.1.QCHigh, r.2))
        (UpdateQCHigh
          { demoPacemaker 0 with QCHigh := some { QCNode := none, QC := some (demoQC 5 2) } }
          (some { QCNode := some 5, QC := some (demoQC 5 3) }))
      = Except.error Stop.fault :=
  ⟨rfl, rfl, rfl⟩

theorem enterRoundSwitch_currentRound (w : World) (p : Pacemaker) (round : Nat)
    (reason : roundUpdateReason) (updated : Bool) :
    (enterRoundSwitch w p round reason updated).1.currentRound = p.currentRound := by
  obtain ⟨rt, tc, h⟩ := enterRoundSwitch_frame w p round reason updated
  rw [h]

theorem AggregateLoop.foldl_sigs (l : List (Nat × vote)) (s : AggregateLoop) :
    (l.foldl AggregateLoop.step s).sigs = s.sigs ++ l.map (fun e => e.2.BlsSig) := by
  induction l generalizing s with
  | nil => simp
  | cons e rest ih => simp [ih, AggregateLoop.step]

theorem AggregateLoop.run_sigs (n : Nat) (l : List (Nat × vote)) :
    (AggregateLoop.run n l).sigs = l.map (fun e => e.2.BlsSig) := by
  simp [AggregateLoop.run, AggregateLoop.foldl_sigs]

theorem AggregateLoop.foldl_length (l : List (Nat × vote)) (s : AggregateLoop) :
    (l.foldl AggregateLoop.step s).bitArray.length = s.bitArray.length := by
  induction l generalizing s with
  | nil => simp
  | cons e rest ih => simp [ih, AggregateLoop.step, BitArray.SetIndex]

theorem BitArray.GetIndex_SetIndex (b : BitArray) (i j : Nat) :
    (b.SetIndex j true).GetIndex i = true ↔ b.GetIndex i = true ∨ (i = j ∧ i < b.length) := by
  unfold BitArray.SetIndex BitArray.GetIndex
  simp only [List.getD_eq_getElem?_getD, List.getElem?_set]
  by_cases hij : j = i
  · subst hij
    by_cases hlt : j < b.length
    · simp [hlt]
    · simp only [hlt, if_false, Option.getD_none, and_false, or_false]
      rw [List.getElem?_eq_none (by omega)]
      simp
  · simp [hij]
    omega

theorem AggregateLoop.foldl_bit (l : List (Nat × vote)) (s : AggregateLoop) (i : Nat) :
    (l.foldl AggregateLoop.step s).bitArray.GetIndex i = true
      ↔ s.bitArray.GetIndex i = true ∨ (i < s.bitArray.length ∧ ∃ e ∈ l, e.1 = i) := by
  induction l generalizing s with
  | nil => simp
  | cons e rest ih =>
    simp only [List.foldl_cons, ih, AggregateLoop.step, BitArray.GetIndex_SetIndex,
      List.mem_cons, exists_eq_or_imp]
    have hlen : (s.bitArray.SetIndex e.1 true).length = s.bitArray.length := by
      simp [BitArray.SetIndex]
    rw [hlen]
    constructor
    · rintro ((h | ⟨h1, h2⟩) | ⟨h1, h2⟩)
      · exact Or.inl h
      · exact Or.inr ⟨h2, Or.inl h1.symm⟩
      · exact Or.inr ⟨h1, Or.inr h2⟩
    · rintro (h | ⟨h1, h2 | h2⟩)
      · exact Or.inl (Or.inl h)
      · exact Or.inl (Or.inr ⟨h2.symm, h1⟩)
      · exact Or.inr ⟨h1, h2⟩

theorem AggregateLoop.run_bit (n : Nat) (l : List (Nat × vote)) (i : Nat) :
    (AggregateLoop.run n l).bitArray.GetIndex i = true ↔ i < n ∧ ∃ e ∈ l, e.1 = i := by
  unfold AggregateLoop.run
  rw [AggregateLoop.foldl_bit]
  have h0 : ¬ (NewBitArray n).GetIndex i = true := by
    simp only [NewBitArray, BitArray.GetIndex, List.getD_eq_getElem?_getD,
      List.getElem?_replicate]
    split <;> simp
  have hlen : (NewBitArray n).length = n := by simp [NewBitArray]
  rw [hlen]
  constructor
  · rintro (h | h)
    · exact absurd h h0
    · exact h
  · exact Or.inr

theorem AggregateLoop.run_length (n : Nat) (l : List (Nat × vote)) :
    (AggregateLoop.run n l).bitArray.length = n := by
  unfold AggregateLoop.run
  rw [AggregateLoop.foldl_length]
  simp [NewBitArray]

theorem AggregateLoop.foldl_msgHash (l : List (Nat × vote)) (s : AggregateLoop) (h : Bytes32)
    (hne : l ≠ []) (hall : ∀ e ∈ l, e.2.Hash = h) :
    (l.foldl AggregateLoop.step s).msgHash = h := by
  induction l generalizing s with
  | nil => exact absurd rfl hne
  | cons e rest ih =>
    by_cases hrest : rest = []
    · subst hrest
      simp [AggregateLoop.step, hall e (List.mem_cons_self _ _)]
    · simp only [List.foldl_cons]
      exact ih _ hrest (fun x hx => hall x (List.mem_cons_of_mem _ hx))

theorem GoMap.lookupEntries_isSome {K V : Type} [DecidableEq K] (l : List (K × V)) (k : K) :
    (GoMap.lookupEntries l k).isSome = true ↔ ∃ e ∈ l, e.1 = k := by
  induction l with
  | nil => simp [GoMap.lookupEntries]
  | cons e rest ih =>
    obtain ⟨k', v⟩ := e
    by_cases h : k' = k
    · simp [GoMap.lookupEntries, h]
    · simp [GoMap.lookupEntries, h, ih]

theorem QCVoteManager.seal_votesAt (m : QCVoteManager) (height round : Nat) (blockID : Bytes32)
    (key : voteKey) : (m.seal height round blockID).votesAt key = m.votesAt key := rfl

theorem QCVoteManager.Aggregate_result (ro : RangeOrder) (m : QCVoteManager)
    (height round : Nat) (blockID : Bytes32) (epoch : Nat) :
    (m.Aggregate ro height round blockID epoch).2
      = (m.system.Aggregate
          (m.sigsVisited ro { Height := height, Round := round, BlockID := blockID })).map
        (fun sigAgg =>
          { QCHeight := height, QCRound := round, EpochID := epoch,
            VoterBitArrayStr := (AggregateLoop.run m.committeeSize
              (ro.visit (m.votesAt
                { Height := height, Round := round, BlockID := blockID }).entries)).bitArray,
            VoterMsgHash := (AggregateLoop.run m.committeeSize
              (ro.visit (m.votesAt
                { Height := height, Round := round, BlockID := blockID }).entries)).msgHash,
            VoterAggSig := m.system.SigToBytes sigAgg }) := by
  unfold QCVoteManager.Aggregate QCVoteManager.sigsVisited
  simp only [QCVoteManager.seal_votesAt, AggregateLoop.run_sigs]
  have hsys : (m.seal height round blockID).system = m.system := rfl
  have hn : (m.seal height round blockID).committeeSize = m.committeeSize := rfl
  rw [hsys, hn]
  cases m.system.Aggregate (List.map (fun e => e.2.BlsSig)
    (ro.visit (m.votesAt { Height := height, Round := round, BlockID := blockID }).entries)) <;>
    rfl

/-- C9 (the claim fails): in `twoHashes` the votes of indices 0 and 1 recorded under one key
carry the message hashes 9 and 8, and `Aggregate` on that key returns a QC, whose hash is
the hash of the vote visited last. -/
theorem Aggregate_differing_hashes_counterexample :
    (twoHashes.votesAt { Height := 1, Round := 0, BlockID := 7 }).entries
      = [(0, { Signature := [1], Hash := 9, BlsSig := 1 }),
         (1, { Signature := [1], Hash := 8, BlsSig := 1 })]
    ∧ (twoHashes.Aggregate RangeOrder.inOrder 1 0 7 0).2
      = some { QCHeight := 1, QCRound := 0, EpochID := 0,
               VoterBitArrayStr := [true, true, false, false], VoterMsgHash := 8,
               VoterAggSig := [2] } := by
  decide

/-- C9 (amended): `Aggregate` does not compare the message hashes of the recorded votes: for
every manager state and key it returns a QC exactly when the BLS aggregation of the recorded
signatures (in the order visited) succeeds, and no QC exactly when that aggregation fails. -/
theorem Aggregate_returns_QC_iff_signatures_aggregate (ro : RangeOrder) (m : QCVoteManager)
    (height round : Nat) (blockID : Bytes32) (epoch : Nat) :
    (m.Aggregate ro height round blockID epoch).2.isSome
      = (m.system.Aggregate
          (m.sigsVisited ro { Height := height, Round := round, BlockID := blockID })).isSome := by
  rw [QCVoteManager.Aggregate_result]
  cases m.system.Aggregate
    (m.sigsVisited ro { Height := height, Round := round, BlockID := blockID }) <;> rfl

theorem BitArray.ext_of_GetIndex (b b' : BitArray) (hlen : b.length = b'.length)
    (h : ∀ i, b.GetIndex i = true ↔ b'.GetIndex i = true) : b = b' := by
  apply List.ext_getElem hlen
  intro i h1 h2
  have hi := h i
  simp only [BitArray.GetIndex, List.getD_eq_getElem?_getD, List.getElem?_eq_getElem h1,
    List.getElem?_eq_getElem h2, Option.getD_some] at hi
  cases hb : b[i] <;> cases hb' : b'[i] <;> simp [hb, hb'] at hi ⊢

theorem AggregateLoop.run_msgHash_perm (ro ro' : RangeOrder) (n : Nat) (l : List (Nat × vote))
    (h : Bytes32) (hall : ∀ e ∈ l, e.2.Hash = h) :
    (AggregateLoop.run n (ro.visit l)).msgHash = (AggregateLoop.run n (ro'.visit l)).msgHash := by
  by_cases hl : l = []
  · subst hl
    have e1 : ro.visit [] = [] := List.Perm.eq_nil (ro.perm [])
    have e2 : ro'.visit [] = [] := List.Perm.eq_nil (ro'.perm [])
    rw [e1, e2]
  · have n1 : ro.visit l ≠ [] := fun e => hl (List.Perm.eq_nil ((e ▸ ro.perm l).symm))
    have n2 : ro'.visit l ≠ [] := fun e => hl (List.Perm.eq_nil ((e ▸ ro'.perm l).symm))
    unfold AggregateLoop.run
    rw [AggregateLoop.foldl_msgHash _ _ h n1 (fun e he => hall e ((ro.perm l).mem_iff.mp he)),
      AggregateLoop.foldl_msgHash _ _ h n2 (fun e he => hall e ((ro'.perm l).mem_iff.mp he))]

theorem AggregateLoop.run_bit_visit (ro : RangeOrder) (m : GoMap Nat vote) (n i : Nat) :
    (AggregateLoop.run n (ro.visit m.entries)).bitArray.GetIndex i = true
      ↔ i < n ∧ (m.lookup i).isSome = true := by
  rw [AggregateLoop.run_bit, GoMap.lookup, GoMap.lookupEntries_isSome]
  constructor
  · rintro ⟨h1, e, he, h2⟩
    exact ⟨h1, e, (ro.perm m.entries).mem_iff.mp he, h2⟩
  · rintro ⟨h1, e, he, h2⟩
    exact ⟨h1, e, (ro.perm m.entries).mem_iff.mpr he, h2⟩

/-- C10 (the claim fails): in `twoHashes`, where the two votes recorded under the key carry
the hashes 9 and 8, `Aggregate` returns a QC with hash 8 when the votes are visited in
insertion order and with hash 9 when they are visited in reverse order. -/
theorem Aggregate_hash_depends_on_order_counterexample :
    Option.map QuorumCert.VoterMsgHash (twoHashes.Aggregate RangeOrder.inOrder 1 0 7 0).2
      = some 8
    ∧ Option.map QuorumCert.VoterMsgHash (twoHashes.Aggregate RangeOrder.backwards 1 0 7 0).2
      = some 9 := by
  decide

/-- C10 (amended): for every key and epoch and every two orders of visiting the votes under
which the signature aggregation succeeds, `Aggregate` returns a QC whose `QCHeight`, `QCRound`
and `EpochID` are the arguments, whose voter bit array has the committee size n as its length
and has bit i set exactly for the signer indices i < n recorded under the key, and whose
voter-message-hash is the hash shared by the recorded votes when there are votes and they
all carry the same hash; the bit array is the same under both orders, and the hash is the
same under both orders when all recorded votes carry the same hash. -/
theorem Aggregate_QC_contents (ro ro' : RangeOrder) (m : QCVoteManager)
    (height round : Nat) (blockID : Bytes32) (epoch : Nat) (s s' : Element)
    (hs : m.system.Aggregate
      (m.sigsVisited ro { Height := height, Round := round, BlockID := blockID }) = some s)
    (hs' : m.system.Aggregate
      (m.sigsVisited ro' { Height := height, Round := round, BlockID := blockID }) = some s') :
    ∃ qc qc',
      (m.Aggregate ro height round blockID epoch).2 = some qc
      ∧ (m.Aggregate ro' height round blockID epoch).2 = some qc'
      ∧ qc.QCHeight = height ∧ qc.QCRound = round ∧ qc.EpochID = epoch
      ∧ qc.VoterBitArrayStr.length = m.committeeSize
      ∧ (∀ i, qc.VoterBitArrayStr.GetIndex i = true
          ↔ i < m.committeeSize
            ∧ ((m.votesAt { Height := height, Round := round, BlockID := blockID }).lookup
                i).isSome = true)
      ∧ (∀ h, (m.votesAt { Height := height, Round := round, BlockID := blockID }).entries ≠ []
          → (∀ e ∈ (m.votesAt { Height := height, Round := round, BlockID := blockID }).entries,
              e.2.Hash = h)
          → qc.VoterMsgHash = h)
      ∧ qc.VoterBitArrayStr = qc'.VoterBitArrayStr
      ∧ (∀ h,
          (∀ e ∈ (m.votesAt { Height := height, Round := round, BlockID := blockID }).entries,
              e.2.Hash = h)
          → qc.VoterMsgHash = qc'.VoterMsgHash) := by
  rw [QCVoteManager.Aggregate_result, QCVoteManager.Aggregate_result, hs, hs']
  refine ⟨_, _, rfl, rfl, rfl, rfl, rfl, AggregateLoop.run_length _ _, ?_, ?_, ?_, ?_⟩
  · intro i
    exact AggregateLoop.run_bit_visit ro _ _ i
  · intro h hne hall
    have n1 : ro.visit (m.votesAt
        { Height := height, Round := round, BlockID := blockID }).entries ≠ [] :=
      fun e => hne (List.Perm.eq_nil ((e ▸ ro.perm _).symm))
    exact AggregateLoop.foldl_msgHash _ _ h n1
      (fun e he => hall e ((ro.perm _).mem_iff.mp he))
  · apply BitArray.ext_of_GetIndex
    · rw [AggregateLoop.run_length, AggregateLoop.run_length]
    · intro i
      rw [AggregateLoop.run_bit_visit ro, AggregateLoop.run_bit_visit ro']
  · intro h hall
    exact AggregateLoop.run_msgHash_perm ro ro' _ _ h hall

/-- C10 (amended) at a concrete state: the three votes of `threeVotesOneKey`, all with hash 9,
visited in insertion order and in reverse order. -/
theorem Aggregate_QC_contents_witness :
    demoSystem.Aggregate (threeVotesOneKey.1.sigsVisited RangeOrder.inOrder
        { Height := 1, Round := 0, BlockID := 7 }) = some 3
    ∧ demoSystem.Aggregate (threeVotesOneKey.1.sigsVisited RangeOrder.backwards
        { Height := 1, Round := 0, BlockID := 7 }) = some 3
    ∧ ∃ qc qc',
      (threeVotesOneKey.1.Aggregate RangeOrder.inOrder 1 0 7 0).2 = some qc
      ∧ (threeVotesOneKey.1.Aggregate RangeOrder.backwards 1 0 7 0).2 = some qc'
      ∧ qc.QCHeight = 1 ∧ qc.QCRound = 0 ∧ qc.EpochID = 0
      ∧ qc.VoterBitArrayStr.length = threeVotesOneKey.1.committeeSize
      ∧ (∀ i, qc.VoterBitArrayStr.GetIndex i = true
          ↔ i < threeVotesOneKey.1.committeeSize
            ∧ ((threeVotesOneKey.1.votesAt { Height := 1, Round := 0, BlockID := 7 }).lookup
                i).isSome = true)
      ∧ (∀ h, (threeVotesOneKey.1.votesAt { Height := 1, Round := 0, BlockID := 7 }).entries ≠ []
          → (∀ e ∈ (threeVotesOneKey.1.votesAt
                { Height := 1, Round := 0, BlockID := 7 }).entries, e.2.Hash = h)
          → qc.VoterMsgHash = h)
      ∧ qc.VoterBitArrayStr = qc'.VoterBitArrayStr
      ∧ (∀ h,
          (∀ e ∈ (threeVotesOneKey.1.votesAt
                { Height := 1, Round := 0, BlockID := 7 }).entries, e.2.Hash = h)
          → qc.VoterMsgHash = qc'.VoterMsgHash) :=
  ⟨by decide, by decide,
   Aggregate_QC_contents RangeOrder.inOrder RangeOrder.backwards threeVotesOneKey.1 1 0 7 0 3 3
     (by decide) (by decide)⟩

/-! ## Properties of the vote manager: duplicate votes and sealing -/

theorem GoMap.storeEntries_length_of_isSome {K V : Type} [DecidableEq K]
    (l : List (K × V)) (k : K) (v : V) (h : (GoMap.lookupEntries l k).isSome = true) :
    (GoMap.storeEntries l k v).length = l.length := by
  induction l with
  | nil => simp [GoMap.lookupEntries] at h
  | cons e rest ih =>
    obtain ⟨k', v'⟩ := e
    by_cases hk : k' = k
    · simp [GoMap.storeEntries, hk]
    · simp only [GoMap.lookupEntries, hk, if_false] at h
      simp [GoMap.storeEntries, hk, ih h]

theorem GoMap.lookupEntries_storeEntries_isSome {K V : Type} [DecidableEq K]
    (l : List (K × V)) (k k' : K) (v : V) (h : (GoMap.lookupEntries l k').isSome = true) :
    (GoMap.lookupEntries (GoMap.storeEntries l k v) k').isSome = true := by
  induction l with
  | nil => simp [GoMap.lookupEntries] at h
  | cons e rest ih =>
    obtain ⟨k0, v0⟩ := e
    by_cases hk : k0 = k
    · subst hk
      by_cases hk' : k0 = k'
      · simp [GoMap.storeEntries, GoMap.lookupEntries, hk']
      · simp only [GoMap.lookupEntries, hk', if_false] at h
        simp [GoMap.storeEntries, GoMap.lookupEntries, hk', h]
    · by_cases hk' : k0 = k'
      · subst hk'
        simp [GoMap.storeEntries, GoMap.lookupEntries, hk]
      · simp only [GoMap.lookupEntries, hk', if_false] at h
        simp [GoMap.storeEntries, GoMap.lookupEntries, hk, hk', ih h]

theorem GoMap.lookup_store_isSome {K V : Type} [DecidableEq K]
    (m : GoMap K V) (k k' : K) (v : V) (h : (m.lookup k').isSome = true) :
    ((m.store k v).lookup k').isSome = true :=
  GoMap.lookupEntries_storeEntries_isSome m.entries k k' v h

theorem QCVoteManager.seal_sealed_isSome (m : QCVoteManager) (height round : Nat)
    (blockID : Bytes32) (k : voteKey) (h : (m.sealed.lookup k).isSome = true) :
    ((m.seal height round blockID).sealed.lookup k).isSome = true :=
  GoMap.lookup_store_isSome m.sealed _ k true h

theorem QCVoteManager.Aggregate_state (ro : RangeOrder) (m : QCVoteManager)
    (height round : Nat) (blockID : Bytes32) (epoch : Nat) :
    (m.Aggregate ro height round blockID epoch).1 = m.seal height round blockID := by
  unfold QCVoteManager.Aggregate
  dsimp only
  split <;> rfl

theorem QCVoteManager.AddVote_state (ro : RangeOrder) (m : QCVoteManager)
    (index epoch height round : Nat) (blockID : Bytes32) (sig : Bytes) (hash : Bytes32) :
    (m.AddVote ro index epoch height round blockID sig hash).1
        = m.ensureVotes { Height := height, Round := round, BlockID := blockID }
    ∨ (∃ blsSig, m.system.SigFromBytes sig = some blsSig
        ∧ ((m.ensureVotes { Height := height, Round := round, BlockID := blockID }).sealed.lookup
            { Height := height, Round := round, BlockID := blockID }).isSome = false
        ∧ ((m.AddVote ro index epoch height round blockID sig hash).1
            = (m.ensureVotes { Height := height, Round := round, BlockID := blockID }).record
                { Height := height, Round := round, BlockID := blockID } index
                { Signature := sig, Hash := hash, BlsSig := blsSig }
          ∨ (m.AddVote ro index epoch height round blockID sig hash).1
            = (((m.ensureVotes { Height := height, Round := round, BlockID := blockID }).record
                { Height := height, Round := round, BlockID := blockID } index
                { Signature := sig, Hash := hash, BlsSig := blsSig }).seal
                  height round blockID).seal height round blockID)) := by
  unfold QCVoteManager.AddVote
  dsimp only
  split
  · exact Or.inl rfl
  · rename_i hs
    have hsys : (m.ensureVotes { Height := height, Round := round, BlockID := blockID }).system
        = m.system := by
      unfold QCVoteManager.ensureVotes; split <;> rfl
    rw [hsys]
    cases hsig : m.system.SigFromBytes sig with
    | none => exact Or.inl rfl
    | some blsSig =>
      right
      refine ⟨blsSig, rfl, by simpa using hs, ?_⟩
      dsimp only
      split
      · right
        rw [QCVoteManager.Aggregate_state]
      · left; rfl

/-- C12: sealing is monotone: for every manager state and every operation (`AddVote`, `Count`,
`Aggregate`) with any arguments, a key that is sealed before the operation is sealed after
it. -/
theorem sealed_stays_sealed (ro : RangeOrder) (m : QCVoteManager) (op : VoteOp) (k : voteKey)
    (h : (m.sealed.lookup k).isSome = true) :
    (((op.run ro m).sealed).lookup k).isSome = true := by
  have hens : ∀ key, ((m.ensureVotes key).sealed.lookup k).isSome = true := by
    intro key; rw [QCVoteManager.ensureVotes_sealed]; exact h
  cases op with
  | Count height round blockID => exact h
  | Aggregate height round blockID epoch =>
    simp only [VoteOp.run, QCVoteManager.Aggregate_state]
    exact QCVoteManager.seal_sealed_isSome m height round blockID k h
  | AddVote index epoch height round blockID sig hash =>
    simp only [VoteOp.run]
    rcases QCVoteManager.AddVote_state ro m index epoch height round blockID sig hash with
      e | ⟨blsSig, _, _, e | e⟩
    · rw [e]; exact hens _
    · rw [e]; exact hens _
    · rw [e]
      apply QCVoteManager.seal_sealed_isSome
      apply QCVoteManager.seal_sealed_isSome
      exact hens _

/-- C12 at a concrete state: the key (height 1, round 0, block 9) sealed in
`threeVotesThreeKeys` is still sealed after a further `AddVote` for another key. -/
theorem sealed_stays_sealed_witness :
    (threeVotesThreeKeys.1.sealed.lookup { Height := 1, Round := 0, BlockID := 9 }).isSome = true
    ∧ (((VoteOp.AddVote 1 0 1 0 7 [1] 9).run RangeOrder.inOrder
          threeVotesThreeKeys.1).sealed.lookup
        { Height := 1, Round := 0, BlockID := 9 }).isSome = true :=
  ⟨by decide,
   sealed_stays_sealed RangeOrder.inOrder threeVotesThreeKeys.1 (VoteOp.AddVote 1 0 1 0 7 [1] 9)
     { Height := 1, Round := 0, BlockID := 9 } (by decide)⟩

theorem QCVoteManager.ensureVotes_of_recorded (m : QCVoteManager) (key : voteKey) (index : Nat)
    (old : vote) (h : (m.votesAt key).lookup index = some old) : m.ensureVotes key = m := by
  unfold QCVoteManager.ensureVotes
  cases hv : m.votes.lookup key with
  | some inner => simp
  | none =>
    rw [QCVoteManager.votesAt, hv] at h
    simp [GoMap.empty, GoMap.lookup, GoMap.lookupEntries] at h

theorem QCVoteManager.record_votesAt (m : QCVoteManager) (key : voteKey) (index : Nat)
    (v : vote) : (m.record key index v).votesAt key = (m.votesAt key).store index v := by
  simp [QCVoteManager.record, QCVoteManager.votesAt, GoMap.lookup_store_self]

theorem GoMap.store_len_of_isSome {K V : Type} [DecidableEq K] (m : GoMap K V) (k : K) (v : V)
    (h : (m.lookup k).isSome = true) : (m.store k v).len = m.len :=
  GoMap.storeEntries_length_of_isSome m.entries k v h

theorem QCVoteManager.ensureVotes_system (m : QCVoteManager) (key : voteKey) :
    (m.ensureVotes key).system = m.system := by
  unfold QCVoteManager.ensureVotes; split <;> rfl

theorem QCVoteManager.AddVote_unparsed (ro : RangeOrder) (m : QCVoteManager)
    (index epoch height round : Nat) (blockID : Bytes32) (sig : Bytes) (hash : Bytes32)
    (hsig : m.system.SigFromBytes sig = none) :
    (m.AddVote ro index epoch height round blockID sig hash).1
      = m.ensureVotes { Height := height, Round := round, BlockID := blockID } := by
  unfold QCVoteManager.AddVote
  dsimp only
  split
  · rfl
  · rw [QCVoteManager.ensureVotes_system, hsig]

theorem QCVoteManager.AddVote_parsed (ro : RangeOrder) (m : QCVoteManager)
    (index epoch height round : Nat) (blockID : Bytes32) (sig : Bytes) (hash : Bytes32)
    (blsSig : Element)
    (huns : ((m.ensureVotes { Height := height, Round := round, BlockID := blockID }).sealed.lookup
      { Height := height, Round := round, BlockID := blockID }).isSome = false)
    (hsig : m.system.SigFromBytes sig = some blsSig) :
    (m.AddVote ro index epoch height round blockID sig hash).1
        = (m.ensureVotes { Height := height, Round := round, BlockID := blockID }).record
            { Height := height, Round := round, BlockID := blockID } index
            { Signature := sig, Hash := hash, BlsSig := blsSig }
    ∨ (m.AddVote ro index epoch height round blockID sig hash).1
        = (((m.ensureVotes { Height := height, Round := round, BlockID := blockID }).record
            { Height := height, Round := round, BlockID := blockID } index
            { Signature := sig, Hash := hash, BlsSig := blsSig }).seal
              height round blockID).seal height round blockID := by
  unfold QCVoteManager.AddVote
  dsimp only
  rw [huns]
  simp only [Bool.false_eq_true, if_false]
  rw [QCVoteManager.ensureVotes_system, hsig]
  dsimp only
  split
  · right
    rw [QCVoteManager.Aggregate_state]
  · left; rfl

/-- C11 (the claim fails): in `oneVote` the vote of index 0 is recorded under an unsealed key
with signature bytes [1] and hash 9; `AddVote` of index 0 for the same key with signature
bytes [1, 1] and hash 8 replaces the recorded vote by the new one. -/
theorem AddVote_duplicate_index_counterexample :
    oneVote.sealed.lookup { Height := 1, Round := 0, BlockID := 7 } = none
    ∧ (oneVote.votesAt { Height := 1, Round := 0, BlockID := 7 }).lookup 0
        = some { Signature := [1], Hash := 9, BlsSig := 1 }
    ∧ ((oneVote.AddVote RangeOrder.inOrder 0 0 1 0 7 [1, 1] 8).1.votesAt
          { Height := 1, Round := 0, BlockID := 7 }).lookup 0
        = some { Signature := [1, 1], Hash := 8, BlsSig := 2 } := by
  decide

/-- C11 (amended): `AddVote` with a signer index that is already recorded under an unsealed
key leaves `Count` for that key unchanged; when the signature parses, the vote recorded for
that index is replaced by the new vote (its signature and message hash), and when the
signature does not parse the recorded vote stays. -/
theorem AddVote_duplicate_index (ro : RangeOrder) (m : QCVoteManager)
    (index epoch height round : Nat) (blockID : Bytes32) (sig : Bytes) (hash : Bytes32)
    (old : vote)
    (hunsealed : m.sealed.lookup { Height := height, Round := round, BlockID := blockID } = none)
    (hrec : (m.votesAt { Height := height, Round := round, BlockID := blockID }).lookup index
      = some old) :
    (m.AddVote ro index epoch height round blockID sig hash).1.Count height round blockID
        = m.Count height round blockID
    ∧ (∀ blsSig, m.system.SigFromBytes sig = some blsSig →
        ((m.AddVote ro index epoch height round blockID sig hash).1.votesAt
            { Height := height, Round := round, BlockID := blockID }).lookup index
          = some { Signature := sig, Hash := hash, BlsSig := blsSig })
    ∧ (m.system.SigFromBytes sig = none →
        ((m.AddVote ro index epoch height round blockID sig hash).1.votesAt
            { Height := height, Round := round, BlockID := blockID }).lookup index
          = some old) := by
  have hens := QCVoteManager.ensureVotes_of_recorded m _ index old hrec
  have hsome : ((m.votesAt { Height := height, Round := round, BlockID := blockID }).lookup
      index).isSome = true := by rw [hrec]; rfl
  have huns : ((m.ensureVotes { Height := height, Round := round, BlockID := blockID }).sealed.lookup
      { Height := height, Round := round, BlockID := blockID }).isSome = false := by
    rw [hens, hunsealed]; rfl
  cases hsig : m.system.SigFromBytes sig with
  | none =>
    rw [QCVoteManager.AddVote_unparsed ro m index epoch height round blockID sig hash hsig, hens]
    exact ⟨rfl, fun b hb => (by cases hb), fun _ => hrec⟩
  | some blsSig =>
    rcases QCVoteManager.AddVote_parsed ro m index epoch height round blockID sig hash blsSig
      huns hsig with e | e
    · rw [e, hens]
      refine ⟨?_, ?_, fun hn => (by cases hn)⟩
      · simp only [QCVoteManager.Count, QCVoteManager.record_votesAt]
        rw [GoMap.store_len_of_isSome _ _ _ hsome]
      · intro b hb
        cases hb
        rw [QCVoteManager.record_votesAt, GoMap.lookup_store_self]
    · rw [e, hens]
      refine ⟨?_, ?_, fun hn => (by cases hn)⟩
      · simp only [QCVoteManager.Count, QCVoteManager.seal_votesAt,
          QCVoteManager.record_votesAt]
        rw [GoMap.store_len_of_isSome _ _ _ hsome]
      · intro b hb
        cases hb
        rw [QCVoteManager.seal_votesAt, QCVoteManager.seal_votesAt,
          QCVoteManager.record_votesAt, GoMap.lookup_store_self]

/-- C11 (amended) at a concrete state: in `oneVote` a second `AddVote` of index 0 for the same
key, with signature bytes [1, 1] (which parse to 2) and hash 8, leaves the count at 1 and
records the new vote. -/
theorem AddVote_duplicate_index_witness :
    oneVote.sealed.lookup { Height := 1, Round := 0, BlockID := 7 } = none
    ∧ (oneVote.votesAt { Height := 1, Round := 0, BlockID := 7 }).lookup 0
        = some { Signature := [1], Hash := 9, BlsSig := 1 }
    ∧ (oneVote.AddVote RangeOrder.inOrder 0 0 1 0 7 [1, 1] 8).1.Count 1 0 7
        = oneVote.Count 1 0 7
    ∧ ((oneVote.AddVote RangeOrder.inOrder 0 0 1 0 7 [1, 1] 8).1.votesAt
          { Height := 1, Round := 0, BlockID := 7 }).lookup 0
        = some { Signature := [1, 1], Hash := 8, BlsSig := 2 } :=
  ⟨by decide, by decide,
   (AddVote_duplicate_index RangeOrder.inOrder oneVote 0 0 1 0 7 [1, 1] 8
      { Signature := [1], Hash := 9, BlsSig := 1 } (by decide) (by decide)).1,
   (AddVote_duplicate_index RangeOrder.inOrder oneVote 0 0 1 0 7 [1, 1] 8
      { Signature := [1], Hash := 9, BlsSig := 1 } (by decide) (by decide)).2.1 2 (by decide)⟩

/-! ## Properties of the pacemaker: the commit list, the round, the timer and the beat -/

theorem enterRoundSwitch_true (w : World) (p : Pacemaker) (round : Nat)
    (reason : roundUpdateReason) :
    (enterRoundSwitch w p round reason (decide (p.currentRound ≠ round))).2 = true →
      p.currentRound ≠ round := by
  unfold enterRoundSwitch
  cases reason <;> dsimp only <;> repeat' split
  all_goals simp
  all_goals omega

/-- C14: for every pacemaker state, round and update reason, `enterRound` returns true exactly
when the value of `currentRound` after the call differs from its value before the call. -/
theorem enterRound_true_iff_changed (w : World) (p : Pacemaker) (round : Nat)
    (reason : roundUpdateReason) :
    (enterRound w p round reason).2 = true
      ↔ (enterRound w p round reason).1.currentRound ≠ p.currentRound := by
  unfold enterRound
  dsimp only
  split
  · rename_i hupd
    have := enterRoundSwitch_true w p round reason hupd
    simp only [true_iff]
    exact fun e => this e.symm
  · simp [enterRoundSwitch_currentRound]

theorem resetRoundTimer_eq (p : Pacemaker) (round : Nat) (reason : roundTimerUpdateReason) :
    resetRoundTimer p round reason
      = { p with
          timeoutCounter := (startRoundTimerSwitch p.timeoutCounter reason).2
          roundTimer := some
            { round := round
              interval := timeoutInterval (startRoundTimerSwitch p.timeoutCounter reason).1
                (if (startRoundTimerSwitch p.timeoutCounter reason).2 > 1
                 then (startRoundTimerSwitch p.timeoutCounter reason).2 - 1 else 0) } } := by
  simp only [resetRoundTimer, startRoundTimer, stopRoundTimer, Option.isNone_none, if_true]

theorem enterRound_onTimeout_timer (w : World) (p : Pacemaker) (round : Nat) :
    (enterRound w p round roundUpdateReason.UpdateOnTimeout).1.roundTimer
        = (resetRoundTimer p round roundTimerUpdateReason.TimerInc).roundTimer
    ∧ (enterRound w p round roundUpdateReason.UpdateOnTimeout).1.timeoutCounter
        = (resetRoundTimer p round roundTimerUpdateReason.TimerInc).timeoutCounter := by
  unfold enterRound
  simp only [enterRoundSwitch]
  split <;> exact ⟨rfl, rfl⟩

theorem OnRoundTimeout_timer {w : World} {p p' : Pacemaker} {ti : PMRoundTimeoutInfo}
    (h : OnRoundTimeout w p ti = Except.ok p') :
    p'.roundTimer
        = (resetRoundTimer p (add32 ti.round 1) roundTimerUpdateReason.TimerInc).roundTimer
    ∧ p'.timeoutCounter
        = (resetRoundTimer p (add32 ti.round 1) roundTimerUpdateReason.TimerInc).timeoutCounter := by
  have e := enterRound_onTimeout_timer w p (add32 ti.round 1)
  unfold OnRoundTimeout at h
  try dsimp only at h
  obtain ⟨high, h1, h⟩ := Run.bind_eq_ok h
  obtain ⟨highQC, h2, h⟩ := Run.bind_eq_ok h
  try dsimp only at h
  split at h
  · split at h
    · simp only [pure, Except.pure, Except.ok.injEq] at h
      subst h; exact e
    · simp only [pure, Except.pure, Except.ok.injEq] at h
      subst h; exact e
  · simp only [pure, Except.pure, Except.ok.injEq] at h
    subst h; exact e

theorem wrapInt64_of_range (x : Int) (h1 : -(2 ^ 63) ≤ x) (h2 : x < 2 ^ 63) :
    wrapInt64 x = x := by
  unfold wrapInt64
  rw [Int.emod_eq_of_lt (by omega) (by omega)]
  omega

theorem timeoutInterval_exact (power : Nat) (h : power ≤ 29) :
    timeoutInterval RoundTimeoutInterval power = RoundTimeoutInterval * 2 ^ power := by
  have hp : (2 : Int) ^ power ≤ 2 ^ 29 := pow_le_pow_right₀ (by norm_num) h
  have hpos : (0 : Int) < 2 ^ power := by positivity
  unfold timeoutInterval
  rw [wrapInt64_of_range (2 ^ power) (by omega) (by norm_num at hp ⊢; omega)]
  unfold RoundTimeoutInterval
  rw [wrapInt64_of_range _ (by norm_num at hp ⊢; omega) (by norm_num at hp ⊢; omega)]

/-- C15 (the claim fails): with the round-0 timer armed by `TimerInit` and the timers of rounds
0, 1 and 2 firing in succession, the intervals armed for the rounds 0, 1 and 2 are 12 s, 12 s
and 24 s (in nanoseconds), not 12 s, 24 s and 48 s; 48 s is armed for round 3. -/
theorem round_timer_intervals_counterexample :
    demoArmed.roundTimer = some { round := 0, interval := 12000000000 }
    ∧ OnRoundTimeout demoWorld demoArmed { height := 0, round := 0, counter := 0 }
        = Except.ok demoTimedOutOnce
    ∧ demoTimedOutOnce.roundTimer = some { round := 1, interval := 12000000000 }
    ∧ OnRoundTimeout demoWorld demoTimedOutOnce { height := 0, round := 1, counter := 1 }
        = Except.ok demoTimedOutTwice
    ∧ demoTimedOutTwice.roundTimer = some { round := 2, interval := 24000000000 }
    ∧ OnRoundTimeout demoWorld demoTimedOutTwice { height := 0, round := 2, counter := 2 }
        = Except.ok demoTimedOutThrice
    ∧ demoTimedOutThrice.roundTimer = some { round := 3, interval := 48000000000 } :=
  ⟨rfl, rfl, rfl, rfl, rfl, rfl, rfl⟩

/-- C15 (amended): starting from a round-0 timer armed with `TimerInit`, when rounds 0, 1 and 2
all time out in succession (each `OnRoundTimeout` re-arms the timer with `TimerInc`), the
timer intervals in force for rounds 0, 1 and 2 are 12 s, 12 s and 24 s, and the interval
armed for round 3 is 48 s: the first `TimerInc` brings the counter to 1, for which the shift
is 0. -/
theorem round_timer_intervals (w : World) (p p1 p2 p3 : Pacemaker)
    (ti0 ti1 ti2 : PMRoundTimeoutInfo)
    (hr0 : ti0.round = 0) (hr1 : ti1.round = 1) (hr2 : ti2.round = 2)
    (h1 : OnRoundTimeout w (resetRoundTimer p 0 roundTimerUpdateReason.TimerInit) ti0
      = Except.ok p1)
    (h2 : OnRoundTimeout w p1 ti1 = Except.ok p2)
    (h3 : OnRoundTimeout w p2 ti2 = Except.ok p3) :
    (resetRoundTimer p 0 roundTimerUpdateReason.TimerInit).roundTimer
        = some { round := 0, interval := 12 * 1000000000 }
    ∧ p1.roundTimer = some { round := 1, interval := 12 * 1000000000 }
    ∧ p2.roundTimer = some { round := 2, interval := 24 * 1000000000 }
    ∧ p3.roundTimer = some { round := 3, interval := 48 * 1000000000 } := by
  obtain ⟨t1, c1⟩ := OnRoundTimeout_timer h1
  obtain ⟨t2, c2⟩ := OnRoundTimeout_timer h2
  obtain ⟨t3, c3⟩ := OnRoundTimeout_timer h3
  have i0 : timeoutInterval RoundTimeoutInterval 0 = 12 * 1000000000 := by
    rw [timeoutInterval_exact 0 (by omega)]; rfl
  have i1 : timeoutInterval RoundTimeoutInterval 1 = 24 * 1000000000 := by
    rw [timeoutInterval_exact 1 (by omega)]; rfl
  have i2 : timeoutInterval RoundTimeoutInterval 2 = 48 * 1000000000 := by
    rw [timeoutInterval_exact 2 (by omega)]; rfl
  have hc1 : p1.timeoutCounter = 1 := by
    rw [c1, resetRoundTimer_eq, resetRoundTimer_eq]
    rfl
  have hc2 : p2.timeoutCounter = 2 := by
    rw [c2, resetRoundTimer_eq, hc1]
    rfl
  refine ⟨?_, ?_, ?_, ?_⟩
  · rw [resetRoundTimer_eq]
    simp only [startRoundTimerSwitch, gt_iff_lt, Nat.not_lt_zero, if_false, i0]
  · rw [t1, resetRoundTimer_eq, resetRoundTimer_eq, hr0]
    simp only [startRoundTimerSwitch, add32]
    norm_num [i0]
  · rw [t2, resetRoundTimer_eq, hc1, hr1]
    simp only [startRoundTimerSwitch, add32]
    norm_num [i1]
  · rw [t3, resetRoundTimer_eq, hc2, hr2]
    simp only [startRoundTimerSwitch, add32]
    norm_num [i2]

/-- C15 (amended) at a concrete run: the timers of rounds 0, 1 and 2 of `demoArmed` fire. -/
theorem round_timer_intervals_witness :
    OnRoundTimeout demoWorld
        (resetRoundTimer (demoPacemaker 0) 0 roundTimerUpdateReason.TimerInit)
        { height := 0, round := 0, counter := 0 } = Except.ok demoTimedOutOnce
    ∧ OnRoundTimeout demoWorld demoTimedOutOnce { height := 0, round := 1, counter := 1 }
        = Except.ok demoTimedOutTwice
    ∧ OnRoundTimeout demoWorld demoTimedOutTwice { height := 0, round := 2, counter := 2 }
        = Except.ok demoTimedOutThrice
    ∧ (resetRoundTimer (demoPacemaker 0) 0 roundTimerUpdateReason.TimerInit).roundTimer
        = some { round := 0, interval := 12 * 1000000000 }
    ∧ demoTimedOutOnce.roundTimer = some { round := 1, interval := 12 * 1000000000 }
    ∧ demoTimedOutTwice.roundTimer = some { round := 2, interval := 24 * 1000000000 }
    ∧ demoTimedOutThrice.roundTimer = some { round := 3, interval := 48 * 1000000000 } :=
  ⟨rfl, rfl, rfl,
   round_timer_intervals demoWorld (demoPacemaker 0) demoTimedOutOnce demoTimedOutTwice
     demoTimedOutThrice { height := 0, round := 0, counter := 0 }
     { height := 0, round := 1, counter := 1 } { height := 0, round := 2, counter := 2 }
     rfl rfl rfl rfl rfl rfl⟩

/-- C16 (the claim fails): the `TimerInc` reset that brings `timeoutCounter` to 31 arms the
interval -5561842185709551616 ns: the product 12 s * 2^30 = 12884901888000000000 ns does not
fit a signed 64-bit duration and wraps around. -/
theorem TimerInc_interval_wraps_counterexample :
    (resetRoundTimer { demoPacemaker 0 with timeoutCounter := 30 } 0
        roundTimerUpdateReason.TimerInc).timeoutCounter = 31
    ∧ (resetRoundTimer { demoPacemaker 0 with timeoutCounter := 30 } 0
        roundTimerUpdateReason.TimerInc).roundTimer
        = some { round := 0, interval := -5561842185709551616 }
    ∧ RoundTimeoutInterval * 2 ^ (31 - 1) = 12884901888000000000 := by
  decide

/-- C16 (amended): for every counter value c with 1 <= c <= 30, the interval armed by a
`TimerInc` reset that brings `timeoutCounter` to c equals base * 2^(c-1) exactly (base = 12 s
in nanoseconds), with no wraparound in the 64-bit duration arithmetic. -/
theorem TimerInc_interval_exact (p : Pacemaker) (round c : Nat)
    (hc1 : 1 ≤ c) (hc2 : c ≤ 30) (hc : (p.timeoutCounter + 1) % 2 ^ 64 = c) :
    (resetRoundTimer p round roundTimerUpdateReason.TimerInc).timeoutCounter = c
    ∧ (resetRoundTimer p round roundTimerUpdateReason.TimerInc).roundTimer
        = some { round := round, interval := RoundTimeoutInterval * 2 ^ (c - 1) } := by
  rw [resetRoundTimer_eq]
  simp only [startRoundTimerSwitch, hc, true_and]
  congr 2
  split
  · exact timeoutInterval_exact (c - 1) (by omega)
  · have : c = 1 := by omega
    subst this
    exact timeoutInterval_exact 0 (by omega)

/-- C16 (amended) at a concrete state: from the counter 2 the `TimerInc` reset brings the
counter to 3 and arms 12 s * 2^2. -/
theorem TimerInc_interval_exact_witness :
    1 ≤ 3 ∧ 3 ≤ 30
    ∧ (({ demoPacemaker 0 with timeoutCounter := 2 } : Pacemaker).timeoutCounter + 1) % 2 ^ 64 = 3
    ∧ (resetRoundTimer { demoPacemaker 0 with timeoutCounter := 2 } 0
        roundTimerUpdateReason.TimerInc).timeoutCounter = 3
    ∧ (resetRoundTimer { demoPacemaker 0 with timeoutCounter := 2 } 0
        roundTimerUpdateReason.TimerInc).roundTimer
        = some { round := 0, interval := RoundTimeoutInterval * 2 ^ (3 - 1) } :=
  ⟨by decide, by decide, by decide,
   TimerInc_interval_exact { demoPacemaker 0 with timeoutCounter := 2 } 0 3 (by decide)
     (by decide) (by decide)⟩

theorem wrapInt32_of_lt (round : Nat) (h : round < 2 ^ 31) : wrapInt32 (round : Int) = round := by
  unfold wrapInt32
  have h' : (round : Int) < 2 ^ 31 := by exact_mod_cast h
  rw [Int.emod_eq_of_lt (by omega) (by omega)]
  omega

theorem OnBeat_lastOnBeatRound {w : World} {p p' : Pacemaker} {epoch round : Nat}
    {reason : beatReason} (h : OnBeat w p epoch round reason = Except.ok p')
    (h1 : ¬ epoch < p.reactor.curEpoch)
    (h2 : ¬ (epoch = p.reactor.curEpoch ∧ wrapInt32 (round : Int) ≤ p.lastOnBeatRound)) :
    p'.lastOnBeatRound = wrapInt32 (round : Int) := by
  unfold OnBeat at h
  rw [if_neg h1, if_neg h2] at h
  obtain ⟨high, hh, h⟩ := Run.bind_eq_ok h
  try dsimp only at h
  split at h
  · simp only [pure, Except.pure, Except.ok.injEq] at h
    subst h; rfl
  · have hreset : ∀ q : Pacemaker,
        (if reason = beatReason.BeatOnInit then
          resetRoundTimer q round roundTimerUpdateReason.TimerInit else q).lastOnBeatRound
          = q.lastOnBeatRound := by
      intro q
      split
      · obtain ⟨rt, tc, e⟩ := resetRoundTimer_frame q round roundTimerUpdateReason.TimerInit
        rw [e]
      · rfl
    split at h
    · simp only [pure, Except.pure, Except.ok.injEq] at h
      subst h
      rw [hreset]
    · obtain ⟨hp, tc, tr, e⟩ := OnPropose_frame h
      obtain ⟨cr, rt, tc', e'⟩ := enterRound_frame w
        (if reason = beatReason.BeatOnInit then
          resetRoundTimer { p with lastOnBeatRound := wrapInt32 (round : Int) } round
            roundTimerUpdateReason.TimerInit
         else { p with lastOnBeatRound := wrapInt32 (round : Int) })
        round roundUpdateReason.UpdateOnBeat
      rw [e, e']
      exact hreset _

/-- C17 (the claim fails): in `demoPacemaker 0` (current epoch 0, `lastOnBeatRound` -1) the
beat of epoch 0 and round 2147483648 is dropped, the pacemaker staying as it is, although
2147483648 <= -1 does not hold as integers: `int32(round)` is -2147483648. -/
theorem OnBeat_int32_round_counterexample :
    (demoPacemaker 0).reactor.curEpoch = 0 ∧ (demoPacemaker 0).lastOnBeatRound = -1
    ∧ ¬ ((2147483648 : Nat) : Int) ≤ (demoPacemaker 0).lastOnBeatRound
    ∧ OnBeat demoWorld (demoPacemaker 0) 0 2147483648 beatReason.BeatOnHigherQC
        = Except.ok (demoPacemaker 0)
    ∧ wrapInt32 ((2147483648 : Nat) : Int) = -2147483648 :=
  ⟨rfl, rfl, by decide, rfl, by decide⟩

/-- C17 (amended): for every beat epoch, every round below 2^31 and every reason, `OnBeat`
drops the beat, leaving the whole pacemaker state unchanged, when epoch < current epoch, or
epoch = current epoch and round <= `lastOnBeatRound` compared as integers; in every other
case a returning `OnBeat` leaves `lastOnBeatRound` equal to round. -/
theorem OnBeat_drops_or_records (w : World) (p : Pacemaker) (epoch round : Nat)
    (reason : beatReason) (hr : round < 2 ^ 31) :
    ((epoch < p.reactor.curEpoch
        ∨ (epoch = p.reactor.curEpoch ∧ (round : Int) ≤ p.lastOnBeatRound)) →
      OnBeat w p epoch round reason = Except.ok p)
    ∧ (¬ (epoch < p.reactor.curEpoch
        ∨ (epoch = p.reactor.curEpoch ∧ (round : Int) ≤ p.lastOnBeatRound)) →
      ∀ p', OnBeat w p epoch round reason = Except.ok p' → p'.lastOnBeatRound = (round : Int)) := by
  have hw := wrapInt32_of_lt round hr
  constructor
  · intro hc
    unfold OnBeat
    rw [hw]
    rcases hc with hc | hc
    · rw [if_pos hc]; rfl
    · by_cases h1 : epoch < p.reactor.curEpoch
      · rw [if_pos h1]; rfl
      · rw [if_neg h1, if_pos hc]; rfl
  · intro hc p' h
    have h1 : ¬ epoch < p.reactor.curEpoch := fun x => hc (Or.inl x)
    have h2 : ¬ (epoch = p.reactor.curEpoch ∧ wrapInt32 (round : Int) ≤ p.lastOnBeatRound) := by
      rw [hw]; exact fun x => hc (Or.inr x)
    rw [OnBeat_lastOnBeatRound h h1 h2, hw]

/-- C17 (amended) at a concrete state: in `demoPacemaker 0` the beat of epoch 0 and round 1 is
taken, and `lastOnBeatRound` becomes 1. -/
theorem OnBeat_drops_or_records_witness :
    1 < 2 ^ 31
    ∧ ¬ (0 < (demoPacemaker 0).reactor.curEpoch
        ∨ (0 = (demoPacemaker 0).reactor.curEpoch
            ∧ ((1 : Nat) : Int) ≤ (demoPacemaker 0).lastOnBeatRound))
    ∧ OnBeat demoWorld (demoPacemaker 0) 0 1 beatReason.BeatOnHigherQC
        = Except.ok { demoPacemaker 0 with lastOnBeatRound := 1 }
    ∧ ({ demoPacemaker 0 with lastOnBeatRound := 1 } : Pacemaker).lastOnBeatRound
        = ((1 : Nat) : Int) :=
  ⟨by decide, by decide, rfl,
   (OnBeat_drops_or_records demoWorld (demoPacemaker 0) 0 1 beatReason.BeatOnHigherQC
      (by decide)).2 (by decide) _ rfl⟩

/-! ## Properties of the pacemaker: leaf creation and the round check of proposals -/

/-- C18 (the claim fails): in epoch 1, for round 1 and a justify QC of round 2 (so round <=
QC round), `CreateLeaf` on a parent whose block is a K-block returns the stop-committee block
that was built and no error; and on a parent whose block is an M-block, when the
proof-of-work pool decides for a K-block, it returns the K-block that was built and no
error. -/
theorem CreateLeaf_round_check_counterexample :
    (demoPacemakerEpoch1 demoChainKBlocks).reactor.curEpoch = 1
    ∧ Except.map (fun r => r.2)
        (CreateLeaf demoWorldBuilders (demoPacemakerEpoch1 demoChainKBlocks) (some 2)
          (some { QCNode := some 2, QC := some (demoQC 2 2) }) 1)
        = Except.ok (none, some 4)
    ∧ Except.map (fun r => r.1.heap.cell 4)
        (CreateLeaf demoWorldBuilders (demoPacemakerEpoch1 demoChainKBlocks) (some 2)
          (some { QCNode := some 2, QC := some (demoQC 2 2) }) 1)
        = Except.ok demoBuilt
    ∧ Except.map (fun r => r.2)
        (CreateLeaf demoWorldBuilders (demoPacemakerEpoch1 demoChain) (some 2)
          (some { QCNode := some 2, QC := some (demoQC 2 2) }) 1)
        = Except.ok (none, some 4) :=
  ⟨rfl, rfl, rfl, rfl⟩

/-- C18 (amended): for every parent draft with a proposed block, justify QC and round with
current epoch != 0 and round != 0, when an M-block is the block to propose (the parent block
is not a K-block and no K-block is decided), if round <= justify.QC.QCRound or round <=
parent.Round then `CreateLeaf` returns `ErrInvalidRound` and builds no block, the pacemaker
staying as it is. -/
theorem CreateLeaf_invalid_round (w : World) (p : Pacemaker) (parent : Addr)
    (parentBlock : Block) (justify : draftQC) (qc : QuorumCert) (round : Nat)
    (hparent : (p.heap.cell parent).ProposedBlock = some parentBlock)
    (hqc : justify.QC = some qc)
    (hnotK : parentBlock.BlockType ≠ BlockType.KBlockType)
    (hpow : (proposeKBlock w p parentBlock p.TCHigh.isSome).1 = false)
    (hepoch : p.reactor.curEpoch ≠ 0) (hround : round ≠ 0)
    (hle : round ≤ qc.QCRound ∨ round ≤ (p.heap.cell parent).Round) :
    CreateLeaf w p (some parent) (some justify) round
      = Except.ok (p, some Err.ErrInvalidRound, none) := by
  unfold CreateLeaf
  simp only [nonNil, hqc, bind, Except.bind, hparent, hnotK, decide_False, Bool.false_eq_true,
    if_false, hpow, pure, Except.pure]
  by_cases h1 : round ≤ qc.QCRound
  · rw [if_pos ⟨hepoch, hround, h1⟩]
  · rw [if_neg (fun h => h1 h.2.2)]
    rcases hle with h | h
    · exact absurd h h1
    · rw [if_pos ⟨hepoch, hround, h⟩]

/-- C18 (amended) at a concrete state: in epoch 1, on the M-block parent at address 2 of
`demoChain`, with no K-block decided, round 1 and a justify QC of round 2. -/
theorem CreateLeaf_invalid_round_witness :
    ((demoPacemakerEpoch1 demoChain).heap.cell 2).ProposedBlock = some (demoBlock 2)
    ∧ (demoBlock 2).BlockType ≠ BlockType.KBlockType
    ∧ (proposeKBlock demoWorld (demoPacemakerEpoch1 demoChain) (demoBlock 2)
        (demoPacemakerEpoch1 demoChain).TCHigh.isSome).1 = false
    ∧ (demoPacemakerEpoch1 demoChain).reactor.curEpoch ≠ 0
    ∧ CreateLeaf demoWorld (demoPacemakerEpoch1 demoChain) (some 2)
        (some { QCNode := some 2, QC := some (demoQC 2 2) }) 1
      = Except.ok (demoPacemakerEpoch1 demoChain, some Err.ErrInvalidRound, none) :=
  ⟨rfl, by decide, rfl, by decide,
   CreateLeaf_invalid_round demoWorld (demoPacemakerEpoch1 demoChain) 2 (demoBlock 2)
     { QCNode := some 2, QC := some (demoQC 2 2) } (demoQC 2 2) 1 rfl rfl (by decide) rfl
     (by decide) (by decide) (Or.inl (by decide))⟩

/-- C19 (the claim fails): `CreateLeaf` called with a nil parent draft faults (it reads
`parent.Height` and `parent.ProposedBlock`), and so does `OnPropose` when the proposal map
has no draft for the QC. -/
theorem CreateLeaf_nil_parent_counterexample :
    Except.map (fun r => r.2)
        (CreateLeaf demoWorld (demoPacemaker 0) none
          (some { QCNode := some 0, QC := some (demoQC 0 0) }) 1)
      = Except.error Stop.fault
    ∧ Except.map Pacemaker.TCHigh
        (OnPropose { demoWorld with GetOneByEscortQC := fun _ => none } (demoPacemaker 0)
          (some { QCNode := some 0, QC := some (demoQC 0 0) }) 1)
      = Except.error Stop.fault :=
  ⟨rfl, rfl⟩

/-- C19 (amended): `CreateLeaf` called with a parent draft whose proposed block is absent (nil)
returns `ErrParentBlockEmpty` without faulting, the pacemaker staying as it is, and `OnPropose`
then returns with the pacemaker unchanged: no draft is added to the proposal map, no proposal
is sent and `TCHigh` is not cleared. -/
theorem CreateLeaf_parent_block_empty (w : World) (p : Pacemaker) (parent : Addr)
    (justify : draftQC) (qc : QuorumCert) (round : Nat)
    (hparent : (p.heap.cell parent).ProposedBlock = none)
    (hqc : justify.QC = some qc) :
    CreateLeaf w p (some parent) (some justify) round
      = Except.ok (p, some Err.ErrParentBlockEmpty, none)
    ∧ (w.GetOneByEscortQC justify.QC = some parent →
        OnPropose w p (some justify) round = Except.ok p) := by
  have hc : CreateLeaf w p (some parent) (some justify) round
      = Except.ok (p, some Err.ErrParentBlockEmpty, none) := by
    unfold CreateLeaf
    simp only [nonNil, hqc, bind, Except.bind, hparent, pure, Except.pure]
  refine ⟨hc, ?_⟩
  intro hg
  unfold OnPropose
  simp only [nonNil, bind, Except.bind, hg, hc, pure, Except.pure]

/-- C19 (amended) at a concrete state: the parent draft at address 0 of `demoChainNoBlocks`
holds no proposed block. -/
theorem CreateLeaf_parent_block_empty_witness :
    ((demoPacemakerEpoch1 demoChainNoBlocks).heap.cell 0).ProposedBlock = none
    ∧ CreateLeaf demoWorld (demoPacemakerEpoch1 demoChainNoBlocks) (some 0)
        (some { QCNode := some 0, QC := some (demoQC 0 0) }) 1
      = Except.ok (demoPacemakerEpoch1 demoChainNoBlocks, some Err.ErrParentBlockEmpty, none)
    ∧ OnPropose demoWorld (demoPacemakerEpoch1 demoChainNoBlocks)
        (some { QCNode := some 0, QC := some (demoQC 0 0) }) 1
      = Except.ok (demoPacemakerEpoch1 demoChainNoBlocks) :=
  ⟨rfl,
   (CreateLeaf_parent_block_empty demoWorld (demoPacemakerEpoch1 demoChainNoBlocks) 0
      { QCNode := some 0, QC := some (demoQC 0 0) } (demoQC 0 0) 1 rfl rfl).1,
   (CreateLeaf_parent_block_empty demoWorld (demoPacemakerEpoch1 demoChainNoBlocks) 0
      { QCNode := some 0, QC := some (demoQC 0 0) } (demoQC 0 0) 1 rfl rfl).2 rfl⟩

theorem proposalVote_voted_round (w : World) (p : Pacemaker) (msg : PMProposalMessage)
    (blk : Block) (justify : Option draftQC) (validTimeout : Bool) (bnewA : Addr)
    (h : (proposalVote w p msg blk justify validTimeout bnewA).2 = true) :
    proposalRoundRejected justify (p.heap.cell bnewA) = false := by
  cases hrej : proposalRoundRejected justify (p.heap.cell bnewA) with
  | false => rfl
  | true =>
    unfold proposalVote at h
    simp only [hrej, if_true] at h
    cases h

theorem proposalVoteAndUpdate_round {w : World} {fuel : Nat} {p p' : Pacemaker}
    {msg : PMProposalMessage} {blk : Block} {justify : Option draftQC} {validTimeout : Bool}
    {bnewA : Addr}
    (h : proposalVoteAndUpdate w fuel p msg blk justify validTimeout bnewA = Except.ok p')
    (hv : p'.lastVotingHeight ≠ p.lastVotingHeight ∨ votesSent p'.trace ≠ votesSent p.trace) :
    proposalRoundRejected justify (p.heap.cell bnewA) = false := by
  have hsame : (p'.lastVotingHeight = p.lastVotingHeight ∧ votesSent p'.trace = votesSent p.trace)
      → False := by
    rintro ⟨a, b⟩
    rcases hv with hv | hv
    · exact hv a
    · exact hv b
  unfold proposalVoteAndUpdate at h
  dsimp only at h
  split at h
  · obtain ⟨_, _, hspec⟩ := proposalVote_spec w p msg blk justify validTimeout bnewA
    split at h
    · rename_i hcont
      exact proposalVote_voted_round w p msg blk justify validTimeout bnewA hcont
    · rename_i hcont
      simp only [pure, Except.pure, Except.ok.injEq] at h
      subst h
      rcases hspec with ⟨_, hl, hvs⟩ | ⟨ht, _, _⟩
      · exact absurd ⟨hl, hvs⟩ hsame
      · exact absurd ht hcont
  · obtain ⟨u1, u2, _, _⟩ := Update_voting h
    exact absurd ⟨u1, u2⟩ hsame

theorem proposalRoundRejected_false {justify : Option draftQC} {bnew : draftBlock}
    (h : proposalRoundRejected justify bnew = false)
    {j bj : draftQC} {jQC bjQC : QuorumCert}
    (hj : justify = some j) (hjq : j.QC = some jQC)
    (hb : bnew.Justify = some bj) (hbq : bj.QC = some bjQC)
    (h1 : 0 < bjQC.QCRound) (h2 : 0 < jQC.QCRound) :
    bjQC.QCRound < bnew.Round ∧ jQC.QCRound < bnew.Round := by
  unfold proposalRoundRejected at h
  simp only [hj, hb, hjq, hbq] at h
  rw [if_pos ⟨h1, h2⟩] at h
  by_cases c1 : bjQC.QCRound ≥ bnew.Round
  · rw [if_pos c1] at h; cases h
  · rw [if_neg c1] at h
    by_cases c2 : jQC.QCRound ≥ bnew.Round
    · rw [if_pos c2] at h; cases h
    · exact ⟨by omega, by omega⟩

/-- C20 (the claim fails): over `demoChainRound0`, where every draft and QC is at round 0, the
proposal of round 0 for height 3 (parent draft of round 0, justify QC of round 0) is voted
for: the vote is sent and `lastVotingHeight` becomes 3. -/
theorem OnReceiveProposal_round0_counterexample :
    (demoChainRound0.cell 2).Round = 0
    ∧ Except.map (fun p => (p.lastVotingHeight, votesSent p.trace))
        (OnReceiveProposal demoWorldFresh 10 { demoPacemaker 0 with heap := demoChainRound0 }
          demoProposalRound0)
      = Except.ok (3, [{ Epoch := 0, VoteHeight := 3, VoteRound := 0, VoteBlockID := 3,
                         SignerIndex := 0, VoteSignature := [], VoteHash := 0 }]) :=
  ⟨rfl, rfl⟩

/-- C20 (amended): a returning `OnReceiveProposal` votes for (or updates `lastVotingHeight`
for) a proposal only if its draft `bnew` passed the round check: when the QC round of
`bnew.Justify` and the QC round of the proposal's justify are both greater than 0, both are
strictly less than `bnew.Round`. When either QC round is 0 no comparison is made, and the
round of the parent draft is not compared. -/
theorem OnReceiveProposal_vote_round_check (w : World) (fuel : Nat) (p p' : Pacemaker)
    (mi : IncomingMsg)
    (h : OnReceiveProposal w fuel p mi = Except.ok p')
    (hv : p'.lastVotingHeight ≠ p.lastVotingHeight ∨ votesSent p'.trace ≠ votesSent p.trace) :
    ∃ msg blk parent,
      mi.Msg = ConsensusMessage.proposal msg ∧ msg.DecodeBlock = some blk
      ∧ w.GetOne msg.ParentHeight msg.ParentRound blk.ParentID = some parent
      ∧ ∀ (jQC : QuorumCert) (bj : draftQC) (bjQC : QuorumCert),
          blk.QC = some jQC →
          ((proposalDraft w p msg blk parent (newPMQuorumCert blk.QC (some parent))).1.heap.cell
            (proposalDraft w p msg blk parent (newPMQuorumCert blk.QC (some parent))).2).Justify
            = some bj →
          bj.QC = some bjQC →
          0 < bjQC.QCRound → 0 < jQC.QCRound →
          bjQC.QCRound
              < ((proposalDraft w p msg blk parent
                    (newPMQuorumCert blk.QC (some parent))).1.heap.cell
                  (proposalDraft w p msg blk parent
                    (newPMQuorumCert blk.QC (some parent))).2).Round
          ∧ jQC.QCRound
              < ((proposalDraft w p msg blk parent
                    (newPMQuorumCert blk.QC (some parent))).1.heap.cell
                  (proposalDraft w p msg blk parent
                    (newPMQuorumCert blk.QC (some parent))).2).Round := by
  unfold OnReceiveProposal at h
  split at h
  · simp at h
  · simp at h
  · rename_i msg hmsg
    obtain ⟨locked, h1, h⟩ := Run.bind_eq_ok h
    try dsimp only at h
    split at h
    · simp only [pure, Except.pure, Except.ok.injEq] at h
      subst h
      rcases hv with hv | hv <;> exact absurd rfl hv
    · obtain ⟨blk, h2, h⟩ := Run.bind_eq_ok h
      split at h
      · simp only [pure, Except.pure, Except.ok.injEq] at h
        subst h
        rcases hv with hv | hv
        · exact absurd rfl hv
        · exact absurd (by simp [Pacemaker.emit, votesSent_append, votesSent]) hv
      · rename_i parent hparent
        obtain ⟨qcv, h3, h⟩ := Run.bind_eq_ok h
        try dsimp only at h
        split at h
        · obtain ⟨u, h4, h⟩ := Run.bind_eq_ok h
          simp only [pure, Except.pure, Except.ok.injEq] at h
          subst h
          rcases hv with hv | hv <;> exact absurd rfl hv
        · obtain ⟨d1, d2, d3⟩ := proposalDraft_spec w p msg blk parent
            (newPMQuorumCert blk.QC (some parent))
          have hv' : p'.lastVotingHeight
                ≠ (proposalDraft w p msg blk parent
                    (newPMQuorumCert blk.QC (some parent))).1.lastVotingHeight
              ∨ votesSent p'.trace
                ≠ votesSent (proposalDraft w p msg blk parent
                    (newPMQuorumCert blk.QC (some parent))).1.trace := by
            rw [d1, d2]; exact hv
          have hrej := proposalVoteAndUpdate_round h hv'
          refine ⟨msg, blk, parent, hmsg, nonNil_eq_ok h2, hparent, ?_⟩
          intro jQC bj bjQC hjq hb hbq r1 r2
          exact proposalRoundRejected_false hrej rfl hjq hb hbq r1 r2

/-- C20 (amended) at a concrete run: the proposal of height and round 2 is voted for in
`demoPacemaker 0`; the QC rounds of its justify and of its draft are 1, below its round 2. -/
theorem OnReceiveProposal_vote_round_check_witness :
    OnReceiveProposal demoWorld 10 (demoPacemaker 0) (demoProposal 2) = Except.ok demoVoted
    ∧ demoVoted.lastVotingHeight ≠ (demoPacemaker 0).lastVotingHeight
    ∧ ∃ msg blk parent,
      (demoProposal 2).Msg = ConsensusMessage.proposal msg ∧ msg.DecodeBlock = some blk
      ∧ demoWorld.GetOne msg.ParentHeight msg.ParentRound blk.ParentID = some parent
      ∧ ∀ (jQC : QuorumCert) (bj : draftQC) (bjQC : QuorumCert),
          blk.QC = some jQC →
          ((proposalDraft demoWorld (demoPacemaker 0) msg blk parent
              (newPMQuorumCert blk.QC (some parent))).1.heap.cell
            (proposalDraft demoWorld (demoPacemaker 0) msg blk parent
              (newPMQuorumCert blk.QC (some parent))).2).Justify = some bj →
          bj.QC = some bjQC →
          0 < bjQC.QCRound → 0 < jQC.QCRound →
          bjQC.QCRound
              < ((proposalDraft demoWorld (demoPacemaker 0) msg blk parent
                    (newPMQuorumCert blk.QC (some parent))).1.heap.cell
                  (proposalDraft demoWorld (demoPacemaker 0) msg blk parent
                    (newPMQuorumCert blk.QC (some parent))).2).Round
          ∧ jQC.QCRound
              < ((proposalDraft demoWorld (demoPacemaker 0) msg blk parent
                    (newPMQuorumCert blk.QC (some parent))).1.heap.cell
                  (proposalDraft demoWorld (demoPacemaker 0) msg blk parent
                    (newPMQuorumCert blk.QC (some parent))).2).Round :=
  ⟨rfl, by decide,
   OnReceiveProposal_vote_round_check demoWorld 10 (demoPacemaker 0) demoVoted (demoProposal 2)
     rfl (Or.inl (by decide))⟩

/-! ## Properties of the pacemaker: re-queued proposals, the first beat, early exits of Update -/

theorem OnReceiveProposal_parent_absent {w : World} {fuel : Nat} {p : Pacemaker}
    {mi : IncomingMsg} {msg : PMProposalMessage} {blk : Block} {locked : Addr}
    (hmsg : mi.Msg = ConsensusMessage.proposal msg) (hblk : msg.DecodeBlock = some blk)
    (hparent : w.GetOne msg.ParentHeight msg.ParentRound blk.ParentID = none)
    (hlocked : p.blockLocked = some locked)
    (hheight : (p.heap.cell locked).Height ≤ msg.Height) :
    OnReceiveProposal w fuel p mi = Except.ok (p.emit (Event.inQueueAdd mi)) := by
  unfold OnReceiveProposal
  rw [hmsg]
  simp only [hlocked, Heap.deref, hblk, nonNil, hparent, bind, Except.bind, pure, Except.pure,
    if_neg (Nat.not_lt.mpr hheight)]

/-- C21 (the claim fails): in a world whose proposal map never holds the parent, the proposal
of height 2 handled twice by `OnReceiveProposal` is handed to `inQueue.Add` twice. -/
theorem OnReceiveProposal_requeue_counterexample :
    Except.map (fun p => inQueueAdds p.trace)
        (handleTimes demoWorldNoParent 10 (demoProposal 2) 2 (demoPacemaker 0))
      = Except.ok [demoProposal 2, demoProposal 2] :=
  rfl

/-- C21 (amended): for a proposal whose height is not below the height of `blockLocked` and
whose parent draft stays absent from the proposal map, n calls of `OnReceiveProposal` with the
message, one after the other, all return and hand the message to `inQueue.Add` n times, once
per call, changing nothing else in the pacemaker. -/
theorem OnReceiveProposal_requeues_each_time (w : World) (fuel : Nat) (p : Pacemaker)
    (mi : IncomingMsg) (msg : PMProposalMessage) (blk : Block) (locked : Addr) (n : Nat)
    (hmsg : mi.Msg = ConsensusMessage.proposal msg) (hblk : msg.DecodeBlock = some blk)
    (hparent : w.GetOne msg.ParentHeight msg.ParentRound blk.ParentID = none)
    (hlocked : p.blockLocked = some locked)
    (hheight : (p.heap.cell locked).Height ≤ msg.Height) :
    handleTimes w fuel mi n p
      = Except.ok { p with trace := p.trace ++ List.replicate n (Event.inQueueAdd mi) } := by
  induction n generalizing p with
  | zero => simp [handleTimes, pure, Except.pure]
  | succ n ih =>
    unfold handleTimes
    rw [OnReceiveProposal_parent_absent hmsg hblk hparent hlocked hheight]
    simp only [bind, Except.bind]
    rw [ih (p.emit (Event.inQueueAdd mi)) hlocked hheight]
    simp [Pacemaker.emit, List.replicate_succ]

/-- C21 (amended) at a concrete run: the proposal of height 2, whose parent is never found,
handled three times in `demoPacemaker 0` is handed to `inQueue.Add` three times. -/
theorem OnReceiveProposal_requeues_each_time_witness :
    handleTimes demoWorldNoParent 10 (demoProposal 2) 3 (demoPacemaker 0)
      = Except.ok { demoPacemaker 0 with
          trace := (demoPacemaker 0).trace
            ++ List.replicate 3 (Event.inQueueAdd (demoProposal 2)) } :=
  OnReceiveProposal_requeues_each_time demoWorldNoParent 10 (demoPacemaker 0) (demoProposal 2)
    { Height := 2, Round := 2, ParentHeight := 1, ParentRound := 1,
      DecodeBlock := some (demoBlock 2), TimeoutCert := none }
    (demoBlock 2) 0 3 rfl rfl rfl rfl (by decide)

theorem regulateMinMBlocks_frame (w : World) (p : Pacemaker) :
    ∃ m d, regulateMinMBlocks w p
      = { p with minMBlocks := m, reactor := { p.reactor with InitCfgdDelegates := d } } := by
  unfold regulateMinMBlocks
  split
  · exact ⟨_, p.reactor.InitCfgdDelegates, rfl⟩
  · split
    · exact ⟨_, p.reactor.InitCfgdDelegates, rfl⟩
    · exact ⟨_, false, rfl⟩

theorem regulateStart_spec (w : World) (p : Pacemaker) (bestQC : QuorumCert)
    (actualRound : Nat) :
    (regulateStart w p bestQC actualRound).trace
        = p.trace ++ [Event.proposalMapAdd (w.GetOneByEscortQC (some bestQC))]
          ++ (if p.mainLoopStarted = false then [Event.goMainLoop] else [])
          ++ [Event.scheduleOnBeat p.reactor.curEpoch actualRound beatReason.BeatOnInit 500000]
    ∧ (regulateStart w p bestQC actualRound).reactor = p.reactor
    ∧ (regulateStart w p bestQC actualRound).lastOnBeatRound = p.lastOnBeatRound
    ∧ (regulateStart w p bestQC actualRound).lastVotingHeight = 0
    ∧ (regulateStart w p bestQC actualRound).lastVoteMsg = none
    ∧ (regulateStart w p bestQC actualRound).blockLocked = w.GetOneByEscortQC (some bestQC)
    ∧ (regulateStart w p bestQC actualRound).QCHigh
        = some { QCNode := w.GetOneByEscortQC (some bestQC), QC := some bestQC } := by
  unfold regulateStart
  simp only [ScheduleOnBeat, Pacemaker.emit, newPMQuorumCert]
  split <;> simp

/-- C23 (the claim fails): with a best QC of round 2147483647 on an M-block above the genesis
block, `Regulate` schedules the first beat for round 2147483648 of epoch 0 and sets
`lastOnBeatRound` to 2147483647; `OnBeat` of that beat is dropped by the duplicate check,
since `int32(2147483648)` is negative, and leaves the pacemaker as it is. -/
theorem Regulate_first_beat_dropped_counterexample :
    Regulate (demoWorldBest (demoQC 2 2147483647)) (demoPacemaker 0)
      = Except.ok demoRegulatedHigh
    ∧ demoRegulatedHigh.trace
        = [Event.proposalMapAdd (some 2), Event.goMainLoop,
           Event.scheduleOnBeat 0 2147483648 beatReason.BeatOnInit 500000]
    ∧ demoRegulatedHigh.reactor.curEpoch = 0
    ∧ demoRegulatedHigh.lastOnBeatRound = 2147483647
    ∧ OnBeat (demoWorldBest (demoQC 2 2147483647)) demoRegulatedHigh 0 2147483648
        beatReason.BeatOnInit = Except.ok demoRegulatedHigh :=
  ⟨rfl, rfl, rfl, by decide, rfl⟩

/-- C23 (amended): when the best block is a K-block or the genesis block, or the round after
the best QC's is below 2^31, `Regulate` returns; the round it starts at is 0 in the first two
cases and `bestQC.QCRound + 1` otherwise; the one beat it schedules is `BeatOnInit` for that
round in the current epoch; it leaves `lastOnBeatRound` at that round minus one,
`lastVotingHeight` at 0 and `lastVoteMsg` nil; and `OnBeat` of that beat is not dropped: it
does not return the pacemaker unchanged, and when it returns `lastOnBeatRound` is that
round. -/
theorem Regulate_first_beat (w : World) (p : Pacemaker) (bestQC : QuorumCert) (bestBlk : Block)
    (hqc : w.BestQC = some bestQC)
    (hblk : w.GetTrunkBlock bestQC.QCHeight = Except.ok (some bestBlk))
    (hround : bestBlk.IsKBlock = true ∨ bestBlk.Number = 0 ∨ bestQC.QCRound + 1 < 2 ^ 31) :
    ∃ p' round,
      Regulate w p = Except.ok p'
      ∧ round = (if bestBlk.IsKBlock = true ∨ bestBlk.Number = 0 then 0
                 else bestQC.QCRound + 1)
      ∧ p'.trace
          = p.trace ++ [Event.proposalMapAdd (w.GetOneByEscortQC (some bestQC))]
            ++ (if p.mainLoopStarted = false then [Event.goMainLoop] else [])
            ++ [Event.scheduleOnBeat p'.reactor.curEpoch round beatReason.BeatOnInit 500000]
      ∧ p'.lastOnBeatRound = (round : Int) - 1
      ∧ p'.lastVotingHeight = 0
      ∧ p'.lastVoteMsg = none
      ∧ OnBeat w p' p'.reactor.curEpoch round beatReason.BeatOnInit ≠ Except.ok p'
      ∧ ∀ p'', OnBeat w p' p'.reactor.curEpoch round beatReason.BeatOnInit = Except.ok p''
          → p''.lastOnBeatRound = (round : Int) := by
  have hr : regulateRound bestQC bestBlk
      = (if bestBlk.IsKBlock = true ∨ bestBlk.Number = 0 then 0 else bestQC.QCRound + 1) := by
    unfold regulateRound
    split
    · rfl
    · rename_i hk
      have hlt : bestQC.QCRound + 1 < 2 ^ 31 := by
        rcases hround with h | h | h
        · exact absurd (Or.inl h) hk
        · exact absurd (Or.inr h) hk
        · exact h
      unfold add32
      exact Nat.mod_eq_of_lt (by omega)
  have hlt : regulateRound bestQC bestBlk < 2 ^ 31 := by
    rw [hr]
    split
    · decide
    · rename_i hk
      rcases hround with h | h | h
      · exact absurd (Or.inl h) hk
      · exact absurd (Or.inr h) hk
      · exact h
  have hw := wrapInt32_of_lt _ hlt
  have hw' : wrapInt32 ((regulateRound bestQC bestBlk : Int) - 1)
      = (regulateRound bestQC bestBlk : Int) - 1 := by
    unfold wrapInt32
    have h' : (regulateRound bestQC bestBlk : Int) < 2 ^ 31 := by exact_mod_cast hlt
    rw [Int.emod_eq_of_lt (by omega) (by omega)]
    omega
  obtain ⟨m, d, hmin⟩ := regulateMinMBlocks_frame w
    { p with reactor := w.PrepareEnvForPacemaker p.reactor,
             lastOnBeatRound := wrapInt32 (wrapInt32 (regulateRound bestQC bestBlk : Int) - 1) }
  have hreg : Regulate w p
      = Except.ok (regulateStart w
          (regulateMinMBlocks w
            { p with reactor := w.PrepareEnvForPacemaker p.reactor,
                     lastOnBeatRound :=
                       wrapInt32 (wrapInt32 (regulateRound bestQC bestBlk : Int) - 1) })
          bestQC (regulateRound bestQC bestBlk)) := by
    unfold Regulate
    simp only [hqc, nonNil, hblk, bind, Except.bind, pure, Except.pure]
  obtain ⟨htr, hre, hlo, hlv, hlm, _, _⟩ := regulateStart_spec w
    (regulateMinMBlocks w
      { p with reactor := w.PrepareEnvForPacemaker p.reactor,
               lastOnBeatRound := wrapInt32 (wrapInt32 (regulateRound bestQC bestBlk : Int) - 1) })
    bestQC (regulateRound bestQC bestBlk)
  have hlast : (regulateStart w
          (regulateMinMBlocks w
            { p with reactor := w.PrepareEnvForPacemaker p.reactor,
                     lastOnBeatRound :=
                       wrapInt32 (wrapInt32 (regulateRound bestQC bestBlk : Int) - 1) })
          bestQC (regulateRound bestQC bestBlk)).lastOnBeatRound
      = (regulateRound bestQC bestBlk : Int) - 1 := by
    rw [hlo, hmin, hw, hw']
  have hnot : ∀ q : Pacemaker, q.lastOnBeatRound = (regulateRound bestQC bestBlk : Int) - 1 →
      ¬ (q.reactor.curEpoch = q.reactor.curEpoch
          ∧ wrapInt32 (regulateRound bestQC bestBlk : Int) ≤ q.lastOnBeatRound) := by
    intro q hq hc
    rw [hw, hq] at hc
    omega
  refine ⟨_, regulateRound bestQC bestBlk, hreg, hr, ?_, hlast, hlv, hlm, ?_, ?_⟩
  · rw [htr, hre]
    rw [hmin]
  · intro hdrop
    have := OnBeat_lastOnBeatRound hdrop (Nat.lt_irrefl _) (hnot _ hlast)
    rw [hlast, hw] at this
    omega
  · intro p'' h
    rw [OnBeat_lastOnBeatRound h (Nat.lt_irrefl _) (hnot _ hlast), hw]

/-- C23 (amended) at a concrete run: with the best QC (height 2, round 2) on the M-block 2,
`Regulate` in `demoPacemaker 0` starts at round 3. -/
theorem Regulate_first_beat_witness :
    ∃ p' round,
      Regulate (demoWorldBest (demoQC 2 2)) (demoPacemaker 0) = Except.ok p'
      ∧ round = (if (demoBlock 2).IsKBlock = true ∨ (demoBlock 2).Number = 0 then 0
                 else (demoQC 2 2).QCRound + 1)
      ∧ p'.trace
          = (demoPacemaker 0).trace
            ++ [Event.proposalMapAdd
                  ((demoWorldBest (demoQC 2 2)).GetOneByEscortQC (some (demoQC 2 2)))]
            ++ (if (demoPacemaker 0).mainLoopStarted = false then [Event.goMainLoop] else [])
            ++ [Event.scheduleOnBeat p'.reactor.curEpoch round beatReason.BeatOnInit 500000]
      ∧ p'.lastOnBeatRound = (round : Int) - 1
      ∧ p'.lastVotingHeight = 0
      ∧ p'.lastVoteMsg = none
      ∧ OnBeat (demoWorldBest (demoQC 2 2)) p' p'.reactor.curEpoch round beatReason.BeatOnInit
          ≠ Except.ok p'
      ∧ ∀ p'', OnBeat (demoWorldBest (demoQC 2 2)) p' p'.reactor.curEpoch round
            beatReason.BeatOnInit = Except.ok p''
          → p''.lastOnBeatRound = (round : Int) :=
  Regulate_first_beat (demoWorldBest (demoQC 2 2)) (demoPacemaker 0) (demoQC 2 2) (demoBlock 2)
    rfl rfl (Or.inr (Or.inr (by decide)))

theorem UpdateCommit_QCHigh {w : World} {fuel : Nat} {p p' : Pacemaker} {bp : Addr}
    {block : Option Addr} (h : UpdateCommit w fuel p bp block = Except.ok p') :
    p'.QCHigh = p.QCHigh := by
  rcases UpdateCommit_spec h with hq | ⟨_, hq⟩
  · exact hq.fields.2.2.2.2.1
  · exact hq.fields.2.2.2.2.1

/-- C24 (the claim fails): on both early exits of `Update` the candidate `bnew.Justify`, which
`UpdateQCHigh` would accept, does not become `QCHigh`. In the chain whose justifies have no QC
node, and in the chain whose draft 2 is committed, `Update` of the draft 3 (justify QC of
height 2, `QCHigh` of height 0) returns the pacemaker unchanged. -/
theorem Update_early_exit_skips_QCHigh_counterexample :
    Update demoWorld 10 { demoPacemaker 0 with heap := demoChainNoNode } (some 3)
      = Except.ok { demoPacemaker 0 with heap := demoChainNoNode }
    ∧ Except.map Prod.snd
        (UpdateQCHigh { demoPacemaker 0 with heap := demoChainNoNode }
          (demoChainNoNode.cell 3).Justify) = Except.ok true
    ∧ ({ demoPacemaker 0 with heap := demoChainNoNode } : Pacemaker).QCHigh
        ≠ (demoChainNoNode.cell 3).Justify
    ∧ Update demoWorld 10 { demoPacemaker 0 with heap := demoChainCommitted } (some 3)
      = Except.ok { demoPacemaker 0 with heap := demoChainCommitted }
    ∧ Except.map Prod.snd
        (UpdateQCHigh { demoPacemaker 0 with heap := demoChainCommitted }
          (demoChainCommitted.cell 3).Justify) = Except.ok true
    ∧ ({ demoPacemaker 0 with heap := demoChainCommitted } : Pacemaker).QCHigh
        ≠ (demoChainCommitted.cell 3).Justify :=
  ⟨rfl, rfl, by decide, rfl, rfl, by decide⟩

/-- C24 (amended): for a returning `Update(bnew)`, when b' = `bnew.Justify.QCNode` is absent
or committed the pacemaker is left unchanged, `QCHigh` included; when b' is present and
uncommitted, `UpdateQCHigh(bnew.Justify)` was applied to the pacemaker the call started with:
`QCHigh` is as that call leaves it, and equals `bnew.Justify` whenever that call returns
true. -/
theorem Update_applies_UpdateQCHigh (w : World) (fuel : Nat) (p p' : Pacemaker) (bnew : Addr)
    (h : Update w fuel p (some bnew) = Except.ok p') :
    ((p.heap.qcNode (some bnew) = none
        ∨ ∃ bp, p.heap.qcNode (some bnew) = some bp ∧ (p.heap.cell bp).Committed = true)
      → p' = p)
    ∧ (∀ bp, p.heap.qcNode (some bnew) = some bp → (p.heap.cell bp).Committed = false →
        ∃ r, UpdateQCHigh p (p.heap.cell bnew).Justify = Except.ok r
          ∧ p'.QCHigh = r.1.QCHigh
          ∧ (r.2 = true → p'.QCHigh = (p.heap.cell bnew).Justify)) := by
  unfold Update at h
  obtain ⟨bnewD, h1, h⟩ := Run.bind_eq_ok h
  obtain ⟨justify, h2, h⟩ := Run.bind_eq_ok h
  simp only [Heap.deref, Except.ok.injEq] at h1
  subst h1
  have hj := nonNil_eq_ok h2
  have hq : p.heap.qcNode (some bnew) = justify.QCNode := by
    simp [Heap.qcNode, hj]
  rw [hq]
  dsimp only at h
  split at h
  · rename_i hnone
    simp only [pure, Except.pure, Except.ok.injEq] at h
    subst h
    exact ⟨fun _ => rfl, fun bp hbp => by rw [hnone] at hbp; cases hbp⟩
  · rename_i bp hbp
    rw [hbp]
    split at h
    · rename_i hc
      obtain ⟨u, hu, h⟩ := Run.bind_eq_ok h
      simp only [pure, Except.pure, Except.ok.injEq] at h
      subst h
      refine ⟨fun _ => rfl, fun bp' hbp' hc' => ?_⟩
      simp only [Option.some.injEq] at hbp'
      subst hbp'
      rw [hc] at hc'
      cases hc'
    · rename_i hc
      obtain ⟨bpJustify, h3, h⟩ := Run.bind_eq_ok h
      obtain ⟨blockD, h4, h⟩ := Run.bind_eq_ok h
      obtain ⟨u, h5, h⟩ := Run.bind_eq_ok h
      refine ⟨fun hearly => ?_, fun bp' hbp' _ => ?_⟩
      · rcases hearly with hn | ⟨bp', hbp', hc'⟩
        · cases hn
        · simp only [Option.some.injEq] at hbp'
          subst hbp'
          exact absurd hc' hc
      · split at h
        · rename_i hnone
          rw [hnone] at h4
          simp [Heap.deref] at h4
        · rename_i b hb
          obtain ⟨u1, h6, h⟩ := Run.bind_eq_ok h
          obtain ⟨u2, h7, h⟩ := Run.bind_eq_ok h
          obtain ⟨u3, h8, h⟩ := Run.bind_eq_ok h
          obtain ⟨r, h9, h⟩ := Run.bind_eq_ok h
          have hr := UpdateQCHigh_frame h9
          refine ⟨r, h9, UpdateCommit_QCHigh h, fun ht => ?_⟩
          rw [UpdateCommit_QCHigh h, hr, ht]
          rfl

/-- C24 (amended) at a concrete run: `Update` of the draft 3 in `demoPacemaker 0`, whose b' is
the uncommitted draft 2, returns with `QCHigh` as `UpdateQCHigh` of the draft's justify leaves
it. -/
theorem Update_applies_UpdateQCHigh_witness :
    Update demoWorld 10 (demoPacemaker 0) (some 3) = Except.ok demoUpdated
    ∧ demoUpdated.QCHigh = (demoChain.cell 3).Justify
    ∧ ∃ r, UpdateQCHigh (demoPacemaker 0) ((demoPacemaker 0).heap.cell 3).Justify = Except.ok r
        ∧ demoUpdated.QCHigh = r.1.QCHigh
        ∧ (r.2 = true → demoUpdated.QCHigh = ((demoPacemaker 0).heap.cell 3).Justify) :=
  ⟨rfl, by decide,
   (Update_applies_UpdateQCHigh demoWorld 10 (demoPacemaker 0) demoUpdated 3 rfl).2 2 rfl rfl⟩

/-- C25 (the code at an input of the claim): in `demoChain` the draft 1 has b' = draft 0,
present and uncommitted, and draft 0 has no QC node, so b is absent; `Update` of draft 1
faults, at the read of `block.Committed` that precedes the test `block == nil`. The same
happens with draft 3 for `bnew` in the chain where b' = draft 2 has a justify without a QC
node. -/
theorem Update_absent_b_faults :
    demoChain.qcNode (some 1) = some 0
    ∧ (demoChain.cell 0).Committed = false
    ∧ demoChain.qcNode (some 0) = none
    ∧ Update demoWorld 10 (demoPacemaker 0) (some 1) = Except.error Stop.fault
    ∧ Update demoWorld 10
        { demoPacemaker 0 with
          heap := { cell := fun a => if a = 2 then demoChainNoNode.cell a else demoChain.cell a
                    next := 4 } }
        (some 3) = Except.error Stop.fault :=
  ⟨rfl, rfl, rfl, rfl, rfl⟩

theorem drainCmdCh_eq_nil (l : List PMCmd) : drainCmdCh l = [] := by
  induction l with
  | nil => rfl
  | cons c rest ih => simpa [drainCmdCh] using ih

/-- C26 (the code on every state): when the main loop takes `PMCmdRegulate` from the command
channel (capacity 2, whatever else is buffered), the step returns with the pacemaker exactly
as it was, so `Regulate` did not run, and with `PMCmdRegulate` buffered again as the only
command. At a concrete state: `Regulate` would set `lastVotingHeight` from 5 to 0, the loop
step leaves it at 5. -/
theorem mainLoop_requeues_Regulate (p : Pacemaker) (rest : List PMCmd) :
    mainLoopCmd { pm := p, cmdCh := { buf := PMCmdRegulate :: rest, cap := 2 } }
      = Except.ok { pm := p, cmdCh := { buf := [PMCmdRegulate], cap := 2 } }
    ∧ Except.map Pacemaker.lastVotingHeight
        (Regulate demoWorld { demoPacemaker 0 with lastVotingHeight := 5 }) = Except.ok 0
    ∧ Except.map (fun s => (s.pm.lastVotingHeight, s.cmdCh.buf))
        (mainLoopCmd { pm := { demoPacemaker 0 with lastVotingHeight := 5 },
                       cmdCh := { buf := [PMCmdRegulate], cap := 2 } })
      = Except.ok (5, [PMCmdRegulate]) := by
  refine ⟨?_, rfl, rfl⟩
  simp [mainLoopCmd, Chan.recv, scheduleRegulate, Chan.send, drainCmdCh_eq_nil, bind,
    Except.bind, pure, Except.pure]

/-- C27 (the code on a state `Regulate` produces): `Regulate` in a world whose proposal map
has no draft for the best QC (height 5, round 2) leaves `QCHigh` with that QC and no QC node.
On that state `UpdateQCHigh` returns true for a candidate QC of height 6, and faults for the
candidates (5, 3) and (4, 0), whose height is not greater: the nil QC node is dereferenced. -/
theorem UpdateQCHigh_faults_after_Regulate :
    Regulate demoWorldEmptyNode (demoPacemaker 0) = Except.ok demoRegulatedEmpty
    ∧ demoRegulatedEmpty.QCHigh = some { QCNode := none, QC := some (demoQC 5 2) }
    ∧ Except.map Prod.snd
        (UpdateQCHigh demoRegulatedEmpty (some { QCNode := some 3, QC := some (demoQC 6 0) }))
      = Except.ok true
    ∧ Except.map Prod.snd
        (UpdateQCHigh demoRegulatedEmpty (some { QCNode := some 3, QC := some (demoQC 5 3) }))
      = Except.error Stop.fault
    ∧ Except.map Prod.snd
        (UpdateQCHigh demoRegulatedEmpty (some { QCNode := some 3, QC := some (demoQC 4 0) }))
      = Except.error Stop.fault :=
  ⟨rfl, rfl, rfl, rfl, rfl⟩

/-! ## Properties of the pending list, the outgoing queue and the staking tracker -/

theorem PendingList.Add_lowest_zero (p : PendingList) (mi : consensusMsgInfo)
    (h : p.lowest = 0) : (p.Add mi).lowest = 0 := by
  unfold PendingList.Add
  split
  · exact h
  · simp [h]

theorem PendingList.foldl_Add_lowest_zero (mis : List consensusMsgInfo) (p : PendingList)
    (h : p.lowest = 0) : (mis.foldl PendingList.Add p).lowest = 0 := by
  induction mis generalizing p with
  | nil => exact h
  | cons mi rest ih => exact ih _ (PendingList.Add_lowest_zero p mi h)

/-- C30 (the claim fails): after `Add` of a proposal with parent height 5 on a fresh pending
list, and then of one with parent height 7, the height keys are 5 and 7 and
`GetLowestHeight` returns 0. -/
theorem GetLowestHeight_not_smallest_key_counterexample :
    ((NewPendingList.Add (demoPending 5)).Add (demoPending 7)).heights = [5, 7]
    ∧ ((NewPendingList.Add (demoPending 5)).Add (demoPending 7)).GetLowestHeight = 0 :=
  ⟨by decide, by decide⟩

/-- C30 (amended): after every sequence of `Add` calls on a freshly created pending list,
`GetLowestHeight` returns 0, which is at most every height key of the pending messages. -/
theorem GetLowestHeight_fresh_list (mis : List consensusMsgInfo) :
    (mis.foldl PendingList.Add NewPendingList).GetLowestHeight = 0
    ∧ ∀ k ∈ (mis.foldl PendingList.Add NewPendingList).heights,
        (mis.foldl PendingList.Add NewPendingList).GetLowestHeight ≤ k := by
  have h0 : (mis.foldl PendingList.Add NewPendingList).GetLowestHeight = 0 :=
    PendingList.foldl_Add_lowest_zero mis NewPendingList rfl
  exact ⟨h0, fun k _ => by rw [h0]; exact Nat.zero_le k⟩

theorem OutgoingQueue.dropLoop_below (cap : Nat) (l : List OutgoingParcel)
    (h : l.length < cap) : OutgoingQueue.dropLoop cap l = Except.ok l := by
  cases l with
  | nil =>
    simp only [List.length_nil] at h
    unfold OutgoingQueue.dropLoop
    rw [if_neg (Nat.not_le.mpr h)]
    rfl
  | cons p rest =>
    unfold OutgoingQueue.dropLoop
    rw [if_neg (Nat.not_le.mpr h)]
    rfl

theorem OutgoingQueue.dropLoop_full (cap : Nat) (l : List OutgoingParcel)
    (h : l.length = cap) (hcap : 0 < cap) : OutgoingQueue.dropLoop cap l = Except.ok l.tail := by
  cases l with
  | nil => exact absurd hcap (by rw [← h]; simp)
  | cons p rest =>
    have hrest : rest.length < cap := by simp at h; omega
    unfold OutgoingQueue.dropLoop
    rw [if_pos (Nat.le_of_eq h.symm)]
    exact OutgoingQueue.dropLoop_below cap rest hrest

/-- C22: for an outgoing queue of positive capacity (2048 as `NewOutgoingQueue` makes it)
holding at most that many parcels, with no worker consuming, `Add` returns; the capacity is
unchanged and the length is still at most the capacity; when the queue held exactly capacity
parcels the oldest one is gone and the new parcel follows the others, and when it held fewer
the new parcel is appended and nothing is dropped. -/
theorem OutgoingQueue_Add_drops_oldest (q : OutgoingQueue) (toPeer : Option ConsensusPeer)
    (msg : ConsensusMessage) (rawMsg : Bytes) (relay : Bool) (now now' : Int)
    (hcap : 0 < q.queue.cap) (hlen : q.queue.buf.length ≤ q.queue.cap) :
    ∃ q', q.Add toPeer msg rawMsg relay now now' = Except.ok q'
      ∧ q'.queue.cap = q.queue.cap
      ∧ q'.queue.buf.length ≤ q'.queue.cap
      ∧ (q.queue.buf.length = q.queue.cap →
          q'.queue.buf = q.queue.buf.tail
            ++ [{ toPeer := toPeer, msg := msg, rawMsg := rawMsg, relay := relay, enqueueAt := now,
                  expireAt := now' + OUT_QUEUE_TTL }])
      ∧ (q.queue.buf.length < q.queue.cap →
          q'.queue.buf = q.queue.buf
            ++ [{ toPeer := toPeer, msg := msg, rawMsg := rawMsg, relay := relay, enqueueAt := now,
                  expireAt := now' + OUT_QUEUE_TTL }]) := by
  rcases Nat.lt_or_eq_of_le hlen with hlt | heq
  · refine ⟨{ queue := { buf := q.queue.buf
        ++ [{ toPeer := toPeer, msg := msg, rawMsg := rawMsg, relay := relay, enqueueAt := now,
              expireAt := now' + OUT_QUEUE_TTL }], cap := q.queue.cap } }, ?_, rfl, ?_, ?_, ?_⟩
    · unfold OutgoingQueue.Add
      rw [OutgoingQueue.dropLoop_below _ _ hlt]
      simp [Chan.send, hlt, bind, Except.bind, pure, Except.pure]
    · simp; omega
    · intro h; omega
    · intro _; rfl
  · have hpos : 0 < q.queue.buf.length := by omega
    have htail : q.queue.buf.tail.length < q.queue.cap := by
      rw [List.length_tail]; omega
    refine ⟨{ queue := { buf := q.queue.buf.tail
        ++ [{ toPeer := toPeer, msg := msg, rawMsg := rawMsg, relay := relay, enqueueAt := now,
              expireAt := now' + OUT_QUEUE_TTL }], cap := q.queue.cap } }, ?_, rfl, ?_, ?_, ?_⟩
    · unfold OutgoingQueue.Add
      rw [OutgoingQueue.dropLoop_full _ _ heq hcap]
      have htail' : q.queue.buf.length - 1 < q.queue.cap := by omega
      simp [Chan.send, htail', bind, Except.bind, pure, Except.pure]
    · simp only [List.length_append, List.length_singleton]; omega
    · intro _; rfl
    · intro h; omega

/-- C22 at a concrete queue: `Add` on the queue of capacity 2048 that holds the 2048 parcels
`demoParcel 0` to `demoParcel 2047` returns a queue without `demoParcel 0` whose last parcel
is the new one. -/
theorem OutgoingQueue_Add_drops_oldest_witness :
    (0 < demoFullQueue.queue.cap ∧ demoFullQueue.queue.buf.length ≤ demoFullQueue.queue.cap)
    ∧ ∃ q', demoFullQueue.Add none (demoProposal 3).Msg [] true 7 8 = Except.ok q'
      ∧ q'.queue.cap = demoFullQueue.queue.cap
      ∧ q'.queue.buf.length ≤ q'.queue.cap
      ∧ (demoFullQueue.queue.buf.length = demoFullQueue.queue.cap →
          q'.queue.buf = demoFullQueue.queue.buf.tail
            ++ [{ toPeer := none, msg := (demoProposal 3).Msg, rawMsg := [], relay := true,
                  enqueueAt := 7, expireAt := 8 + OUT_QUEUE_TTL }])
      ∧ (demoFullQueue.queue.buf.length < demoFullQueue.queue.cap →
          q'.queue.buf = demoFullQueue.queue.buf
            ++ [{ toPeer := none, msg := (demoProposal 3).Msg, rawMsg := [], relay := true,
                  enqueueAt := 7, expireAt := 8 + OUT_QUEUE_TTL }]) :=
  ⟨⟨by simp [demoFullQueue], by simp [demoFullQueue]⟩,
   OutgoingQueue_Add_drops_oldest demoFullQueue none (demoProposal 3).Msg [] true 7 8
     (by simp [demoFullQueue]) (by simp [demoFullQueue])⟩

/-- C29 (the code on every input, and at one of the claim): `UnboundMeterGov` returns exactly
what `BoundMeterGov` returns. After `BoundMeterGov(addr, amount)` and then
`UnboundMeterGov(addr, amount)` with a non-zero amount not above the balance, the balance is
the old one less the amount (when the second call fails for lack of balance) or less twice
the amount, and the bounded balance is the old one plus the amount or plus twice the amount.
With balance 100, bounded balance 0 and amount 30 the two calls leave 40 and 60. -/
theorem UnboundMeterGov_binds_again (e : MeterTracker) (addr : Address) (amount : Int) :
    e.UnboundMeterGov addr amount = e.BoundMeterGov addr amount
    ∧ ((e.BoundMeterGov addr amount).1.UnboundMeterGov addr amount).1.state.GetBalance addr
        = (if amount = 0 ∨ e.state.GetBalance addr < amount then e.state.GetBalance addr
           else if e.state.GetBalance addr - amount < amount then e.state.GetBalance addr - amount
           else e.state.GetBalance addr - amount - amount)
    ∧ ((e.BoundMeterGov addr amount).1.UnboundMeterGov addr amount).1.state.GetBoundedBalance
          addr
        = (if amount = 0 ∨ e.state.GetBalance addr < amount then e.state.GetBoundedBalance addr
           else if e.state.GetBalance addr - amount < amount then
             e.state.GetBoundedBalance addr + amount
           else e.state.GetBoundedBalance addr + amount + amount)
    ∧ ((demoTracker.BoundMeterGov 1 30).1.UnboundMeterGov 1 30).1.state.GetBalance 1 = 40
    ∧ ((demoTracker.BoundMeterGov 1 30).1.UnboundMeterGov 1 30).1.state.GetBoundedBalance 1
        = 60
    ∧ ((demoTracker.BoundMeterGov 1 30).1.UnboundMeterGov 1 30).2 = none := by
  refine ⟨rfl, ?_, ?_, by decide, by decide, by decide⟩
  · simp only [MeterTracker.BoundMeterGov, MeterTracker.UnboundMeterGov, State.GetBalance,
      State.GetBoundedBalance, State.SetBalance, State.SetBoundedBalance]
    by_cases h0 : amount = 0
    · simp [h0]
    · by_cases h1 : e.state.balance addr < amount
      · simp [h0, h1]
      · by_cases h2 : e.state.balance addr - amount < amount
        · simp [h0, h1, h2]
        · simp [h0, h1, h2]
  · simp only [MeterTracker.BoundMeterGov, MeterTracker.UnboundMeterGov, State.GetBalance,
      State.GetBoundedBalance, State.SetBalance, State.SetBoundedBalance]
    by_cases h0 : amount = 0
    · simp [h0]
    · by_cases h1 : e.state.balance addr < amount
      · simp [h0, h1]
      · by_cases h2 : e.state.balance addr - amount < amount
        · simp [h0, h1, h2]
        · simp [h0, h1, h2]

/-! ## Properties of the transaction object map -/

theorem GoMap.storeEntries_of_lookup_none {K V : Type} [DecidableEq K]
    (l : List (K × V)) (k : K) (v : V) (h : GoMap.lookupEntries l k = none) :
    GoMap.storeEntries l k v = l ++ [(k, v)] := by
  induction l with
  | nil => rfl
  | cons e rest ih =>
    obtain ⟨k0, v0⟩ := e
    by_cases hk : k0 = k
    · simp [GoMap.lookupEntries, hk] at h
    · simp only [GoMap.lookupEntries, if_neg hk] at h
      simp [GoMap.storeEntries, hk, ih h]

theorem GoMap.not_mem_keys_of_lookup_none {K V : Type} [DecidableEq K]
    (l : List (K × V)) (k : K) (h : GoMap.lookupEntries l k = none) :
    k ∉ l.map Prod.fst := by
  induction l with
  | nil => simp
  | cons e rest ih =>
    obtain ⟨k0, v0⟩ := e
    by_cases hk : k0 = k
    · simp [GoMap.lookupEntries, hk] at h
    · simp only [GoMap.lookupEntries, if_neg hk] at h
      simp only [List.map_cons, List.mem_cons, not_or]
      exact ⟨fun e => hk e.symm, ih h⟩

theorem GoMap.lookupEntries_storeEntries {K V : Type} [DecidableEq K]
    (l : List (K × V)) (k k' : K) (v : V) :
    GoMap.lookupEntries (GoMap.storeEntries l k v) k'
      = if k = k' then some v else GoMap.lookupEntries l k' := by
  induction l with
  | nil => simp [GoMap.storeEntries, GoMap.lookupEntries]
  | cons e rest ih =>
    obtain ⟨k0, v0⟩ := e
    by_cases hk : k0 = k
    · subst hk
      by_cases hk' : k0 = k'
      · simp [GoMap.storeEntries, GoMap.lookupEntries, hk']
      · simp [GoMap.storeEntries, GoMap.lookupEntries, hk']
    · by_cases hk' : k0 = k'
      · subst hk'
        simp [GoMap.storeEntries, GoMap.lookupEntries, hk, Ne.symm hk]
      · simp [GoMap.storeEntries, GoMap.lookupEntries, hk, hk', ih]

theorem GoMap.lookupEntries_filter_ne {K V : Type} [DecidableEq K]
    (l : List (K × V)) (k k' : K) :
    GoMap.lookupEntries (l.filter (fun e => !decide (e.1 = k))) k'
      = if k' = k then none else GoMap.lookupEntries l k' := by
  induction l with
  | nil => simp [GoMap.lookupEntries]
  | cons e rest ih =>
    obtain ⟨k0, v0⟩ := e
    by_cases hk : k0 = k
    · subst hk
      by_cases hk' : k' = k0
      · subst hk'
        simpa [List.filter_cons] using ih
      · have hne : ¬ k0 = k' := fun e => hk' e.symm
        simpa [List.filter_cons, GoMap.lookupEntries, hk', hne] using ih
    · by_cases hk0 : k0 = k'
      · subst hk0
        simp [List.filter_cons, GoMap.lookupEntries, hk]
      · simpa [List.filter_cons, GoMap.lookupEntries, hk, hk0] using ih

theorem GoMap.countP_filter_ne {K V : Type} [DecidableEq K] (P : K × V → Bool)
    (l : List (K × V)) (k : K) (v : V) (hnd : (l.map Prod.fst).Nodup)
    (h : GoMap.lookupEntries l k = some v) :
    (l.filter (fun e => !decide (e.1 = k))).countP P + (if P (k, v) = true then 1 else 0)
      = l.countP P := by
  induction l with
  | nil => simp [GoMap.lookupEntries] at h
  | cons e rest ih =>
    obtain ⟨k0, v0⟩ := e
    simp only [List.map_cons, List.nodup_cons] at hnd
    obtain ⟨hnot, hnd'⟩ := hnd
    by_cases hk : k0 = k
    · subst hk
      simp only [GoMap.lookupEntries, if_true, Option.some.injEq] at h
      subst h
      have hself : rest.filter (fun e => !decide (e.1 = k0)) = rest := by
        apply List.filter_eq_self.mpr
        intro e he
        have : e.1 ≠ k0 := fun heq => hnot (heq ▸ List.mem_map_of_mem Prod.fst he)
        simpa using this
      simp [List.filter_cons, hself, List.countP_cons]
    · simp only [GoMap.lookupEntries, if_neg hk] at h
      have := ih hnd' h
      simp only [List.filter_cons, hk, decide_False, Bool.not_false, if_true,
        List.countP_cons]
      omega

theorem txObjectMap.quotaOf_eq_stored {m : txObjectMap} (h : m.Consistent) (addr : Address) :
    m.quotaOf addr = (m.stored addr : Int) := by
  unfold txObjectMap.quotaOf
  rw [h.2 addr]
  split
  · rename_i h0
    simp [h0]
  · simp

theorem txObjectMap.fillOne_consistent {m : txObjectMap} (h : m.Consistent)
    (txObj : txObject) : (m.fillOne txObj).Consistent := by
  unfold txObjectMap.fillOne
  split
  · exact h
  · rename_i hfound
    have hnone : GoMap.lookupEntries m.txObjMap.entries txObj.ID = none := by
      simpa [GoMap.lookup] using hfound
    have hstore : GoMap.storeEntries m.txObjMap.entries txObj.ID txObj
        = m.txObjMap.entries ++ [(txObj.ID, txObj)] :=
      GoMap.storeEntries_of_lookup_none _ _ _ hnone
    refine ⟨?_, fun addr => ?_⟩
    · simp only [GoMap.store, hstore, List.map_append, List.map_cons, List.map_nil]
      rw [List.nodup_append]
      refine ⟨h.1, List.nodup_singleton _, ?_⟩
      intro a ha hb
      simp only [List.mem_singleton] at hb
      subst hb
      exact GoMap.not_mem_keys_of_lookup_none _ _ hnone ha
    · have hs : ∀ a, txObjectMap.stored
          { txObjMap := GoMap.store m.txObjMap txObj.ID txObj,
            quota := GoMap.store m.quota txObj.Origin (m.quotaOf txObj.Origin + 1) } a
          = m.stored a + (if txObj.Origin = a then 1 else 0) := by
        intro a
        simp only [txObjectMap.stored, GoMap.store, hstore, List.countP_append,
          List.countP_cons, List.countP_nil, decide_eq_true_eq]
        omega
      rw [hs addr]
      simp only [GoMap.lookup, GoMap.store, GoMap.lookupEntries_storeEntries]
      by_cases ho : txObj.Origin = addr
      · subst ho
        rw [txObjectMap.quotaOf_eq_stored h]
        simp
      · have := h.2 addr
        simp only [GoMap.lookup] at this
        simp [ho, this]

theorem txObjectMap.Fill_consistent (txObjs : List txObject) {m : txObjectMap}
    (h : m.Consistent) : (m.Fill txObjs).Consistent := by
  unfold txObjectMap.Fill
  induction txObjs generalizing m with
  | nil => exact h
  | cons t rest ih => exact ih (txObjectMap.fillOne_consistent h t)

theorem txObjectMap.Add_eq (m : txObjectMap) (txObj : txObject) (limitPerAccount : Int) :
    (m.Add txObj limitPerAccount).1 = m ∨ (m.Add txObj limitPerAccount).1 = m.fillOne txObj := by
  unfold txObjectMap.Add txObjectMap.fillOne
  by_cases hf : (m.txObjMap.lookup txObj.ID).isSome = true
  · left; simp [hf]
  · by_cases hq : m.quotaOf txObj.Origin ≥ limitPerAccount
    · left; simp [hf, hq]
    · right; simp [hf, hq]

theorem txObjectMap.Remove_consistent {m : txObjectMap} (h : m.Consistent)
    (txID : Bytes32) : (m.Remove txID).1.Consistent := by
  unfold txObjectMap.Remove
  split
  · rename_i txObj hl
    have hl' : GoMap.lookupEntries m.txObjMap.entries txID = some txObj := by
      simpa [GoMap.lookup] using hl
    have hcount : ∀ a, (m.txObjMap.entries.filter (fun e => !decide (e.1 = txID))).countP
          (fun e => decide (e.2.Origin = a)) + (if txObj.Origin = a then 1 else 0)
        = m.stored a := by
      intro a
      have := GoMap.countP_filter_ne (fun e : Bytes32 × txObject => decide (e.2.Origin = a))
        m.txObjMap.entries txID txObj h.1 hl'
      simpa [txObjectMap.stored] using this
    have hnd : ((m.txObjMap.entries.filter (fun e => !decide (e.1 = txID))).map
        Prod.fst).Nodup :=
      List.Nodup.sublist ((List.filter_sublist _).map Prod.fst) h.1
    have hq := txObjectMap.quotaOf_eq_stored h txObj.Origin
    refine ⟨?_, fun addr => ?_⟩
    · split <;> exact hnd
    · have hold := h.2 addr
      simp only [GoMap.lookup] at hold
      have hc := hcount addr
      by_cases hgt : m.quotaOf txObj.Origin > 1
      · simp only [if_pos hgt, txObjectMap.stored, GoMap.delete, GoMap.lookup, GoMap.store,
          GoMap.lookupEntries_storeEntries]
        by_cases ho : txObj.Origin = addr
        · subst ho
          rw [hq] at hgt ⊢
          rw [if_pos rfl] at hc
          have h1 : (1 : Int) < (m.stored txObj.Origin : Int) := hgt
          have h2 : 1 < m.stored txObj.Origin := by exact_mod_cast h1
          have h3 : ¬ (m.txObjMap.entries.filter (fun e => !decide (e.1 = txID))).countP
              (fun e => decide (e.2.Origin = txObj.Origin)) = 0 := by omega
          rw [if_pos rfl, if_neg h3]
          simp only [Option.some.injEq]
          omega
        · simp only [if_neg ho, add_zero] at hc
          rw [if_neg ho, hold, hc]
      · simp only [if_neg hgt, txObjectMap.stored, GoMap.delete, GoMap.lookup,
          GoMap.lookupEntries_filter_ne]
        rw [hq] at hgt
        have h1 : ¬ (1 : Int) < (m.stored txObj.Origin : Int) := hgt
        have h2 : ¬ 1 < m.stored txObj.Origin := by exact_mod_cast h1
        by_cases ho : addr = txObj.Origin
        · subst ho
          rw [if_pos rfl] at hc
          rw [if_pos rfl, if_pos (by omega)]
        · have ho' : ¬ txObj.Origin = addr := fun e => ho e.symm
          simp only [if_neg ho', add_zero] at hc
          rw [if_neg ho, hold, hc]
  · exact h

theorem TxOp.run_consistent {m : txObjectMap} (h : m.Consistent) (op : TxOp) :
    (op.run m).Consistent := by
  cases op with
  | Add txObj limitPerAccount =>
    rcases txObjectMap.Add_eq m txObj limitPerAccount with e | e
    · simp only [TxOp.run, e]; exact h
    · simp only [TxOp.run, e]; exact txObjectMap.fillOne_consistent h txObj
  | Remove txID => exact txObjectMap.Remove_consistent h txID
  | Fill txObjs => exact txObjectMap.Fill_consistent txObjs h

theorem TxOp.foldl_run_consistent (ops : List TxOp) {m : txObjectMap} (h : m.Consistent) :
    (ops.foldl TxOp.run m).Consistent := by
  induction ops generalizing m with
  | nil => exact h
  | cons op rest ih => exact ih (TxOp.run_consistent h op)

/-- C28: after every sequence of `Add`, `Remove` and `Fill` calls on the empty map, the map
holds one entry per transaction ID, and for every address the quota recorded is the number of
stored transaction objects of that origin, with no quota entry when that number is zero; and
on every map, `Add` of an object whose ID is stored returns nil and changes nothing, and `Add`
of an object whose ID is not stored while the quota of its origin is at or above
`limitPerAccount` returns the error and changes nothing. -/
theorem txObjectMap_quota_counts_stored (ops : List TxOp) (addr : Address) :
    ((ops.foldl TxOp.run newTxObjectMap).txObjMap.entries.map Prod.fst).Nodup
    ∧ (ops.foldl TxOp.run newTxObjectMap).quota.lookup addr
        = (if (ops.foldl TxOp.run newTxObjectMap).stored addr = 0 then none
           else some ((ops.foldl TxOp.run newTxObjectMap).stored addr : Int))
    ∧ (∀ (m : txObjectMap) (txObj : txObject) (limitPerAccount : Int),
        m.Contains txObj.ID = true → m.Add txObj limitPerAccount = (m, none))
    ∧ (∀ (m : txObjectMap) (txObj : txObject) (limitPerAccount : Int),
        m.Contains txObj.ID = false → m.quotaOf txObj.Origin ≥ limitPerAccount →
        m.Add txObj limitPerAccount = (m, some TxErr.quotaExceeded)) := by
  have h0 : newTxObjectMap.Consistent := by
    refine ⟨by simp [newTxObjectMap, GoMap.empty], fun a => ?_⟩
    simp [newTxObjectMap, GoMap.empty, GoMap.lookup, GoMap.lookupEntries, txObjectMap.stored]
  have h := TxOp.foldl_run_consistent ops h0
  refine ⟨h.1, h.2 addr, ?_, ?_⟩
  · intro m txObj limitPerAccount hc
    unfold txObjectMap.Contains at hc
    simp [txObjectMap.Add, hc]
  · intro m txObj limitPerAccount hc hq
    unfold txObjectMap.Contains at hc
    simp [txObjectMap.Add, hc, hq]

end Consensus
